import Mathlib

/-!
# prompt-mcp: prompt definitions, validation, resolution and loading

A shallow embedding of `internal/prompt/model.go`, `internal/prompt/validator.go`,
`internal/prompt/loader.go`, `internal/server/handlers.go`, and of the prompt
handler and the loading of prompts in `internal/server/server.go` with
`internal/storage/filesystem.go`.

Conventions of the embedding:

* Go strings are Lean `String`s (valid UTF-8 text); regular-expression matching
  works on the list of runes.
* A Go `error` is its message; a function returning `(T, error)` returns
  `Except String T`.
* `interface{}` values are the inductive type `Value`, one constructor per
  dynamic type the code distinguishes.
* `map[string]interface{}` is an association list in which a later write
  shadows an earlier one (`mapSet`, `mapGet`, `mapRange`).
* Functions of the Go standard library that depend on Unicode tables or on
  IEEE-754 arithmetic are fields of `GoRuntime`; a float64 is carried as its
  64-bit pattern.
* A pointer to a prompt is the prompt; a method that mutates its receiver
  returns the new value.
* `filepath.Walk` is the list of the calls it makes to the walk function, each
  with the outcome of reading and parsing the file (`WalkEntry`).
* Go's `int` has 64 bits and wraps around (`wrapInt`).
* Package `path/filepath` is the one of a system whose separator is `/` and
  whose volume names are empty. `filepath.Clean` holds its output buffer as the
  list of the path elements written to it; the loop of `filepath.Rel` runs on
  the remaining texts of both paths.
* A method that returns only an `error` returns the new state of its receiver
  and `Option String`, `none` for `nil`; calls of the MCP server library are
  kept as the list of the prompts registered.
-/

set_option linter.dupNamespace false

namespace PromptMCP

/-- Equality of results is decidable. -/
instance instDecidableEqExcept {ε α : Type} [DecidableEq ε] [DecidableEq α] :
    DecidableEq (Except ε α)
  | .ok a, .ok b => if h : a = b then isTrue (congrArg Except.ok h)
                    else isFalse (fun h2 => h (Except.ok.inj h2))
  | .error a, .error b => if h : a = b then isTrue (congrArg Except.error h)
                          else isFalse (fun h2 => h (Except.error.inj h2))
  | .ok _, .error _ => isFalse (fun h => Except.noConfusion h)
  | .error _, .ok _ => isFalse (fun h => Except.noConfusion h)

/-! ## Dynamic values -/

/-- A value stored in an `interface{}`. -/
inductive Value where
  | nil
  | str (s : String)
  | int (n : Int)
  | int64 (n : Int)
  | float32 (bits : Nat)
  | float64 (bits : Nat)
  | bool (b : Bool)
  | other (text : String)
  deriving DecidableEq, Repr

/-- The standard-library functions the program calls whose definitions rest on
Unicode tables or floating-point arithmetic. -/
structure GoRuntime where
  /-- `unicode.ToLower` on runes outside ASCII. -/
  unicodeToLower : Char → Char
  /-- `strconv.ParseFloat(s, 64)`: the bits of the result when `err == nil`. -/
  parseFloat : String → Option Nat
  /-- `float64(v)` for an `int`. -/
  floatOfInt : Int → Nat
  /-- `fmt.Sprintf("%v", f)` for a float64. -/
  formatFloat64 : Nat → String
  /-- `fmt.Sprintf("%v", f)` for a float32. -/
  formatFloat32 : Nat → String

/-- Rendering of a value by `fmt.Sprintf("%v", value)`. -/
def sprintV (rt : GoRuntime) : Value → String
  | .nil => "<nil>"
  | .str s => s
  | .int n => toString n
  | .int64 n => toString n
  | .float32 b => rt.formatFloat32 b
  | .float64 b => rt.formatFloat64 b
  | .bool b => if b then "true" else "false"
  | .other t => t

/-! ## Text helpers from package `strings` -/

/-- Rune predicate `unicode.IsSpace`. -/
def isSpace (c : Char) : Bool :=
  let n := c.toNat
  n == 0x09 || n == 0x0A || n == 0x0B || n == 0x0C || n == 0x0D || n == 0x20 ||
  n == 0x85 || n == 0xA0 || n == 0x1680 || (0x2000 ≤ n && n ≤ 0x200A) ||
  n == 0x2028 || n == 0x2029 || n == 0x202F || n == 0x205F || n == 0x3000

/-- Removal of the trailing runes that satisfy `f`. -/
def trimRightFunc (f : Char → Bool) (l : List Char) : List Char :=
  (l.reverse.dropWhile f).reverse

/-- Function `strings.TrimSpace`. -/
def trimSpace (s : String) : String :=
  String.mk (trimRightFunc isSpace (s.data.dropWhile isSpace))

/-- Function `strings.Trim(s, cutset)` on rune lists. -/
def trimCutset (cutset : List Char) (l : List Char) : List Char :=
  trimRightFunc (fun c => cutset.contains c) (l.dropWhile (fun c => cutset.contains c))

/-- Rune mapping used by `strings.ToLower`. -/
def lowerRune (rt : GoRuntime) (c : Char) : Char :=
  if c.toNat < 128 then c.toLower else rt.unicodeToLower c

/-- Function `strings.ToLower`. -/
def toLower (rt : GoRuntime) (s : String) : String :=
  String.mk (s.data.map (lowerRune rt))

/-! ## The data model (`model.go`) -/

/-- A `time.Time`, as seconds and nanoseconds since the zero time instant. -/
structure Time where
  sec : Int
  nsec : Nat
  deriving DecidableEq, Repr

/-- Method `Time.IsZero`. -/
def Time.IsZero (t : Time) : Bool := t.sec == 0 && t.nsec == 0

/-- Type `ArgumentType`, a named string type. -/
abbrev ArgumentType := String

def ArgumentTypeString : ArgumentType := "string"
def ArgumentTypeNumber : ArgumentType := "number"
def ArgumentTypeBoolean : ArgumentType := "boolean"

structure Metadata where
  ID : String
  Name : String
  Description : String
  Author : String
  Created : Time
  Modified : Time
  Version : String
  Tags : List String
  deriving DecidableEq, Repr

/-- One declared argument; `Typ` is the Go field `Type`, and `Default` is
`Value.nil` when no default is set. -/
structure Argument where
  Name : String
  Description : String
  Typ : ArgumentType
  Required : Bool
  Default : Value
  deriving DecidableEq, Repr

structure UsageStats where
  UsageCount : Int
  LastUsed : Time
  deriving DecidableEq, Repr

/-- A prompt template with metadata; the field `Prompt` is the template text. -/
structure Prompt where
  Metadata : Metadata
  Arguments : List Argument
  Prompt : String
  UsageStats : UsageStats
  FilePath : String
  deriving DecidableEq, Repr

/-! ## Maps -/

/-- A `map[string]interface{}`: association list, first entry for a key is live. -/
abbrev GoMap := List (String × Value)

/-- Lookup `v, ok := m[k]`. -/
def mapGet (m : GoMap) (k : String) : Option Value := List.lookup k m

/-- Assignment `m[k] = v`. -/
def mapSet (m : GoMap) (k : String) (v : Value) : GoMap := (k, v) :: m

/-- The entries visited by `for k, v := range m`: one per key, the live one. -/
def mapRange : GoMap → List (String × Value)
  | [] => []
  | (k, v) :: rest => (k, v) :: (mapRange rest).filter (fun e => e.1 != k)

/-! ## The pattern `\{\{(\w+)\}\}` -/

/-- Class `\w` of Go regular expressions: ASCII letters, digits, underscore. -/
def isWordChar (c : Char) : Bool :=
  ('a' ≤ c && c ≤ 'z') || ('A' ≤ c && c ≤ 'Z') || ('0' ≤ c && c ≤ '9') || c == '_'

/-- Match of the pattern anchored at the start of `s`: the captured name. The
greedy `\w+` takes the longest run of word runes, which `}}` must follow. -/
def matchPlaceholder : List Char → Option (List Char)
  | a :: b :: r =>
    if a = '{' ∧ b = '{' then
      let w := r.takeWhile isWordChar
      match r.dropWhile isWordChar with
      | x :: y :: _ => if x = '}' ∧ y = '}' ∧ w ≠ [] then some w else none
      | _ => none
    else none
  | _ => none

/-- The text matched by the pattern for a captured name. -/
def placeholderText (w : List Char) : List Char := '{' :: '{' :: w ++ ['}', '}']

/-- A piece of a scanned text: a rune outside every match, or one match. -/
inductive Piece where
  | text (c : Char)
  | hit (name : List Char)
  deriving DecidableEq, Repr

/-- Successive non-overlapping leftmost matches; `skip` counts the runes that
still belong to the match found last. -/
def scanFrom : Nat → List Char → List Piece
  | _, [] => []
  | skip + 1, _ :: rest => scanFrom skip rest
  | 0, c :: rest =>
    match matchPlaceholder (c :: rest) with
    | some w => Piece.hit w :: scanFrom (w.length + 3) rest
    | none => Piece.text c :: scanFrom 0 rest

/-- The decomposition of a text into matches and the runes between them. -/
def scan (s : List Char) : List Piece := scanFrom 0 s

/-- Method `Regexp.FindAllStringSubmatch(content, -1)`, submatch 1 of each match. -/
def findAllSubmatch (content : String) : List String :=
  (scan content.data).filterMap fun
    | .hit w => some (String.mk w)
    | .text _ => none

/-- Method `Regexp.ReplaceAllStringFunc`. -/
def replaceAllStringFunc (content : String) (repl : String → String) : String :=
  String.mk ((scan content.data).flatMap fun
    | .hit w => (repl (String.mk (placeholderText w))).data
    | .text c => [c])

/-! ## Argument resolution (`handlers.go`) -/

/-- Method `convertArgumentValue`: conversion of a value to a declared type. -/
def convertArgumentValue (rt : GoRuntime) (value : Value) (argType : ArgumentType) :
    Except String Value :=
  if argType = ArgumentTypeString then
    .ok (.str (sprintV rt value))
  else if argType = ArgumentTypeNumber then
    match value with
    | .float64 v => .ok (.float64 v)
    | .int v => .ok (.float64 (rt.floatOfInt v))
    | .str v =>
      match rt.parseFloat v with
      | some parsed => .ok (.float64 parsed)
      | none => .error ("cannot convert '" ++ v ++ "' to number")
    | _ => .error ("invalid number value: " ++ sprintV rt value)
  else if argType = ArgumentTypeBoolean then
    match value with
    | .bool v => .ok (.bool v)
    | .str v =>
      let lowerV := toLower rt (trimSpace v)
      if lowerV = "true" ∨ lowerV = "yes" ∨ lowerV = "1" ∨ lowerV = "on" then
        .ok (.bool true)
      else if lowerV = "false" ∨ lowerV = "no" ∨ lowerV = "0" ∨ lowerV = "off" ∨ lowerV = "" then
        .ok (.bool false)
      else
        .ok (.bool false)
    | _ => .error ("invalid boolean value: " ++ sprintV rt value)
  else
    .error ("unsupported argument type: " ++ argType)

/-- First loop of `resolvePromptContent`: the defaults, in declaration order. -/
def setDefaults (arguments : List Argument) (argValues : GoMap) : GoMap :=
  arguments.foldl
    (fun m arg => if arg.Default ≠ Value.nil then mapSet m arg.Name arg.Default else m)
    argValues

/-- Second loop: every entry of the caller map is written over the defaults.
A nil caller map is the empty map. -/
def overrideWith (args : GoMap) (argValues : GoMap) : GoMap :=
  (mapRange args).foldl (fun m e => mapSet m e.1 e.2) argValues

/-- Third loop: every required argument has a value. -/
def checkRequired (argValues : GoMap) : List Argument → Except String Unit
  | [] => .ok ()
  | arg :: rest =>
    if arg.Required ∧ mapGet argValues arg.Name = none then
      .error ("required argument '" ++ arg.Name ++ "' not provided")
    else checkRequired argValues rest

/-- Fourth loop: conversion of every value present, in declaration order; each
converted value is stored back before the next argument is looked at. -/
def convertAll (rt : GoRuntime) : List Argument → GoMap → Except String GoMap
  | [], argValues => .ok argValues
  | arg :: rest, argValues =>
    match mapGet argValues arg.Name with
    | some value =>
      match convertArgumentValue rt value arg.Typ with
      | .error err => .error ("argument '" ++ arg.Name ++ "': " ++ err)
      | .ok convertedValue => convertAll rt rest (mapSet argValues arg.Name convertedValue)
    | none => convertAll rt rest argValues

/-- The replacement function passed to `ReplaceAllStringFunc`. -/
def replacePlaceholder (rt : GoRuntime) (argValues : GoMap) (m : String) : String :=
  let varName := String.mk (trimCutset ['{', '}'] m.data)
  match mapGet argValues varName with
  | some value => sprintV rt value
  | none => m

/-- Method `resolvePromptContent`. -/
def resolvePromptContent (rt : GoRuntime) (promptObj : Prompt) (args : GoMap) :
    Except String String :=
  let content := promptObj.Prompt
  let argValues := overrideWith args (setDefaults promptObj.Arguments [])
  match checkRequired argValues promptObj.Arguments with
  | .error err => .error err
  | .ok _ =>
    match convertAll rt promptObj.Arguments argValues with
    | .error err => .error err
    | .ok argValues => .ok (replaceAllStringFunc content (replacePlaceholder rt argValues))

/-! ## Validation (`validator.go`) -/

/-- Function `isValidID`: the pattern `^[a-zA-Z0-9_-]+$`. -/
def isValidID (id : String) : Bool :=
  !id.data.isEmpty && id.data.all (fun c => c.isAlphanum || c == '_' || c == '-')

/-- Function `isValidArgumentName`: the pattern `^[a-zA-Z][a-zA-Z0-9_]*$`. -/
def isValidArgumentName (name : String) : Bool :=
  match name.data with
  | [] => false
  | c :: rest => c.isAlpha && rest.all (fun d => d.isAlphanum || d == '_')

/-- Function `isValidArgumentType`. -/
def isValidArgumentType (argType : ArgumentType) : Bool :=
  argType == ArgumentTypeString || argType == ArgumentTypeNumber ||
    argType == ArgumentTypeBoolean

/-- Function `validateArgumentDefault`. -/
def validateArgumentDefault (defaultValue : Value) (argType : ArgumentType) :
    Except String Unit :=
  if argType = ArgumentTypeString then
    match defaultValue with
    | .str _ => .ok ()
    | _ => .error "default value must be a string"
  else if argType = ArgumentTypeNumber then
    match defaultValue with
    | .int _ | .int64 _ | .float32 _ | .float64 _ => .ok ()
    | _ => .error "default value must be a number"
  else if argType = ArgumentTypeBoolean then
    match defaultValue with
    | .bool _ => .ok ()
    | _ => .error "default value must be a boolean"
  else .ok ()

/-- Function `validateMetadata`. -/
def validateMetadata (metadata : Metadata) : Except String Unit :=
  if trimSpace metadata.ID = "" then .error "id is required"
  else if !isValidID metadata.ID then
    .error "id must contain only alphanumeric characters, hyphens, and underscores"
  else if trimSpace metadata.Name = "" then .error "name is required"
  else if trimSpace metadata.Description = "" then .error "description is required"
  else if trimSpace metadata.Author = "" then .error "author is required"
  else if trimSpace metadata.Version = "" then .error "version is required"
  else if metadata.Created.IsZero then .error "created timestamp is required"
  else if metadata.Modified.IsZero then .error "modified timestamp is required"
  else .ok ()

/-- The loop of `validateArguments` from index `i` on, with the set `namesSeen`
of the names met so far. -/
def validateArgumentsFrom (i : Nat) (namesSeen : List String) :
    List Argument → Except String Unit
  | [] => .ok ()
  | arg :: rest =>
    if trimSpace arg.Name = "" then
      .error ("argument " ++ toString i ++ ": name is required")
    else if !isValidArgumentName arg.Name then
      .error ("argument " ++ toString i ++
        ": name must contain only alphanumeric characters and underscores")
    else if namesSeen.contains arg.Name then
      .error ("argument " ++ toString i ++ ": duplicate name '" ++ arg.Name ++ "'")
    else if trimSpace arg.Description = "" then
      .error ("argument " ++ toString i ++ " (" ++ arg.Name ++ "): description is required")
    else if !isValidArgumentType arg.Typ then
      .error ("argument " ++ toString i ++ " (" ++ arg.Name ++ "): invalid type '" ++
        arg.Typ ++ "'")
    else
      match (if arg.Default ≠ Value.nil then validateArgumentDefault arg.Default arg.Typ
             else .ok ()) with
      | .error err => .error ("argument " ++ toString i ++ " (" ++ arg.Name ++ "): " ++ err)
      | .ok _ => validateArgumentsFrom (i + 1) (arg.Name :: namesSeen) rest

/-- Function `validateArguments`. -/
def validateArguments (arguments : List Argument) : Except String Unit :=
  validateArgumentsFrom 0 [] arguments

/-- The order in which `range` visits the keys of a map: some permutation,
chosen by the runtime. -/
structure RangeOrder where
  order : List String → List String
  perm : ∀ l, List.Perm (order l) l

/-- The order that visits keys in the order of their first write. -/
def RangeOrder.inOrder : RangeOrder := ⟨fun l => l, fun _ => List.Perm.refl _⟩

/-- Function `validatePromptContent`; `usedVariables` and `definedArgs` are key
sets, written one key at a time. -/
def validatePromptContent (ord : RangeOrder) (content : String) (arguments : List Argument) :
    Except String Unit :=
  if trimSpace content = "" then .error "prompt content is required"
  else
    let allMatches := findAllSubmatch content
    let usedVariables := allMatches.dedup
    let definedArgs := arguments.map (fun arg => arg.Name)
    match (ord.order usedVariables).find? (fun name => !definedArgs.contains name) with
    | some name => .error ("undefined variable '" ++ name ++ "' used in prompt")
    | none =>
      match arguments.find? (fun arg => arg.Required && !usedVariables.contains arg.Name) with
      | some arg => .error ("required argument '" ++ arg.Name ++ "' is not used in prompt")
      | none => .ok ()

/-- Function `ValidatePrompt`. -/
def ValidatePrompt (ord : RangeOrder) (prompt : Prompt) : Except String Unit :=
  match validateMetadata prompt.Metadata with
  | .error err => .error ("metadata validation failed: " ++ err)
  | .ok _ =>
    match validateArguments prompt.Arguments with
    | .error err => .error ("arguments validation failed: " ++ err)
    | .ok _ =>
      match validatePromptContent ord prompt.Prompt prompt.Arguments with
      | .error err => .error ("prompt content validation failed: " ++ err)
      | .ok _ => .ok ()

/-! ## The library (`model.go`) -/

/-- Type `PromptLibrary`: the map from prompt id to prompt; the first entry for an
id is the live one. -/
structure PromptLibrary where
  Prompts : List (String × Prompt)
  deriving DecidableEq, Repr

/-- Function `NewPromptLibrary`. -/
def NewPromptLibrary : PromptLibrary := { Prompts := [] }

/-- Method `AddPrompt`: the assignment `pl.Prompts[prompt.Metadata.ID] = prompt`;
it returns nothing. -/
def PromptLibrary.AddPrompt (pl : PromptLibrary) (prompt : Prompt) : PromptLibrary :=
  { Prompts := (prompt.Metadata.ID, prompt) :: pl.Prompts }

/-- Method `GetPrompt`: `some prompt` for `(prompt, true)`, `none` for not found. -/
def PromptLibrary.GetPrompt (pl : PromptLibrary) (id : String) : Option Prompt :=
  List.lookup id pl.Prompts

/-! ## The loader (`loader.go`) -/

/-- Function `strings.HasSuffix`. -/
def hasSuffix (s suffix : String) : Bool := suffix.data.isSuffixOf s.data

/-- One call of the walk function by `filepath.Walk`: the path, whether it is a
directory, the error the walk hands over, and what reading and parsing the file
give (`os.ReadFile`, `yaml.Unmarshal`); `order` is the order in which the keys
of the template are visited when this file is validated. -/
structure WalkEntry where
  path : String
  isDir : Bool
  walkErr : Option String
  readErr : Option String
  parsed : Except String Prompt
  order : RangeOrder

/-- Method `LoadPrompt`, on the file of a walk entry. -/
def LoadPrompt (e : WalkEntry) : Except String Prompt :=
  match e.readErr with
  | some err => .error ("failed to read file: " ++ err)
  | none =>
    match e.parsed with
    | .error err => .error ("failed to parse YAML: " ++ err)
    | .ok prompt =>
      match ValidatePrompt e.order prompt with
      | .error err => .error ("prompt validation failed: " ++ err)
      | .ok _ => .ok prompt

/-- The function that `LoadAllPrompts` passes to `filepath.Walk`, as a step on
the library. -/
def walkFn (rt : GoRuntime) (library : PromptLibrary) (e : WalkEntry) :
    Except String PromptLibrary :=
  match e.walkErr with
  | some err => .error err
  | none =>
    if e.isDir || !hasSuffix (toLower rt e.path) ".yaml" then .ok library
    else
      match LoadPrompt e with
      | .error err => .error ("failed to load prompt from " ++ e.path ++ ": " ++ err)
      | .ok loaded =>
        let prompt := { loaded with FilePath := e.path }
        match library.GetPrompt prompt.Metadata.ID with
        | some _ =>
          .error ("duplicate prompt ID '" ++ prompt.Metadata.ID ++ "' found in file " ++ e.path)
        | none => .ok (library.AddPrompt prompt)

/-- Function `filepath.Walk` over the entries it visits: it stops at the first
error the walk function returns. -/
def walk (rt : GoRuntime) : PromptLibrary → List WalkEntry → Except String PromptLibrary
  | library, [] => .ok library
  | library, e :: rest =>
    match walkFn rt library e with
    | .error err => .error err
    | .ok library2 => walk rt library2 rest

/-- Method `LoadAllPrompts`, for the prompts directory `promptsDir` and the
entries the walk visits. -/
def LoadAllPrompts (rt : GoRuntime) (promptsDir : String) (entries : List WalkEntry) :
    Except String PromptLibrary :=
  match walk rt NewPromptLibrary entries with
  | .error err => .error ("failed to load prompts from directory " ++ promptsDir ++ ": " ++ err)
  | .ok library => .ok library

/-! ## The prompt handler (`server.go`) -/

/-- Wrap-around of Go's `int` arithmetic, on a platform where `int` has 64 bits. -/
def wrapInt (n : Int) : Int := (n + 2 ^ 63) % 2 ^ 64 - 2 ^ 63

/-- Method `updateUsageStats`: the statement `promptObj.UsageStats.UsageCount++`. -/
def updateUsageStats (promptObj : Prompt) : Prompt :=
  { promptObj with
    UsageStats := { promptObj.UsageStats with
      UsageCount := wrapInt (promptObj.UsageStats.UsageCount + 1) } }

/-- The result built by `mcp.NewGetPromptResult`: a description and one message
of role user with a text content. -/
structure GetPromptResult where
  Description : String
  Role : String
  Text : String
  deriving DecidableEq, Repr

/-- The handler returned by `createPromptHandler(p)`, applied to the arguments
of a request: the prompt after the call and the result. -/
def promptHandler (rt : GoRuntime) (p : Prompt) (requestArguments : GoMap) :
    Prompt × Except String GetPromptResult :=
  let args := (mapRange requestArguments).foldl (fun m e => mapSet m e.1 e.2) []
  match resolvePromptContent rt p args with
  | .error err => (p, .error ("failed to resolve prompt content: " ++ err))
  | .ok resolvedContent =>
    (updateUsageStats p,
      .ok { Description := p.Metadata.Name, Role := "user", Text := resolvedContent })

/-! ## Paths (`path/filepath` and `strings`, for the separator `/`) -/

/-- Function `os.IsPathSeparator`. -/
def isPathSeparator (c : Char) : Bool := c == '/'

/-- Function `strings.Split(s, string(filepath.Separator))`: the texts between
the separators; it returns one empty text for the empty string. -/
def splitSep : List Char → List (List Char)
  | [] => [[]]
  | c :: rest =>
    if isPathSeparator c then [] :: splitSep rest
    else
      match splitSep rest with
      | [] => [[c]]
      | first :: more => (c :: first) :: more

/-- Path elements written one after the other with a separator between them. -/
def joinSep : List (List Char) → List Char
  | [] => []
  | [e] => e
  | e :: next :: rest => e ++ '/' :: joinSep (next :: rest)

/-- One round of the loop of `filepath.Clean`, on the path element `elem` that
it reads; `out` is the buffer, held as the list of the elements written to it,
the last one first. An empty element and `.` are dropped; `..` removes the last
element written if that is not `..` itself, is dropped at the root, and is
written otherwise; every other element is written. -/
def cleanStep (rooted : Bool) (out : List (List Char)) (elem : List Char) : List (List Char) :=
  if elem = [] ∨ elem = ['.'] then out
  else if elem = ['.', '.'] then
    match out with
    | last :: before => if last = ['.', '.'] then elem :: out else before
    | [] => if rooted then out else [elem]
  else elem :: out

/-- Function `filepath.Clean`. -/
def Clean (path : String) : String :=
  if path = "" then "."
  else
    let rooted := path.data.head?.any isPathSeparator
    let out := (splitSep path.data).foldl (cleanStep rooted) []
    let text := (if rooted then ['/'] else []) ++ joinSep out.reverse
    if text = [] then "." else String.mk text

/-- The loop of `filepath.Rel` that positions both paths at their first
differing elements: the leading elements that base and target share are passed
over. The arguments are what is left of `base` and of `targ` when a round
begins; the result is the element of `base` at which the loop is left (empty
when `base` is used up), what is left of `base` from that element on, and what
is left of `targ`. Every round that goes on takes at least one rune off one of
the paths, so that `fuel` rounds are enough when `fuel` is the sum of their
lengths. -/
def relLoop : Nat → List Char → List Char → List Char × List Char × List Char
  | 0, b, t => ([], b, t)
  | fuel + 1, b, t =>
    if b = [] ∧ t = [] then ([], b, t)
    else
      let eb := b.takeWhile (fun c => !isPathSeparator c)
      let et := t.takeWhile (fun c => !isPathSeparator c)
      if et ≠ eb then (eb, b, t)
      else
        relLoop fuel ((b.dropWhile (fun c => !isPathSeparator c)).drop 1)
          ((t.dropWhile (fun c => !isPathSeparator c)).drop 1)

/-- Function `filepath.Rel`; volume names are empty. Both paths are cleaned,
and a path that cleans to `.` has no elements. The target cannot be reached
when one path is rooted and the other is not, or when the first element of
`base` that the target does not share is `..`; otherwise the result goes up
once for every element left of `base` and then down what is left of `targ`. -/
def Rel (basepath targpath : String) : Except String String :=
  let base := (Clean basepath).data
  let targ := (Clean targpath).data
  if targ = base then .ok "."
  else
    let base := if base = ['.'] then [] else base
    let targ := if targ = ['.'] then [] else targ
    let baseSlashed := base.head?.any isPathSeparator
    let targSlashed := targ.head?.any isPathSeparator
    if baseSlashed ≠ targSlashed then
      .error ("Rel: can't make " ++ targpath ++ " relative to " ++ basepath)
    else
      match relLoop (base.length + targ.length) base targ with
      | (elem, baseLeft, targLeft) =>
        if elem = ['.', '.'] then
          .error ("Rel: can't make " ++ targpath ++ " relative to " ++ basepath)
        else if baseLeft ≠ [] then
          let seps := baseLeft.count '/'
          .ok (String.mk (['.', '.'] ++ (List.replicate seps ['/', '.', '.']).flatten
            ++ (if targLeft ≠ [] then '/' :: targLeft else [])))
        else .ok (String.mk targLeft)

/-- Function `filepath.Base`. -/
def Base (path : String) : String :=
  if path = "" then "."
  else
    let stripped := trimRightFunc isPathSeparator path.data
    let last := (stripped.reverse.takeWhile (fun c => !isPathSeparator c)).reverse
    if last = [] then "/" else String.mk last

/-- Function `filepath.Ext`: the text from the last dot of the last element on. -/
def Ext (path : String) : String :=
  let tail := path.data.reverse.takeWhile (fun c => !isPathSeparator c)
  if tail.contains '.' then String.mk ('.' :: (tail.takeWhile (fun c => c != '.')).reverse)
  else ""

/-- Function `strings.TrimSuffix`. -/
def trimSuffix (s suffix : String) : String :=
  if hasSuffix s suffix then String.mk (s.data.take (s.data.length - suffix.data.length))
  else s

/-- Method `GetCategoryFromPath` of a loader for the directory `promptsDir`. -/
def GetCategoryFromPath (promptsDir filePath : String) : String :=
  match Rel promptsDir filePath with
  | .error _ => "uncategorized"
  | .ok relPath =>
    let parts := splitSep relPath.data
    if parts.length > 1 then String.mk (parts.headD []) else "uncategorized"

/-- Method `GeneratePromptURI` of a loader for the directory `promptsDir`. -/
def GeneratePromptURI (promptsDir filePath : String) : String :=
  let category := GetCategoryFromPath promptsDir filePath
  let fileName := Base filePath
  let promptName := trimSuffix fileName (Ext fileName)
  "prompt://" ++ category ++ "/" ++ promptName

/-! ## The server (`filesystem.go`, `server.go`) -/

/-- The order in which `range` visits the prompts of a library: some
permutation, chosen by the runtime. -/
structure ListOrder where
  order : List Prompt → List Prompt
  perm : ∀ l, List.Perm (order l) l

/-- The order that visits prompts in the order of their first write. -/
def ListOrder.inOrder : ListOrder := ⟨fun l => l, fun _ => List.Perm.refl _⟩

/-- The entries visited by `for _, prompt := range pl.Prompts`: one per id, the
live one. -/
def liveEntries : List (String × Prompt) → List (String × Prompt)
  | [] => []
  | (k, v) :: rest => (k, v) :: (liveEntries rest).filter (fun e => e.1 != k)

/-- Method `ListPrompts`. -/
def PromptLibrary.ListPrompts (ord : ListOrder) (pl : PromptLibrary) : List Prompt :=
  ord.order ((liveEntries pl.Prompts).map (fun e => e.2))

/-- Type `Loader`. -/
structure Loader where
  promptsDir : String
  deriving DecidableEq, Repr

/-- Type `FileSystemStorage`, with the loader that `NewFileSystemStorage` builds
for the configured prompts directory. -/
structure FileSystemStorage where
  loader : Loader
  deriving DecidableEq, Repr

/-- Method `LoadLibrary`: `fs.loader.LoadAllPrompts()`, over the entries the
walk visits at the time of the call. -/
def FileSystemStorage.LoadLibrary (rt : GoRuntime) (fs : FileSystemStorage)
    (entries : List WalkEntry) : Except String PromptLibrary :=
  LoadAllPrompts rt fs.loader.promptsDir entries

/-- Type `Server`. The field `mcpServer` is the list of the calls of
`mcpServer.AddPrompt` made so far, the latest first, each given by the prompt
its handler is bound to; `library` is `none` for a nil pointer. -/
structure Server where
  mcpServer : List Prompt
  storage : FileSystemStorage
  library : Option PromptLibrary
  deriving DecidableEq, Repr

/-- Method `registerPrompts`: one call of `mcpServer.AddPrompt` for each prompt
that `s.library.ListPrompts()` lists. The Go code dereferences `s.library` and
panics on a nil pointer: the method is defined on a server whose library is
set, `library` being the library that `s.library` points to. -/
def Server.registerPrompts (ord : ListOrder) (s : Server) (library : PromptLibrary)
    (_ : s.library = some library) : Server :=
  { s with mcpServer := (library.ListPrompts ord).foldl (fun reg p => p :: reg) s.mcpServer }

/-- Method `LoadPrompts`: the server after the call and the error returned
(`none` for `nil`). -/
def Server.LoadPrompts (rt : GoRuntime) (ord : ListOrder) (s : Server)
    (entries : List WalkEntry) : Server × Option String :=
  match s.storage.LoadLibrary rt entries with
  | .error err => (s, some ("failed to load prompt library: " ++ err))
  | .ok library =>
    (Server.registerPrompts ord { s with library := some library } library rfl, none)

/-- Method `Reload`. -/
def Server.Reload (rt : GoRuntime) (ord : ListOrder) (s : Server)
    (entries : List WalkEntry) : Server × Option String :=
  s.LoadPrompts rt ord entries

/-! ## Sample data -/

/-- A runtime for the examples below. Their inputs are ASCII text, so
`unicodeToLower` is never consulted; the only string they hand to `parseFloat`
is "abc", which `strconv.ParseFloat` rejects; and none of them holds a float, so
the remaining fields are never consulted. -/
def sampleRuntime : GoRuntime where
  unicodeToLower := fun c => c
  parseFloat := fun _ => none
  floatOfInt := fun _ => 0
  formatFloat64 := fun _ => ""
  formatFloat32 := fun _ => ""

/-- The required string argument `name`. -/
def nameArgument : Argument :=
  { Name := "name", Description := "Test name", Typ := ArgumentTypeString,
    Required := true, Default := Value.nil }

/-- The required number argument `count`. -/
def countArgument : Argument :=
  { Name := "count", Description := "How many", Typ := ArgumentTypeNumber,
    Required := true, Default := Value.nil }

/-- The definition of the Hello scenario: one required string argument. -/
def helloPrompt : Prompt where
  Metadata := {
    ID := "test-prompt", Name := "Test Prompt", Description := "A test prompt",
    Author := "test", Created := ⟨63891885600, 0⟩, Modified := ⟨63891885600, 0⟩,
    Version := "1.0.0", Tags := ["test"] }
  Arguments := [nameArgument]
  Prompt := "Hello {{name}}!"
  UsageStats := { UsageCount := 0, LastUsed := ⟨63891885600, 0⟩ }
  FilePath := ""

/-- The argument `name` of `greetPrompt`: optional, default "World". -/
def greetName : Argument :=
  { Name := "name", Description := "Who to greet", Typ := ArgumentTypeString,
    Required := false, Default := Value.str "World" }

/-- The Hello definition with the optional argument `greetName`. -/
def greetPrompt : Prompt :=
  { helloPrompt with Arguments := [greetName] }

/-- A definition with a boolean argument `flag` declared before a number
argument `count`, both used in the template. -/
def flagCountPrompt : Prompt :=
  { helloPrompt with
    Arguments := [
      { Name := "flag", Description := "A switch", Typ := ArgumentTypeBoolean,
        Required := true, Default := Value.nil },
      countArgument]
    Prompt := "{{flag}} {{count}}" }

/-- A definition that declares the name `x` twice, as a boolean and then as a
number. -/
def retypedPrompt : Prompt :=
  { helloPrompt with
    Arguments := [
      { Name := "x", Description := "first", Typ := ArgumentTypeBoolean,
        Required := false, Default := Value.nil },
      { Name := "x", Description := "second", Typ := ArgumentTypeNumber,
        Required := false, Default := Value.nil }]
    Prompt := "{{x}}" }

/-- The definition loaded by `TestLoadPrompt`. -/
def testLoadPrompt : Prompt :=
  { helloPrompt with Prompt := "Hello {{name}}!\n" }

/-- A definition with a required number argument `count` that its template does
not use. -/
def unusedCountPrompt : Prompt :=
  { helloPrompt with
    Arguments := [nameArgument, countArgument] }

/-- A definition that declares `name` twice. -/
def duplicateNamePrompt : Prompt :=
  { helloPrompt with Arguments := [nameArgument, nameArgument] }

/-- A definition that declares `name` twice, the first time with a blank
description. -/
def blankDescriptionPrompt : Prompt :=
  { helloPrompt with
    Arguments := [{ nameArgument with Description := " " }, nameArgument] }

/-- A definition that declares `name` twice and has an empty id. -/
def emptyIdPrompt : Prompt :=
  { helloPrompt with
    Metadata := { helloPrompt.Metadata with ID := "" }
    Arguments := [nameArgument, nameArgument] }

/-- A definition whose id is not empty but violates the id pattern, and whose
name is empty. -/
def badIdPrompt : Prompt :=
  { helloPrompt with
    Metadata := { helloPrompt.Metadata with ID := "bad id", Name := "" } }

/-- The Hello definition with its usage counter at the largest `int`. -/
def fullCounterPrompt : Prompt :=
  { helloPrompt with UsageStats := { helloPrompt.UsageStats with UsageCount := 2 ^ 63 - 1 } }

/-- The bit pattern of the float64 1000000: exponent field `0x412`, that is
`2^19`, and fraction `0xE848000000000`. -/
def millionBits : Nat := 0x412E848000000000

/-- A runtime that agrees with Go on the number 1000000, the only number of the
examples that use it: `strconv.ParseFloat("1000000", 64)` and `float64(1000000)`
are the float64 1000000, and `fmt.Sprintf("%v", float64(1000000))` is "1e+06". -/
def millionRuntime : GoRuntime where
  unicodeToLower := fun c => c
  parseFloat := fun s => if s = "1000000" then some millionBits else none
  floatOfInt := fun n => if n = 1000000 then millionBits else 0
  formatFloat64 := fun b => if b = millionBits then "1e+06" else ""
  formatFloat32 := fun _ => ""

/-- A definition with the required number argument `count`, without default. -/
def countPrompt : Prompt :=
  { helloPrompt with Arguments := [countArgument], Prompt := "Count: {{count}}" }

/-- The definition `countPrompt` with the `int` default 1000000. -/
def countDefaultPrompt : Prompt :=
  { helloPrompt with
    Arguments := [{ countArgument with Default := Value.int 1000000 }]
    Prompt := "Count: {{count}}" }

/-- The definition `countPrompt` with the `int64` default 5. -/
def int64DefaultPrompt : Prompt :=
  { helloPrompt with
    Arguments := [{ countArgument with Default := Value.int64 5 }]
    Prompt := "Count: {{count}}" }

/-- The optional string argument `title`, without default. -/
def titleArgument : Argument :=
  { Name := "title", Description := "A title", Typ := ArgumentTypeString,
    Required := false, Default := Value.nil }

/-- A definition with the required `name` and the optional `title`. -/
def titlePrompt : Prompt :=
  { helloPrompt with
    Arguments := [nameArgument, titleArgument]
    Prompt := "Hello {{title}} {{name}}!" }

/-- The walk entry of a readable YAML file at `path` that parses to `prompt`. -/
def fileEntry (path : String) (prompt : Prompt) : WalkEntry :=
  { path := path, isDir := false, walkErr := none, readErr := none,
    parsed := Except.ok prompt, order := RangeOrder.inOrder }

/-- A valid definition with the id "greet". -/
def greetIdPrompt : Prompt :=
  { testLoadPrompt with Metadata := { testLoadPrompt.Metadata with ID := "greet" } }

/-- A second valid definition with the id "greet", under another name. -/
def greetIdPrompt2 : Prompt :=
  { testLoadPrompt with
    Metadata := { testLoadPrompt.Metadata with ID := "greet", Name := "Second" } }

/-- The walk entry of the directory "prompts". -/
def promptsDirEntry : WalkEntry :=
  { path := "prompts", isDir := true, walkErr := none, readErr := none,
    parsed := Except.error "", order := RangeOrder.inOrder }

/-- A walk over a directory and two files that both declare the id "greet". -/
def twoGreetEntries : List WalkEntry :=
  [ promptsDirEntry,
    fileEntry "prompts/a.yaml" greetIdPrompt,
    fileEntry "prompts/b.yaml" greetIdPrompt2 ]

/-- A walk over a directory and two files with the ids "greet" and "test-prompt". -/
def twoFileEntries : List WalkEntry :=
  [ promptsDirEntry,
    fileEntry "prompts/a.yaml" greetIdPrompt,
    fileEntry "prompts/t.yaml" testLoadPrompt ]

/-- The walk entry of a readable file "prompts/x.yml" that holds the valid
definition `greetIdPrompt`. -/
def ymlEntry : WalkEntry := fileEntry "prompts/x.yml" greetIdPrompt

/-- A walk over a directory, a file "a.yaml" and a file "x.yml". -/
def yamlAndYmlEntries : List WalkEntry :=
  [ promptsDirEntry,
    fileEntry "prompts/a.yaml" testLoadPrompt,
    ymlEntry ]

/-- A server for the directory "prompts" whose library holds the Hello
definition, registered with the MCP server. -/
def loadedServer : Server :=
  { mcpServer := [helloPrompt], storage := { loader := { promptsDir := "prompts" } },
    library := some (NewPromptLibrary.AddPrompt helloPrompt) }

/-- The required string argument `other`. -/
def otherArgument : Argument :=
  { Name := "other", Description := "Another name", Typ := ArgumentTypeString,
    Required := true, Default := Value.nil }

/-- A definition with the required string arguments `name` and `other`, both
used in the template. -/
def nestedPrompt : Prompt :=
  { helloPrompt with
    Arguments := [nameArgument, otherArgument]
    Prompt := "{{name}} and {{other}}" }

/-- A caller map whose value for `name` is the text of the placeholder of
`other`. -/
def nestedArgs : GoMap := [("name", Value.str "{{other}}"), ("other", Value.str "X")]

/-! ## Specification-level notions -/

/-- Two maps with the same lookups. -/
def MapEq (m m2 : GoMap) : Prop := ∀ k, mapGet m k = mapGet m2 k

/-- The default declared for a name: the one of the last argument of that name
that carries a default. -/
def defaultOf : List Argument → String → Option Value
  | [], _ => none
  | arg :: rest, k =>
    match defaultOf rest k with
    | some v => some v
    | none => if arg.Name = k ∧ arg.Default ≠ Value.nil then some arg.Default else none

/-- The effective value of a name: the caller's entry, else the declared default. -/
def effectiveValue (promptObj : Prompt) (args : GoMap) (k : String) : Option Value :=
  match mapGet args k with
  | some v => some v
  | none => defaultOf promptObj.Arguments k

/-- The names of the declared arguments, in declaration order. -/
def argumentNames (promptObj : Prompt) : List String :=
  promptObj.Arguments.map (fun arg => arg.Name)

/-- The text `s` begins with a placeholder `{{w}}`, `w` a non-empty word. -/
def StartsWithPlaceholder (s : List Char) : Prop :=
  ∃ w rest, w ≠ [] ∧ (∀ c ∈ w, isWordChar c = true) ∧ s = placeholderText w ++ rest

/-- Left-to-right decomposition of a text into placeholders and the runes
between them: a rune is kept as text only where no placeholder begins. -/
inductive Tokenizes : List Char → List Piece → Prop where
  | done : Tokenizes [] []
  | hit (w rest : List Char) (pieces : List Piece) :
      w ≠ [] → (∀ c ∈ w, isWordChar c = true) → Tokenizes rest pieces →
      Tokenizes (placeholderText w ++ rest) (Piece.hit w :: pieces)
  | text (c : Char) (rest : List Char) (pieces : List Piece) :
      ¬ StartsWithPlaceholder (c :: rest) → Tokenizes rest pieces →
      Tokenizes (c :: rest) (Piece.text c :: pieces)

/-- The text obtained from a decomposition by writing `value name` in place of
each placeholder `{{name}}` that has a value, everything else unchanged. -/
def substitutePieces (value : String → Option String) (pieces : List Piece) : String :=
  String.mk (pieces.flatMap fun
    | .text c => [c]
    | .hit w =>
      match value (String.mk w) with
      | some t => t.data
      | none => placeholderText w)

/-- The caller's string for a name, when the caller map holds a string there. -/
def callerString (args : GoMap) (name : String) : Option String :=
  match mapGet args name with
  | some (.str s) => some s
  | _ => none

/-- Two outcomes of the conversion loop that agree: the same error, or maps
with the same lookups. -/
def ResEq : Except String GoMap → Except String GoMap → Prop
  | .ok a, .ok b => MapEq a b
  | .error e, .error e2 => e = e2
  | _, _ => False

/-- The text written for a placeholder name under a map of converted values. -/
def valueText (rt : GoRuntime) (argValues : GoMap) (name : String) : Option String :=
  match mapGet argValues name with
  | some value => some (sprintV rt value)
  | none => none

/-- A required argument without a value: no entry in the caller map, and no
default declared for its name. -/
def LacksValue (promptObj : Prompt) (args : GoMap) (arg : Argument) : Prop :=
  arg.Required = true ∧ mapGet args arg.Name = none ∧
    ∀ c ∈ promptObj.Arguments, c.Name = arg.Name → c.Default = Value.nil

/-- The message of the missing-argument error. -/
def notProvided (name : String) : String :=
  "required argument '" ++ name ++ "' not provided"

/-- The effective value of an argument, if any, is accepted by its type. -/
def ConvertsOk (rt : GoRuntime) (promptObj : Prompt) (args : GoMap) (arg : Argument) : Prop :=
  ∀ w, effectiveValue promptObj args arg.Name = some w →
    ∃ w2, convertArgumentValue rt w arg.Typ = Except.ok w2

/-- The effective value of an argument is rejected by its type. -/
def ConvertFails (rt : GoRuntime) (promptObj : Prompt) (args : GoMap) (arg : Argument) : Prop :=
  ∃ w e, effectiveValue promptObj args arg.Name = some w ∧
    convertArgumentValue rt w arg.Typ = Except.error e

/-- The reason reported when a value is rejected as a number. -/
def numberError (rt : GoRuntime) : Value → String
  | .str s => "cannot convert '" ++ s ++ "' to number"
  | v => "invalid number value: " ++ sprintV rt v

/-- A value that the number conversion rejects: a string that does not parse,
or a value that is neither a string, an `int` nor a `float64`. -/
def NotANumber (rt : GoRuntime) (v : Value) : Prop :=
  (∃ s, v = Value.str s ∧ rt.parseFloat s = none) ∨
    ((∀ s, v ≠ Value.str s) ∧ (∀ n, v ≠ Value.int n) ∧ (∀ b, v ≠ Value.float64 b))

/-- A string that is not empty after trimming white space. -/
def NonBlank (s : String) : Prop := trimSpace s ≠ ""

/-- A declared type is one of the three recognised kinds. -/
def KnownType (t : ArgumentType) : Prop :=
  t = ArgumentTypeString ∨ t = ArgumentTypeNumber ∨ t = ArgumentTypeBoolean

/-- A default is absent, or its runtime type fits the declared type: a string
for string, an int or float for number, a bool for boolean. -/
def DefaultConsistent (arg : Argument) : Prop :=
  arg.Default = Value.nil ∨
  (arg.Typ = ArgumentTypeString ∧ ∃ t, arg.Default = Value.str t) ∨
  (arg.Typ = ArgumentTypeNumber ∧
    ((∃ n, arg.Default = Value.int n) ∨ (∃ n, arg.Default = Value.int64 n) ∨
     (∃ b, arg.Default = Value.float32 b) ∨ (∃ b, arg.Default = Value.float64 b))) ∨
  (arg.Typ = ArgumentTypeBoolean ∧ ∃ b, arg.Default = Value.bool b)

/-- The documented conditions on one argument, apart from uniqueness of its name. -/
def WellFormedArgument (arg : Argument) : Prop :=
  isValidArgumentName arg.Name = true ∧ NonBlank arg.Description ∧ KnownType arg.Typ ∧
    DefaultConsistent arg

/-- The documented conditions on the metadata. -/
def WellFormedMetadata (md : Metadata) : Prop :=
  NonBlank md.ID ∧ NonBlank md.Name ∧ NonBlank md.Description ∧ NonBlank md.Author ∧
    NonBlank md.Version ∧ md.Created.IsZero = false ∧ md.Modified.IsZero = false ∧
    isValidID md.ID = true

/-- The documented conditions on a definition. -/
def DocumentedValid (p : Prompt) : Prop :=
  WellFormedMetadata p.Metadata ∧
  (∀ a ∈ p.Arguments, WellFormedArgument a) ∧ (argumentNames p).Nodup ∧
  NonBlank p.Prompt ∧
  (∀ name ∈ findAllSubmatch p.Prompt, name ∈ argumentNames p) ∧
  (∀ a ∈ p.Arguments, a.Required = true → a.Name ∈ findAllSubmatch p.Prompt)

/-- The checks of `validateArguments` on one argument, apart from the duplicate
check. -/
def ArgumentOk (arg : Argument) : Prop :=
  trimSpace arg.Name ≠ "" ∧ isValidArgumentName arg.Name = true ∧
    trimSpace arg.Description ≠ "" ∧ isValidArgumentType arg.Typ = true ∧
    (arg.Default ≠ Value.nil → validateArgumentDefault arg.Default arg.Typ = Except.ok ())

/-- A required argument that no placeholder of the template names. -/
def UnusedRequired (p : Prompt) (arg : Argument) : Prop :=
  arg.Required = true ∧ arg.Name ∉ findAllSubmatch p.Prompt

/-- The outcome of a list of checks taken in order, each `none` when it passes:
the message of the first one that fails. -/
def firstFailure : List (Option String) → Except String Unit
  | [] => .ok ()
  | some msg :: _ => .error msg
  | none :: rest => firstFailure rest

/-- A check that fails with `msg` when the condition holds. -/
def failIf (c : Bool) (msg : String) : Option String := if c then some msg else none

/-- The checks on the metadata, in the order of the code: the id pattern comes
right after the id itself. -/
def metadataChecks (md : Metadata) : List (Option String) :=
  [ failIf (decide (trimSpace md.ID = "")) "id is required",
    failIf (!isValidID md.ID)
      "id must contain only alphanumeric characters, hyphens, and underscores",
    failIf (decide (trimSpace md.Name = "")) "name is required",
    failIf (decide (trimSpace md.Description = "")) "description is required",
    failIf (decide (trimSpace md.Author = "")) "author is required",
    failIf (decide (trimSpace md.Version = "")) "version is required",
    failIf md.Created.IsZero "created timestamp is required",
    failIf md.Modified.IsZero "modified timestamp is required" ]

/-- The checks on the argument at index `i`, `earlier` holding the names declared
before it. -/
def oneArgumentChecks (i : Nat) (earlier : List String) (arg : Argument) :
    List (Option String) :=
  [ failIf (decide (trimSpace arg.Name = "")) ("argument " ++ toString i ++ ": name is required"),
    failIf (!isValidArgumentName arg.Name)
      ("argument " ++ toString i ++
        ": name must contain only alphanumeric characters and underscores"),
    failIf (earlier.contains arg.Name)
      ("argument " ++ toString i ++ ": duplicate name '" ++ arg.Name ++ "'"),
    failIf (decide (trimSpace arg.Description = ""))
      ("argument " ++ toString i ++ " (" ++ arg.Name ++ "): description is required"),
    failIf (!isValidArgumentType arg.Typ)
      ("argument " ++ toString i ++ " (" ++ arg.Name ++ "): invalid type '" ++ arg.Typ ++ "'"),
    if arg.Default ≠ Value.nil then
      match validateArgumentDefault arg.Default arg.Typ with
      | .error err => some ("argument " ++ toString i ++ " (" ++ arg.Name ++ "): " ++ err)
      | .ok _ => none
    else none ]

/-- The per-argument checks, argument after argument in declaration order. -/
def argumentChecks (i : Nat) (earlier : List String) : List Argument → List (Option String)
  | [] => []
  | arg :: rest =>
    oneArgumentChecks i earlier arg ++ argumentChecks (i + 1) (arg.Name :: earlier) rest

/-- The checks on the template: non-blank, no undeclared placeholder, no unused
required argument. -/
def contentChecks (ord : RangeOrder) (content : String) (arguments : List Argument) :
    List (Option String) :=
  [ failIf (decide (trimSpace content = "")) "prompt content is required",
    ((ord.order (findAllSubmatch content).dedup).find?
        (fun name => !(arguments.map (fun arg => arg.Name)).contains name)).map
      (fun name => "undefined variable '" ++ name ++ "' used in prompt"),
    (arguments.find?
        (fun arg => arg.Required && !(findAllSubmatch content).dedup.contains arg.Name)).map
      (fun arg => "required argument '" ++ arg.Name ++ "' is not used in prompt") ]

/-- A list of checks whose messages get a prefix. -/
def withPrefix (pre : String) (checks : List (Option String)) : List (Option String) :=
  checks.map (fun c => c.map (fun msg => pre ++ msg))

/-- All checks of a definition in the order in which `ValidatePrompt` makes them. -/
def checksInOrder (ord : RangeOrder) (p : Prompt) : List (Option String) :=
  withPrefix "metadata validation failed: " (metadataChecks p.Metadata)
    ++ withPrefix "arguments validation failed: " (argumentChecks 0 [] p.Arguments)
    ++ withPrefix "prompt content validation failed: "
        (contentChecks ord p.Prompt p.Arguments)

/-- Two maps with the same lookups at every key other than `k`. -/
def AgreeOff (k : String) (m m2 : GoMap) : Prop := ∀ k2, k2 ≠ k → mapGet m k2 = mapGet m2 k2

/-- Two outcomes of the conversion loop that agree off the key `k`. -/
def ResEqOff (k : String) : Except String GoMap → Except String GoMap → Prop
  | .ok a, .ok b => AgreeOff k a b
  | .error e, .error e2 => e = e2
  | _, _ => False

/-- The text written for one piece of a decomposition. -/
def segmentOf (value : String → Option String) : Piece → List Char
  | .text c => [c]
  | .hit w =>
    match value (String.mk w) with
    | some t => t.data
    | none => placeholderText w

/-- The library obtained from `NewPromptLibrary` by adding the prompts of a list
one after the other. -/
def addAll (ps : List Prompt) : PromptLibrary :=
  ps.foldl PromptLibrary.AddPrompt NewPromptLibrary

/-- The walk function reads the file of the entry: no walk error, not a
directory, and a path that ends in ".yaml" after lower-casing. -/
def Selected (rt : GoRuntime) (e : WalkEntry) : Prop :=
  e.walkErr = none ∧ e.isDir = false ∧ hasSuffix (toLower rt e.path) ".yaml" = true

/-- The definition stored for a file: the loaded one with its `FilePath` set. -/
def storedPrompt (e : WalkEntry) (q : Prompt) : Prompt := { q with FilePath := e.path }

/-- The message of the duplicate-id error of `LoadAllPrompts`. -/
def duplicateIdError (promptsDir id path : String) : String :=
  "failed to load prompts from directory " ++ promptsDir ++ ": " ++
    ("duplicate prompt ID '" ++ id ++ "' found in file " ++ path)

/-- The name of a directory entry: not empty, without separator, and neither `.`
nor `..`. -/
def EntryName (seg : List Char) : Prop :=
  seg ≠ [] ∧ (∀ c ∈ seg, isPathSeparator c = false) ∧ seg ≠ ['.'] ∧ seg ≠ ['.', '.']

/-- The path `R/s1/.../sn` of the entry reached from `R` through the names
`s1`, ..., `sn`. -/
def pathUnder (R : String) (segs : List (List Char)) : String :=
  String.mk (R.data ++ segs.flatMap (fun seg => '/' :: seg))

/-- A path begins with a separator. -/
def rootedPath (path : String) : Bool := path.data.head?.any isPathSeparator

/-- The elements that `filepath.Clean` keeps of a path, in order. -/
def cleanElements (path : String) : List (List Char) :=
  ((splitSep path.data).foldl (cleanStep (rootedPath path)) []).reverse

/-- The text before the first element of a cleaned path. -/
def rootText (rooted : Bool) : List Char := if rooted then ['/'] else []

/-! ## Lemmas on maps -/

theorem mapGet_mapSet (m : GoMap) (k : String) (v : Value) (k2 : String) :
    mapGet (mapSet m k v) k2 = if k2 = k then some v else mapGet m k2 := by
  unfold mapGet mapSet
  rw [List.lookup_cons]
  by_cases h : k2 = k
  · subst h; simp
  · have : (k2 == k) = false := by simpa using h
    simp [this, h]

theorem MapEq.refl (m : GoMap) : MapEq m m := fun _ => rfl

theorem MapEq.symm {m m2 : GoMap} (h : MapEq m m2) : MapEq m2 m := fun k => (h k).symm

theorem MapEq.trans {a b c : GoMap} (h : MapEq a b) (h2 : MapEq b c) : MapEq a c :=
  fun k => (h k).trans (h2 k)

theorem MapEq.mapSet {m m2 : GoMap} (h : MapEq m m2) (k : String) (v : Value) :
    MapEq (mapSet m k v) (mapSet m2 k v) := by
  intro k2
  rw [mapGet_mapSet, mapGet_mapSet, h k2]

/-- Writing back the value a key already has changes no lookup. -/
theorem mapSet_same {m : GoMap} {k : String} {v : Value} (h : mapGet m k = some v) :
    MapEq (mapSet m k v) m := by
  intro k2
  rw [mapGet_mapSet]
  by_cases hk : k2 = k
  · subst hk; simp [h]
  · simp [hk]

theorem lookup_filter_ne (k k2 : String) (hne : k2 ≠ k) (l : List (String × Value)) :
    List.lookup k2 (l.filter (fun e => e.1 != k)) = List.lookup k2 l := by
  induction l with
  | nil => rfl
  | cons e rest ih =>
    obtain ⟨a, b⟩ := e
    by_cases h : a = k
    · subst h
      have h1 : (k2 == a) = false := by simp [hne]
      simp [List.filter_cons, List.lookup_cons, h1, ih]
    · have h1 : (a != k) = true := by simp [h]
      simp only [List.filter_cons, h1, if_true, List.lookup_cons, ih]

theorem lookup_mapRange (k : String) (m : GoMap) :
    List.lookup k (mapRange m) = List.lookup k m := by
  induction m with
  | nil => rfl
  | cons e rest ih =>
    obtain ⟨a, b⟩ := e
    simp only [mapRange, List.lookup_cons]
    by_cases h : k = a
    · subst h; simp
    · have h1 : (k == a) = false := by simp [h]
      simp only [h1]
      rw [lookup_filter_ne a k h, ih]

theorem mapRange_nodup (m : GoMap) : ((mapRange m).map Prod.fst).Nodup := by
  induction m with
  | nil => simp [mapRange]
  | cons e rest ih =>
    obtain ⟨a, b⟩ := e
    simp only [mapRange, List.map_cons, List.nodup_cons]
    constructor
    · intro h
      rw [List.mem_map] at h
      obtain ⟨x, hx, hk⟩ := h
      have := (List.mem_filter.mp hx).2
      simp [hk] at this
    · exact List.Nodup.sublist (List.Sublist.map _ (List.filter_sublist _)) ih

theorem mapGet_foldl_set (l : List (String × Value)) (base : GoMap) (k : String)
    (hl : (l.map Prod.fst).Nodup) :
    mapGet (l.foldl (fun m e => mapSet m e.1 e.2) base) k
      = match List.lookup k l with
        | some v => some v
        | none => mapGet base k := by
  induction l generalizing base with
  | nil => rfl
  | cons e rest ih =>
    obtain ⟨a, b⟩ := e
    simp only [List.map_cons, List.nodup_cons] at hl
    rw [List.foldl_cons, ih _ hl.2, List.lookup_cons, mapGet_mapSet]
    by_cases h : k = a
    · subst h
      have hn : List.lookup k rest = none := by
        rw [List.lookup_eq_none_iff]
        intro p hp
        simp only [bne_iff_ne, ne_eq]
        intro hk
        apply hl.1
        rw [List.mem_map]
        exact ⟨p, hp, hk.symm⟩
      simp [hn]
    · have h1 : (k == a) = false := by simpa using h
      simp [h1, h]

/-- The caller map laid over a base map: the caller's entry wins. -/
theorem mapGet_overrideWith (args base : GoMap) (k : String) :
    mapGet (overrideWith args base) k
      = match mapGet args k with
        | some v => some v
        | none => mapGet base k := by
  unfold overrideWith
  rw [mapGet_foldl_set _ _ _ (mapRange_nodup args), lookup_mapRange]
  rfl

theorem mapGet_setDefaults (l : List Argument) (base : GoMap) (k : String) :
    mapGet (setDefaults l base) k
      = match defaultOf l k with
        | some v => some v
        | none => mapGet base k := by
  induction l generalizing base with
  | nil => rfl
  | cons a rest ih =>
    unfold setDefaults at ih ⊢
    rw [List.foldl_cons, ih]
    simp only [defaultOf]
    cases hd : defaultOf rest k with
    | some v => rfl
    | none =>
      by_cases hdef : a.Default ≠ Value.nil
      · rw [if_pos hdef, mapGet_mapSet]
        by_cases hk : k = a.Name
        · subst hk; simp [hdef]
        · have : ¬ (a.Name = k) := fun h => hk h.symm
          simp [hk, this]
      · rw [if_neg hdef]
        simp [hdef]

/-- The map built by the first two loops of `resolvePromptContent` holds the
effective values. -/
theorem mapGet_argValues (promptObj : Prompt) (args : GoMap) (k : String) :
    mapGet (overrideWith args (setDefaults promptObj.Arguments [])) k
      = effectiveValue promptObj args k := by
  rw [mapGet_overrideWith, mapGet_setDefaults]
  unfold effectiveValue
  cases mapGet args k with
  | some v => rfl
  | none =>
    cases defaultOf promptObj.Arguments k with
    | some v => rfl
    | none => rfl

theorem defaultOf_mem {l : List Argument} {k : String} {v : Value}
    (h : defaultOf l k = some v) : ∃ a ∈ l, a.Name = k ∧ a.Default = v ∧ v ≠ Value.nil := by
  induction l with
  | nil => simp [defaultOf] at h
  | cons a rest ih =>
    simp only [defaultOf] at h
    cases hd : defaultOf rest k with
    | some w =>
      rw [hd] at h
      injection h with h
      subst h
      obtain ⟨b, hb, hb2⟩ := ih hd
      exact ⟨b, List.mem_cons_of_mem _ hb, hb2⟩
    | none =>
      rw [hd] at h
      by_cases hc : a.Name = k ∧ a.Default ≠ Value.nil
      · rw [if_pos hc] at h
        injection h with h
        exact ⟨a, List.mem_cons_self _ _, hc.1, h, h ▸ hc.2⟩
      · rw [if_neg hc] at h
        cases h

theorem defaultOf_eq_none {l : List Argument} {k : String}
    (h : ∀ a ∈ l, a.Name = k → a.Default = Value.nil) : defaultOf l k = none := by
  cases hd : defaultOf l k with
  | none => rfl
  | some v =>
    obtain ⟨a, ha, hn, hv, hne⟩ := defaultOf_mem hd
    exact absurd ((h a ha hn).symm.trans hv).symm hne

theorem defaultOf_append (l l2 : List Argument) (k : String) :
    defaultOf (l ++ l2) k
      = match defaultOf l2 k with
        | some v => some v
        | none => defaultOf l k := by
  induction l with
  | nil =>
    simp only [List.nil_append, defaultOf]
    cases defaultOf l2 k <;> rfl
  | cons a rest ih =>
    show defaultOf (a :: (rest ++ l2)) k = _
    simp only [defaultOf]
    rw [ih]
    cases defaultOf l2 k <;> rfl

/-! ## Lemmas on the placeholder pattern -/

theorem isWordChar_ne_open {c : Char} (h : isWordChar c = true) : c ≠ '{' := by
  intro hc
  subst hc
  revert h
  decide

theorem isWordChar_ne_close {c : Char} (h : isWordChar c = true) : c ≠ '}' := by
  intro hc
  subst hc
  revert h
  decide

theorem matchPlaceholder_some {s w : List Char} (h : matchPlaceholder s = some w) :
    w ≠ [] ∧ (∀ c ∈ w, isWordChar c = true) ∧ ∃ rest, s = placeholderText w ++ rest := by
  match s, h with
  | a :: b :: r, h =>
    simp only [matchPlaceholder] at h
    by_cases hab : a = '{' ∧ b = '{'
    · rw [if_pos hab] at h
      have hsplit := List.takeWhile_append_dropWhile isWordChar r
      cases hd : r.dropWhile isWordChar with
      | nil => rw [hd] at h; cases h
      | cons x t =>
        cases t with
        | nil => rw [hd] at h; cases h
        | cons y t2 =>
          rw [hd] at h
          simp only at h
          by_cases hxy : x = '}' ∧ y = '}' ∧ List.takeWhile isWordChar r ≠ []
          · rw [if_pos hxy] at h
            injection h with h
            subst h
            refine ⟨hxy.2.2, fun c hc => List.mem_takeWhile_imp hc, t2, ?_⟩
            rw [hd] at hsplit
            obtain ⟨ha, hb⟩ := hab
            obtain ⟨hx, hy, _⟩ := hxy
            subst ha hb hx hy
            simp only [placeholderText, List.cons_append, List.append_assoc, List.nil_append]
            rw [hsplit]
          · rw [if_neg hxy] at h; cases h
    · rw [if_neg hab] at h; cases h
  | [], h => simp [matchPlaceholder] at h
  | [_], h => simp [matchPlaceholder] at h

theorem matchPlaceholder_placeholderText {w : List Char} (rest : List Char) (hw : w ≠ [])
    (hword : ∀ c ∈ w, isWordChar c = true) :
    matchPlaceholder (placeholderText w ++ rest) = some w := by
  have hclose : isWordChar '}' = false := by decide
  have htake : List.takeWhile isWordChar (w ++ '}' :: '}' :: rest) = w := by
    rw [List.takeWhile_append_of_pos hword]
    simp [List.takeWhile_cons, hclose]
  have hdrop : List.dropWhile isWordChar (w ++ '}' :: '}' :: rest) = '}' :: '}' :: rest := by
    rw [List.dropWhile_append_of_pos hword]
    simp [List.dropWhile_cons, hclose]
  have hshape : placeholderText w ++ rest = '{' :: '{' :: (w ++ '}' :: '}' :: rest) := by
    simp [placeholderText]
  rw [hshape]
  simp only [matchPlaceholder, htake, hdrop]
  simp [hw]

theorem matchPlaceholder_none {s : List Char} (h : matchPlaceholder s = none) :
    ¬ StartsWithPlaceholder s := by
  rintro ⟨w, rest, hw, hword, rfl⟩
  rw [matchPlaceholder_placeholderText rest hw hword] at h
  cases h

theorem scanFrom_skip (pre rest : List Char) :
    scanFrom pre.length (pre ++ rest) = scanFrom 0 rest := by
  induction pre with
  | nil => rfl
  | cons c pre ih =>
    simp only [List.length_cons, List.cons_append, scanFrom]
    exact ih

theorem scanFrom_zero_cons (c : Char) (rest : List Char) :
    scanFrom 0 (c :: rest)
      = match matchPlaceholder (c :: rest) with
        | some w => Piece.hit w :: scanFrom (w.length + 3) rest
        | none => Piece.text c :: scanFrom 0 rest := by
  simp only [scanFrom]

/-- A match at the start of the text: the scan continues after it. -/
theorem scan_placeholderText {w : List Char} (rest : List Char) (hw : w ≠ [])
    (hword : ∀ c ∈ w, isWordChar c = true) :
    scan (placeholderText w ++ rest) = Piece.hit w :: scan rest := by
  have hshape : placeholderText w ++ rest = '{' :: (('{' :: w ++ ['}', '}']) ++ rest) := by
    simp [placeholderText]
  unfold scan
  have hm := matchPlaceholder_placeholderText rest hw hword
  rw [hshape] at hm ⊢
  rw [scanFrom_zero_cons, hm]
  simp only
  have hlen : w.length + 3 = ('{' :: w ++ ['}', '}']).length := by simp
  rw [hlen, scanFrom_skip]

/-- No match at the start of the text: the first rune is kept. -/
theorem scan_cons_of_none {c : Char} {rest : List Char}
    (h : matchPlaceholder (c :: rest) = none) :
    scan (c :: rest) = Piece.text c :: scan rest := by
  unfold scan
  rw [scanFrom_zero_cons, h]

/-- The scan is the left-to-right decomposition into placeholders and text. -/
theorem tokenizes_scan (s : List Char) : Tokenizes s (scan s) := by
  generalize hn : s.length = n
  induction n using Nat.strong_induction_on generalizing s with
  | _ n ih =>
    cases s with
    | nil => exact Tokenizes.done
    | cons c rest =>
      cases hm : matchPlaceholder (c :: rest) with
      | none =>
        rw [scan_cons_of_none hm]
        refine Tokenizes.text c rest _ (matchPlaceholder_none hm) ?_
        exact ih rest.length (by rw [← hn]; simp) rest rfl
      | some w =>
        obtain ⟨hw, hword, tail, htail⟩ := matchPlaceholder_some hm
        rw [htail, scan_placeholderText tail hw hword]
        refine Tokenizes.hit w tail _ hw hword ?_
        refine ih tail.length ?_ tail rfl
        rw [← hn, htail]
        simp [placeholderText]
        omega

theorem mem_scan_hit {s w : List Char} (h : Piece.hit w ∈ scan s) :
    w ≠ [] ∧ (∀ c ∈ w, isWordChar c = true) := by
  have ht := tokenizes_scan s
  generalize scan s = pieces at h ht
  induction ht with
  | done => cases h
  | hit w2 rest pieces hw hword _ ih =>
    rcases List.mem_cons.mp h with h | h
    · injection h with h
      subst h
      exact ⟨hw, hword⟩
    · exact ih h
  | text c rest pieces _ _ ih =>
    rcases List.mem_cons.mp h with h | h
    · cases h
    · exact ih h

/-- The left-to-right decomposition of a text is unique: it is the scan. -/
theorem tokenizes_unique {s : List Char} {pieces : List Piece} (h : Tokenizes s pieces) :
    pieces = scan s := by
  induction h with
  | done => rfl
  | hit w rest pieces hw hword _ ih => rw [scan_placeholderText rest hw hword, ih]
  | text c rest pieces hno _ ih =>
    have hm : matchPlaceholder (c :: rest) = none := by
      cases hm : matchPlaceholder (c :: rest) with
      | none => rfl
      | some w =>
        obtain ⟨hw, hword, tail, htail⟩ := matchPlaceholder_some hm
        exact absurd ⟨w, tail, hw, hword, htail⟩ hno
    rw [scan_cons_of_none hm, ih]

/-- Two placeholders in a text do not overlap: one that begins after the start
of another begins after its end. -/
theorem placeholder_no_overlap {v w rest pre post : List Char} (hv : v ≠ [])
    (hvword : ∀ c ∈ v, isWordChar c = true)
    (h : placeholderText v ++ rest = pre ++ (placeholderText w ++ post)) :
    pre = [] ∨ ∃ pre2, pre = placeholderText v ++ pre2 := by
  have hinner : ∀ z ∈ v ++ ['}', '}'], z ≠ '{' := by
    intro z hz
    rcases List.mem_append.mp hz with hz | hz
    · exact isWordChar_ne_open (hvword z hz)
    · intro hzo
      subst hzo
      revert hz
      decide
  rcases List.append_eq_append_iff.mp h with ⟨a2, ha, _⟩ | ⟨c2, hc, hd⟩
  · exact Or.inr ⟨a2, ha⟩
  · cases pre with
    | nil => exact Or.inl rfl
    | cons x pre1 =>
      right
      cases c2 with
      | nil => exact ⟨[], by rw [hc]; simp⟩
      | cons z c3 =>
        exfalso
        have hz : z = '{' := by
          have := congrArg List.head? hd
          simpa [placeholderText] using this.symm
        subst hz
        have hc2 : '{' :: '{' :: (v ++ ['}', '}']) = x :: (pre1 ++ '{' :: c3) := by
          simpa [placeholderText] using hc
        injection hc2 with _ hc3
        cases pre1 with
        | nil =>
          simp only [List.nil_append, List.cons.injEq, true_and] at hc3
          have hd2 : '{' :: '{' :: (w ++ ['}', '}'] ++ post) = '{' :: (c3 ++ rest) := by
            simpa [placeholderText] using hd
          injection hd2 with _ hd3
          rw [← hc3] at hd3
          cases v with
          | nil => exact hv rfl
          | cons y v2 =>
            simp only [List.cons_append, List.cons.injEq] at hd3
            exact isWordChar_ne_open (hvword y (List.mem_cons_self _ _)) hd3.1.symm
        | cons y pre2 =>
          simp only [List.cons_append, List.cons.injEq] at hc3
          have hmem : '{' ∈ v ++ ['}', '}'] := by
            rw [hc3.2]
            simp
          exact hinner _ hmem rfl

/-- Every placeholder that stands in a text is a piece of its decomposition. -/
theorem hit_of_occurrence {s : List Char} {pieces : List Piece} (h : Tokenizes s pieces) :
    ∀ (pre w post : List Char), s = pre ++ (placeholderText w ++ post) → w ≠ [] →
      (∀ c ∈ w, isWordChar c = true) → Piece.hit w ∈ pieces := by
  induction h with
  | done =>
    intro pre w post hs _ _
    have := congrArg List.length hs
    simp [placeholderText] at this
    omega
  | hit v rest pieces hv hvword _ ih =>
    intro pre w post hs hw hword
    rcases placeholder_no_overlap hv hvword hs with hpre | ⟨pre2, hpre⟩
    · subst hpre
      have h1 := matchPlaceholder_placeholderText rest hv hvword
      have h2 := matchPlaceholder_placeholderText post hw hword
      rw [hs, List.nil_append, h2] at h1
      injection h1 with h1
      rw [h1]
      exact List.mem_cons_self _ _
    · subst hpre
      rw [List.append_assoc] at hs
      have hrest := List.append_cancel_left hs
      exact List.mem_cons_of_mem _ (ih pre2 w post hrest hw hword)
  | text c rest pieces hno _ ih =>
    intro pre w post hs hw hword
    cases pre with
    | nil => exact absurd ⟨w, post, hw, hword, hs⟩ hno
    | cons x pre1 =>
      simp only [List.cons_append, List.cons.injEq] at hs
      exact List.mem_cons_of_mem _ (ih pre1 w post hs.2 hw hword)

/-- The names captured by the pattern are the non-empty words `w` for which
`{{w}}` stands somewhere in the text. -/
theorem mem_findAllSubmatch_iff (content name : String) :
    name ∈ findAllSubmatch content ↔
      (name.data ≠ [] ∧ (∀ c ∈ name.data, isWordChar c = true) ∧
        ∃ pre post, content.data = pre ++ (placeholderText name.data ++ post)) := by
  unfold findAllSubmatch
  rw [List.mem_filterMap]
  constructor
  · rintro ⟨piece, hp, hname⟩
    cases piece with
    | text c => cases hname
    | hit w =>
      simp only [Option.some.injEq] at hname
      subst hname
      obtain ⟨hw, hword⟩ := mem_scan_hit hp
      refine ⟨hw, hword, ?_⟩
      have ht := tokenizes_scan content.data
      generalize scan content.data = pieces at hp ht
      generalize content.data = s at ht
      induction ht with
      | done => cases hp
      | hit w2 rest pieces _ _ _ ih =>
        rcases List.mem_cons.mp hp with h | h
        · injection h with h
          subst h
          exact ⟨[], rest, by simp⟩
        · obtain ⟨pre, post, hrest⟩ := ih h
          exact ⟨placeholderText w2 ++ pre, post, by rw [hrest]; simp⟩
      | text c rest pieces _ _ ih =>
        rcases List.mem_cons.mp hp with h | h
        · cases h
        · obtain ⟨pre, post, hrest⟩ := ih h
          exact ⟨c :: pre, post, by rw [hrest]; simp⟩
  · rintro ⟨hw, hword, pre, post, hs⟩
    exact ⟨Piece.hit name.data, hit_of_occurrence (tokenizes_scan _) pre _ post hs hw hword, rfl⟩

/-- Trimming the braces off a matched placeholder leaves the captured name. -/
theorem trimCutset_placeholderText {w : List Char} (hw : w ≠ [])
    (hword : ∀ c ∈ w, isWordChar c = true) :
    trimCutset ['{', '}'] (placeholderText w) = w := by
  have hcut : ∀ c, isWordChar c = true → (['{', '}'].contains c) = false := by
    intro c hc
    have h1 := isWordChar_ne_open hc
    have h2 := isWordChar_ne_close hc
    simp [h1, h2]
  have hdropL : ∀ l : List Char, l ≠ [] → (∀ c ∈ l, isWordChar c = true) →
      ∀ t, List.dropWhile (fun c => ['{', '}'].contains c) (l ++ t) = l ++ t := by
    intro l hl hall t
    cases l with
    | nil => exact absurd rfl hl
    | cons c l2 =>
      have := hcut c (hall c (List.mem_cons_self _ _))
      simp only [List.cons_append]
      rw [List.dropWhile_cons_of_neg]
      show ¬ (['{', '}'].contains c = true)
      rw [this]
      exact Bool.false_ne_true
  unfold trimCutset trimRightFunc placeholderText
  have h1 : List.dropWhile (fun c => ['{', '}'].contains c) ('{' :: '{' :: w ++ ['}', '}'])
      = w ++ ['}', '}'] := by
    have e : ('{' :: '{' :: w ++ ['}', '}']) = '{' :: '{' :: (w ++ ['}', '}']) := by simp
    rw [e, List.dropWhile_cons_of_pos (by decide), List.dropWhile_cons_of_pos (by decide)]
    exact hdropL w hw hword _
  rw [h1]
  have h2 : (w ++ ['}', '}']).reverse = '}' :: '}' :: w.reverse := by simp
  rw [h2, List.dropWhile_cons_of_pos (by decide), List.dropWhile_cons_of_pos (by decide)]
  have h3 := hdropL w.reverse (by simpa using hw)
    (fun c hc => hword c (List.mem_reverse.mp hc)) []
  rw [List.append_nil] at h3
  rw [h3, List.reverse_reverse]

/-! ## Lemmas on the resolver -/

theorem checkRequired_ok (m : GoMap) (l : List Argument)
    (h : ∀ b ∈ l, b.Required = true → mapGet m b.Name ≠ none) :
    checkRequired m l = Except.ok () := by
  induction l with
  | nil => rfl
  | cons a rest ih =>
    simp only [checkRequired]
    have ha : ¬ (a.Required = true ∧ mapGet m a.Name = none) :=
      fun hc => h a (List.mem_cons_self _ _) hc.1 hc.2
    rw [if_neg ha]
    exact ih (fun b hb => h b (List.mem_cons_of_mem _ hb))

theorem checkRequired_first_missing (m : GoMap) (pre : List Argument) (a : Argument)
    (post : List Argument)
    (hpre : ∀ b ∈ pre, ¬ (b.Required = true ∧ mapGet m b.Name = none))
    (hreq : a.Required = true) (hnone : mapGet m a.Name = none) :
    checkRequired m (pre ++ a :: post)
      = Except.error ("required argument '" ++ a.Name ++ "' not provided") := by
  induction pre with
  | nil =>
    simp only [List.nil_append, checkRequired]
    rw [if_pos ⟨hreq, hnone⟩]
  | cons b rest ih =>
    simp only [List.cons_append, checkRequired]
    rw [if_neg (hpre b (List.mem_cons_self _ _))]
    exact ih (fun c hc => hpre c (List.mem_cons_of_mem _ hc))

theorem checkRequired_congr {m m2 : GoMap} (h : MapEq m m2) {l l2 : List Argument}
    (hl : List.Forall₂ (fun a b : Argument => a.Name = b.Name ∧ a.Required = b.Required) l l2) :
    checkRequired m l = checkRequired m2 l2 := by
  induction hl with
  | nil => rfl
  | cons hab _ ih =>
    simp only [checkRequired]
    rw [ih, hab.1, hab.2, h]

theorem ResEq.refl_of_eq {r : Except String GoMap} : ResEq r r := by
  cases r with
  | ok a => exact MapEq.refl a
  | error e => rfl

theorem convertAll_congr (rt : GoRuntime) {l l2 : List Argument}
    (hl : List.Forall₂ (fun a b : Argument => a.Name = b.Name ∧ a.Typ = b.Typ) l l2) :
    ∀ {m m2 : GoMap}, MapEq m m2 → ResEq (convertAll rt l m) (convertAll rt l2 m2) := by
  induction hl with
  | nil => intro m m2 h; exact h
  | @cons a b l l2 hab _ ih =>
    intro m m2 h
    simp only [convertAll]
    rw [← hab.1, ← hab.2, ← h a.Name]
    cases mapGet m a.Name with
    | none => exact ih h
    | some v =>
      simp only
      cases convertArgumentValue rt v a.Typ with
      | error e => simp only [ResEq]
      | ok c => exact ih (MapEq.mapSet h _ _)

theorem valueText_congr (rt : GoRuntime) {m m2 : GoMap} (h : MapEq m m2) :
    valueText rt m = valueText rt m2 := by
  funext name
  unfold valueText
  rw [h name]

/-- The substitution step of `resolvePromptContent`, over the scan of the
template. -/
theorem replaceAll_eq_substitute (rt : GoRuntime) (content : String) (m : GoMap) :
    replaceAllStringFunc content (replacePlaceholder rt m)
      = substitutePieces (valueText rt m) (scan content.data) := by
  unfold replaceAllStringFunc substitutePieces
  congr 1
  apply List.flatMap_congr
  intro piece hp
  cases piece with
  | text c => rfl
  | hit w =>
    obtain ⟨hw, hword⟩ := mem_scan_hit hp
    simp only [replacePlaceholder, valueText, trimCutset_placeholderText hw hword]
    cases mapGet m (String.mk w) <;> rfl

/-- The three phases of `resolvePromptContent` over the effective values. -/
theorem resolvePromptContent_eq (rt : GoRuntime) (promptObj : Prompt) (args : GoMap) :
    resolvePromptContent rt promptObj args
      = match checkRequired (overrideWith args (setDefaults promptObj.Arguments []))
            promptObj.Arguments with
        | .error err => .error err
        | .ok _ =>
          match convertAll rt promptObj.Arguments
              (overrideWith args (setDefaults promptObj.Arguments [])) with
          | .error err => .error err
          | .ok m => .ok (substitutePieces (valueText rt m) (scan promptObj.Prompt.data)) := by
  unfold resolvePromptContent
  simp only [replaceAll_eq_substitute]

/-- The outcome of resolution depends on the definition only through the names,
types and required flags of its arguments, its template, and the effective
values. -/
theorem resolvePromptContent_congr (rt : GoRuntime) (p p2 : Prompt) (args args2 : GoMap)
    (hl : List.Forall₂ (fun a b : Argument =>
      a.Name = b.Name ∧ a.Typ = b.Typ ∧ a.Required = b.Required) p.Arguments p2.Arguments)
    (ht : p.Prompt = p2.Prompt)
    (heff : ∀ k, effectiveValue p args k = effectiveValue p2 args2 k) :
    resolvePromptContent rt p args = resolvePromptContent rt p2 args2 := by
  have hm : MapEq (overrideWith args (setDefaults p.Arguments []))
      (overrideWith args2 (setDefaults p2.Arguments [])) := by
    intro k
    rw [mapGet_argValues, mapGet_argValues, heff k]
  rw [resolvePromptContent_eq, resolvePromptContent_eq]
  rw [checkRequired_congr hm (hl.imp (fun _ _ h => ⟨h.1, h.2.2⟩)), ht]
  cases checkRequired (overrideWith args2 (setDefaults p2.Arguments [])) p2.Arguments with
  | error e => rfl
  | ok u =>
    simp only
    have hc := convertAll_congr rt (hl.imp (fun _ _ h => ⟨h.1, h.2.1⟩)) hm
    revert hc
    cases convertAll rt p.Arguments (overrideWith args (setDefaults p.Arguments [])) with
    | error e =>
      cases convertAll rt p2.Arguments (overrideWith args2 (setDefaults p2.Arguments [])) with
      | error e2 => intro hc; simp only [ResEq] at hc; rw [hc]
      | ok b => intro hc; exact absurd hc (by simp [ResEq])
    | ok a =>
      cases convertAll rt p2.Arguments (overrideWith args2 (setDefaults p2.Arguments [])) with
      | error e2 => intro hc; exact absurd hc (by simp [ResEq])
      | ok b => intro hc; simp only [ResEq] at hc; simp only [valueText_congr rt hc]

theorem convertArgumentValue_string (rt : GoRuntime) (v : Value) :
    convertArgumentValue rt v ArgumentTypeString = Except.ok (Value.str (sprintV rt v)) := by
  simp [convertArgumentValue]

/-- String-typed arguments holding strings are left as they are. -/
theorem convertAll_strings (rt : GoRuntime) (l : List Argument) :
    ∀ m : GoMap, (∀ a ∈ l, a.Typ = ArgumentTypeString) →
      (∀ a ∈ l, ∀ v, mapGet m a.Name = some v → ∃ s, v = Value.str s) →
      ∃ m2, convertAll rt l m = Except.ok m2 ∧ MapEq m2 m := by
  induction l with
  | nil => intro m _ _; exact ⟨m, rfl, MapEq.refl m⟩
  | cons a rest ih =>
    intro m ht hv
    simp only [convertAll]
    cases hg : mapGet m a.Name with
    | none =>
      exact ih m (fun b hb => ht b (List.mem_cons_of_mem _ hb))
        (fun b hb => hv b (List.mem_cons_of_mem _ hb))
    | some v =>
      obtain ⟨s, hs⟩ := hv a (List.mem_cons_self _ _) v hg
      subst hs
      simp only [ht a (List.mem_cons_self _ _), convertArgumentValue_string, sprintV]
      have hsame : MapEq (mapSet m a.Name (Value.str s)) m := mapSet_same hg
      obtain ⟨m2, h1, h2⟩ := ih (mapSet m a.Name (Value.str s))
        (fun b hb => ht b (List.mem_cons_of_mem _ hb))
        (fun b hb w hw => hv b (List.mem_cons_of_mem _ hb) w (by rw [← hsame b.Name]; exact hw))
      exact ⟨m2, h1, h2.trans hsame⟩

/-! ## Conversion to boolean -/

/-- C4: for every string `s`, `convertArgumentValue(s, boolean)` returns no
error; the result is `true` exactly when `s`, trimmed of surrounding white
space and lower-cased, is one of "true", "yes", "1", "on", and `false` for
every other string; in particular "maybe" converts to `false`. -/
theorem convertArgumentValue_boolean_of_string (rt : GoRuntime) (s : String) :
    convertArgumentValue rt (Value.str s) ArgumentTypeBoolean
        = Except.ok (Value.bool
            (decide (toLower rt (trimSpace s) ∈ ["true", "yes", "1", "on"])))
      ∧ convertArgumentValue rt (Value.str "maybe") ArgumentTypeBoolean
        = Except.ok (Value.bool false) := by
  have hS : ¬ (ArgumentTypeBoolean = ArgumentTypeString) := by decide
  have hN : ¬ (ArgumentTypeBoolean = ArgumentTypeNumber) := by decide
  have key : ∀ t : String,
      convertArgumentValue rt (Value.str t) ArgumentTypeBoolean
        = Except.ok (Value.bool
            (decide (toLower rt (trimSpace t) ∈ ["true", "yes", "1", "on"]))) := by
    intro t
    simp only [convertArgumentValue, if_neg hS, if_neg hN, if_true]
    by_cases h : toLower rt (trimSpace t) = "true" ∨ toLower rt (trimSpace t) = "yes" ∨
        toLower rt (trimSpace t) = "1" ∨ toLower rt (trimSpace t) = "on"
    · rw [if_pos h]
      simp [List.mem_cons, h]
    · rw [if_neg h]
      have h2 : ¬ (toLower rt (trimSpace t) ∈ ["true", "yes", "1", "on"]) := by
        simpa [List.mem_cons] using h
      simp only [h2, decide_False]
      split <;> rfl
  refine ⟨key s, ?_⟩
  rw [key "maybe"]
  have : toLower rt (trimSpace "maybe") = "maybe" := by
    simp [toLower, trimSpace, trimRightFunc, lowerRune, isSpace, Char.toLower]
  rw [this]
  decide

/-! ## Resolution with string arguments -/

/-- C1: for a definition whose declared arguments all have type string and a
caller map whose keys are exactly the declared names, with string values,
`resolvePromptContent` succeeds, and its text is the template in which every
placeholder `{{a}}` of a declared argument `a` is replaced by the caller's
string for `a`, every other rune unchanged: the template has a decomposition
into placeholders and the runes between them, every `{{w}}` that stands in the
template is one of its placeholders, and the text is that decomposition with
the caller's strings written for the declared names. -/
theorem resolvePromptContent_string_arguments (rt : GoRuntime) (p : Prompt) (args : GoMap)
    (htypes : ∀ a ∈ p.Arguments, a.Typ = ArgumentTypeString)
    (hkeys : ∀ k, mapGet args k ≠ none ↔ k ∈ argumentNames p)
    (hvals : ∀ k v, mapGet args k = some v → ∃ s, v = Value.str s) :
    (∃ pieces, Tokenizes p.Prompt.data pieces) ∧
      ∀ pieces, Tokenizes p.Prompt.data pieces →
        (∀ pre w post, p.Prompt.data = pre ++ (placeholderText w ++ post) → w ≠ [] →
          (∀ c ∈ w, isWordChar c = true) → Piece.hit w ∈ pieces) ∧
        resolvePromptContent rt p args
          = Except.ok (substitutePieces
              (fun name => if name ∈ argumentNames p then callerString args name else none)
              pieces) := by
  refine ⟨⟨scan p.Prompt.data, tokenizes_scan _⟩, ?_⟩
  intro pieces hpieces
  refine ⟨hit_of_occurrence hpieces, ?_⟩
  rw [tokenizes_unique hpieces]
  have hG : MapEq (overrideWith args (setDefaults p.Arguments [])) args := by
    intro k
    rw [mapGet_argValues]
    unfold effectiveValue
    cases hk : mapGet args k with
    | some v => rfl
    | none =>
      simp only
      cases hd : defaultOf p.Arguments k with
      | none => rfl
      | some v =>
        obtain ⟨a, ha, hn, _, _⟩ := defaultOf_mem hd
        have : k ∈ argumentNames p := List.mem_map.mpr ⟨a, ha, hn⟩
        exact absurd hk ((hkeys k).mpr this)
  have hreq : checkRequired (overrideWith args (setDefaults p.Arguments [])) p.Arguments
      = Except.ok () := by
    apply checkRequired_ok
    intro b hb _
    rw [hG b.Name]
    exact (hkeys b.Name).mpr (List.mem_map.mpr ⟨b, hb, rfl⟩)
  obtain ⟨m2, hconv, hm2⟩ := convertAll_strings rt p.Arguments
    (overrideWith args (setDefaults p.Arguments [])) htypes
    (fun a _ v hv => hvals a.Name v (by rw [← hG a.Name]; exact hv))
  rw [resolvePromptContent_eq, hreq]
  simp only [hconv]
  have hfun : valueText rt m2
      = fun name => if name ∈ argumentNames p then callerString args name else none := by
    funext name
    unfold valueText callerString
    rw [hm2 name, hG name]
    cases hk : mapGet args name with
    | none =>
      by_cases hmem : name ∈ argumentNames p
      · exact absurd hk ((hkeys name).mpr hmem)
      · simp [hmem]
    | some v =>
      obtain ⟨t, ht⟩ := hvals name v hk
      subst ht
      have hmem : name ∈ argumentNames p := (hkeys name).mp (by rw [hk]; simp)
      simp [hmem, sprintV]
  rw [hfun]

/-- The Hello scenario, an instance of C1: `name` supplied as "World". -/
theorem resolvePromptContent_string_arguments_hello :
    (∀ a ∈ helloPrompt.Arguments, a.Typ = ArgumentTypeString)
      ∧ (∀ k, mapGet [("name", Value.str "World")] k ≠ none ↔ k ∈ argumentNames helloPrompt)
      ∧ (∀ k v, mapGet [("name", Value.str "World")] k = some v → ∃ s, v = Value.str s)
      ∧ resolvePromptContent sampleRuntime helloPrompt [("name", Value.str "World")]
          = Except.ok "Hello World!"
      ∧ (∃ pieces, Tokenizes helloPrompt.Prompt.data pieces)
      ∧ ∀ pieces, Tokenizes helloPrompt.Prompt.data pieces →
          (∀ pre w post, helloPrompt.Prompt.data = pre ++ (placeholderText w ++ post) →
            w ≠ [] → (∀ c ∈ w, isWordChar c = true) → Piece.hit w ∈ pieces) ∧
          resolvePromptContent sampleRuntime helloPrompt [("name", Value.str "World")]
            = Except.ok (substitutePieces
                (fun name => if name ∈ argumentNames helloPrompt
                  then callerString [("name", Value.str "World")] name else none)
                pieces) := by
  have htypes : ∀ a ∈ helloPrompt.Arguments, a.Typ = ArgumentTypeString := by decide
  have hkeys : ∀ k, mapGet [("name", Value.str "World")] k ≠ none
      ↔ k ∈ argumentNames helloPrompt := by
    intro k
    by_cases hk : k = "name"
    · subst hk; decide
    · have h1 : (k == "name") = false := by simp [hk]
      simp [mapGet, List.lookup_cons, h1, argumentNames, helloPrompt, nameArgument, hk]
  have hvals : ∀ k v, mapGet [("name", Value.str "World")] k = some v
      → ∃ s, v = Value.str s := by
    intro k v h
    by_cases hk : k = "name"
    · subst hk
      simp [mapGet] at h
      exact ⟨"World", h.symm⟩
    · have h1 : (k == "name") = false := by simp [hk]
      simp [mapGet, List.lookup_cons, h1] at h
  exact ⟨htypes, hkeys, hvals, by decide!,
    resolvePromptContent_string_arguments sampleRuntime helloPrompt _ htypes hkeys hvals⟩

/-! ## Missing required arguments -/

theorem exists_first {α : Type} (P : α → Prop) (l : List α) (h : ∃ a ∈ l, P a) :
    ∃ pre first post, l = pre ++ first :: post ∧ P first ∧ ∀ b ∈ pre, ¬ P b := by
  classical
  induction l with
  | nil => obtain ⟨a, ha, _⟩ := h; cases ha
  | cons x rest ih =>
    by_cases hx : P x
    · exact ⟨[], x, rest, rfl, hx, fun b hb => by cases hb⟩
    · obtain ⟨a, ha, hPa⟩ := h
      rcases List.mem_cons.mp ha with rfl | ha
      · exact absurd hPa hx
      · obtain ⟨pre, first, post, hl, hf, hpre⟩ := ih ⟨a, ha, hPa⟩
        refine ⟨x :: pre, first, post, by rw [hl]; rfl, hf, ?_⟩
        intro b hb
        rcases List.mem_cons.mp hb with rfl | hb
        · exact hx
        · exact hpre b hb

theorem lacksValue_iff (p : Prompt) (args : GoMap) (a : Argument) :
    LacksValue p args a ↔ (a.Required = true ∧ effectiveValue p args a.Name = none) := by
  unfold LacksValue effectiveValue
  constructor
  · rintro ⟨hr, hn, hd⟩
    refine ⟨hr, ?_⟩
    rw [hn]
    exact defaultOf_eq_none hd
  · rintro ⟨hr, he⟩
    cases hk : mapGet args a.Name with
    | some v => rw [hk] at he; cases he
    | none =>
      rw [hk] at he
      refine ⟨hr, rfl, ?_⟩
      intro c hc hname
      by_contra hne
      obtain ⟨pre, post, hsplit⟩ := List.append_of_mem hc
      have := defaultOf_append pre (c :: post) a.Name
      rw [← hsplit] at this
      simp only at he
      rw [he] at this
      have hc2 : defaultOf (c :: post) a.Name ≠ none := by
        simp only [defaultOf]
        cases defaultOf post a.Name with
        | some v => simp
        | none => simp [hname, hne]
      cases hd : defaultOf (c :: post) a.Name with
      | none => exact hc2 hd
      | some v => rw [hd] at this; cases this

/-- With pairwise distinct names, a required argument that has no default of its
own and no caller entry lacks a value. -/
theorem lacksValue_of_nodup (p : Prompt) (args : GoMap) (a : Argument)
    (hnd : (argumentNames p).Nodup) (ha : a ∈ p.Arguments) (hreq : a.Required = true)
    (hdef : a.Default = Value.nil) (hnone : mapGet args a.Name = none) :
    LacksValue p args a := by
  refine ⟨hreq, hnone, ?_⟩
  intro c hc hname
  have hca : c = a := List.inj_on_of_nodup_map hnd hc ha hname
  rw [hca]
  exact hdef

/-- Resolution fails at the first required argument in declaration order whose
name has neither a caller entry nor a declared default, with the error
"required argument '<name>' not provided", whatever the other arguments would
do in type conversion. -/
theorem resolvePromptContent_lacksValue (rt : GoRuntime) (p : Prompt) (args : GoMap)
    (h : ∃ a ∈ p.Arguments, LacksValue p args a) :
    ∃ pre first post, p.Arguments = pre ++ first :: post ∧ LacksValue p args first ∧
      (∀ b ∈ pre, ¬ LacksValue p args b) ∧
      resolvePromptContent rt p args = Except.error (notProvided first.Name) := by
  obtain ⟨pre, first, post, hsplit, hfirst, hpre⟩ := exists_first _ _ h
  refine ⟨pre, first, post, hsplit, hfirst, hpre, ?_⟩
  rw [resolvePromptContent_eq]
  have hc : checkRequired (overrideWith args (setDefaults p.Arguments [])) p.Arguments
      = Except.error (notProvided first.Name) := by
    rw [hsplit]
    apply checkRequired_first_missing
    · intro b hb hcon
      apply hpre b hb
      rw [lacksValue_iff, ← mapGet_argValues, hsplit]
      exact hcon
    · exact hfirst.1
    · have := (lacksValue_iff p args first).mp hfirst
      rw [← hsplit, mapGet_argValues]
      exact this.2
  rw [hc]

/-! ## Defaults and caller values -/

theorem forall₂_same_of {R : Argument → Argument → Prop} (hR : ∀ a, R a a)
    (l : List Argument) : List.Forall₂ R l l := by
  induction l with
  | nil => exact List.Forall₂.nil
  | cons a rest ih => exact List.Forall₂.cons (hR a) ih

theorem forall₂_replace {R : Argument → Argument → Prop} (hR : ∀ a, R a a)
    (pre post : List Argument) {a b : Argument} (hab : R a b) :
    List.Forall₂ R (pre ++ a :: post) (pre ++ b :: post) := by
  induction pre with
  | nil => exact List.Forall₂.cons hab (forall₂_same_of hR post)
  | cons c rest ih => exact List.Forall₂.cons (hR c) ih

theorem defaultOf_replace (pre post : List Argument) (a b : Argument) (k : String)
    (ha : a.Name ≠ k) (hb : b.Name ≠ k) :
    defaultOf (pre ++ a :: post) k = defaultOf (pre ++ b :: post) k := by
  rw [defaultOf_append, defaultOf_append]
  simp only [defaultOf, ha, hb, false_and, if_false]

/-- Defaults are read by name. If the caller map has an entry for the argument
`a`, the result is that for the definition with the default of `a` removed; if
it has none and no later argument of the same name carries a default, the
result is that for the caller map extended by `a -> default`. -/
theorem resolvePromptContent_default_by_name (rt : GoRuntime) (p : Prompt)
    (pre : List Argument) (a : Argument) (post : List Argument) (args : GoMap)
    (hsplit : p.Arguments = pre ++ a :: post) (hd : a.Default ≠ Value.nil) :
    (mapGet args a.Name ≠ none →
        resolvePromptContent rt p args
          = resolvePromptContent rt
              { p with Arguments := pre ++ { a with Default := Value.nil } :: post } args)
      ∧ (mapGet args a.Name = none →
          (∀ b ∈ post, b.Name = a.Name → b.Default = Value.nil) →
          resolvePromptContent rt p args
            = resolvePromptContent rt p (mapSet args a.Name a.Default)) := by
  constructor
  · intro hentry
    apply resolvePromptContent_congr
    · rw [hsplit]
      exact forall₂_replace (fun _ => ⟨rfl, rfl, rfl⟩) pre post ⟨rfl, rfl, rfl⟩
    · rfl
    · intro k
      unfold effectiveValue
      cases hk : mapGet args k with
      | some v => rfl
      | none =>
        have hne : a.Name ≠ k := by
          intro h
          rw [h] at hentry
          exact hentry hk
        simp only [hsplit]
        exact defaultOf_replace pre post a _ k hne hne
  · intro hnone hpost
    apply resolvePromptContent_congr
    · exact forall₂_same_of (fun _ => ⟨rfl, rfl, rfl⟩) _
    · rfl
    · intro k
      unfold effectiveValue
      rw [mapGet_mapSet]
      by_cases hk : k = a.Name
      · subst hk
        rw [hnone, if_pos rfl, hsplit, defaultOf_append]
        simp only [defaultOf, defaultOf_eq_none hpost, hd, ne_eq, not_false_eq_true,
          and_self, if_true]
      · rw [if_neg hk]

/-! ## Conversion failures -/

theorem convertArgumentValue_number_error (rt : GoRuntime) (v : Value)
    (h : NotANumber rt v) :
    convertArgumentValue rt v ArgumentTypeNumber = Except.error (numberError rt v) := by
  have hS : ¬ (ArgumentTypeNumber = ArgumentTypeString) := by decide
  unfold convertArgumentValue
  rw [if_neg hS, if_pos rfl]
  rcases h with ⟨s, rfl, hp⟩ | ⟨h1, h2, h3⟩
  · simp only [hp, numberError]
  · cases v with
    | str s => exact absurd rfl (h1 s)
    | int n => exact absurd rfl (h2 n)
    | float64 b => exact absurd rfl (h3 b)
    | nil => rfl
    | int64 n => rfl
    | float32 b => rfl
    | bool b => rfl
    | other t => rfl

/-- With pairwise distinct names, the conversion loop stops at the first
argument whose value is rejected. -/
theorem convertAll_first_failure (rt : GoRuntime) (a : Argument) (post : List Argument)
    (v : Value) (e : String) (he : convertArgumentValue rt v a.Typ = Except.error e)
    (pre : List Argument) :
    ∀ m : GoMap, ((pre ++ a :: post).map (fun b => b.Name)).Nodup →
      (∀ b ∈ pre, ∀ w, mapGet m b.Name = some w →
        ∃ w2, convertArgumentValue rt w b.Typ = Except.ok w2) →
      mapGet m a.Name = some v →
      convertAll rt (pre ++ a :: post) m
        = Except.error ("argument '" ++ a.Name ++ "': " ++ e) := by
  induction pre with
  | nil =>
    intro m _ _ hv
    simp only [List.nil_append, convertAll, hv, he]
  | cons b rest ih =>
    intro m hnd hpre hv
    simp only [List.cons_append, List.map_cons, List.nodup_cons] at hnd
    simp only [List.cons_append, convertAll]
    cases hb : mapGet m b.Name with
    | none =>
      exact ih m hnd.2 (fun c hc => hpre c (List.mem_cons_of_mem _ hc)) hv
    | some w =>
      obtain ⟨w2, hw2⟩ := hpre b (List.mem_cons_self _ _) w hb
      simp only [hw2]
      have hother : ∀ c ∈ rest ++ a :: post,
          mapGet (mapSet m b.Name w2) c.Name = mapGet m c.Name := by
        intro c hc
        rw [mapGet_mapSet]
        have : c.Name ≠ b.Name := by
          intro hcb
          apply hnd.1
          rw [← hcb]
          exact List.mem_map.mpr ⟨c, hc, rfl⟩
        rw [if_neg this]
      apply ih _ hnd.2
      · intro c hc w3 hw3
        rw [hother c (List.mem_append_left _ hc)] at hw3
        exact hpre c (List.mem_cons_of_mem _ hc) w3 hw3
      · rw [hother a (List.mem_append_right _ (List.mem_cons_self _ _))]
        exact hv

/-- C5, for the code: the error names the first argument whose conversion fails,
not the first number argument with an unparseable string. In `flagCountPrompt`,
a definition that passes `ValidatePrompt`, `count` is the only number argument
and its value "abc" does not parse, yet the error names `flag`, declared earlier,
whose value is not a boolean. In `retypedPrompt`, where the name `x` is declared
twice, the unparseable string "abc" is reported as an invalid value `false`. -/
theorem conversion_error_names_earlier_argument :
    ValidatePrompt RangeOrder.inOrder flagCountPrompt = Except.ok ()
      ∧ (∀ b ∈ flagCountPrompt.Arguments, b.Required = true →
          effectiveValue flagCountPrompt
            [("flag", Value.int 5), ("count", Value.str "abc")] b.Name ≠ none)
      ∧ (∀ a ∈ flagCountPrompt.Arguments, a.Typ = ArgumentTypeNumber → a.Name = "count")
      ∧ effectiveValue flagCountPrompt
          [("flag", Value.int 5), ("count", Value.str "abc")] "count" = some (Value.str "abc")
      ∧ sampleRuntime.parseFloat "abc" = none
      ∧ resolvePromptContent sampleRuntime flagCountPrompt
          [("flag", Value.int 5), ("count", Value.str "abc")]
          = Except.error "argument 'flag': invalid boolean value: 5"
      ∧ resolvePromptContent sampleRuntime retypedPrompt [("x", Value.str "abc")]
          = Except.error "argument 'x': invalid number value: false" := by
  refine ⟨?_, ?_, ?_, ?_, ?_, ?_, ?_⟩ <;> decide!

/-- C5, amended: for a definition with pairwise distinct argument names and a
caller map under which every required argument has an effective value, if a
declared argument `a` of type number has an effective value that is a string
which does not parse as a floating-point number, or a value that is neither a
string, an `int` nor a `float64`, then `resolvePromptContent` returns an error
and no text. The error is "argument '<name>': <reason>" for the first argument in
declaration order whose effective value its declared type rejects; when that
argument is `a`, the reason is "cannot convert '<s>' to number" for a string and
"invalid number value: <v>" otherwise. -/
theorem resolvePromptContent_conversion_error (rt : GoRuntime) (p : Prompt) (args : GoMap)
    (a : Argument) (v : Value)
    (hnodup : (argumentNames p).Nodup)
    (hreq : ∀ b ∈ p.Arguments, b.Required = true → effectiveValue p args b.Name ≠ none)
    (ha : a ∈ p.Arguments) (htyp : a.Typ = ArgumentTypeNumber)
    (hv : effectiveValue p args a.Name = some v) (hbad : NotANumber rt v) :
    ∃ pre first post w e, p.Arguments = pre ++ first :: post ∧
      (∀ b ∈ pre, ConvertsOk rt p args b) ∧
      effectiveValue p args first.Name = some w ∧
      convertArgumentValue rt w first.Typ = Except.error e ∧
      resolvePromptContent rt p args
        = Except.error ("argument '" ++ first.Name ++ "': " ++ e) ∧
      (first = a → e = numberError rt v) := by
  have hfails : ∃ b ∈ p.Arguments, ConvertFails rt p args b :=
    ⟨a, ha, v, numberError rt v, hv, by rw [htyp]; exact convertArgumentValue_number_error rt v hbad⟩
  obtain ⟨pre, first, post, hsplit, hfirst, hpre⟩ := exists_first _ _ hfails
  obtain ⟨w, e, hw, he⟩ := hfirst
  have hok : ∀ b ∈ pre, ConvertsOk rt p args b := by
    intro b hb w2 hw2
    cases hc : convertArgumentValue rt w2 b.Typ with
    | ok w3 => exact ⟨w3, rfl⟩
    | error e2 => exact absurd ⟨w2, e2, hw2, hc⟩ (hpre b hb)
  refine ⟨pre, first, post, w, e, hsplit, hok, hw, he, ?_, ?_⟩
  · rw [resolvePromptContent_eq]
    have hcheck : checkRequired (overrideWith args (setDefaults p.Arguments [])) p.Arguments
        = Except.ok () := by
      apply checkRequired_ok
      intro b hb hr
      rw [mapGet_argValues]
      exact hreq b hb hr
    have hconv : convertAll rt p.Arguments (overrideWith args (setDefaults p.Arguments []))
        = Except.error ("argument '" ++ first.Name ++ "': " ++ e) := by
      have hnd : ((pre ++ first :: post).map (fun b => b.Name)).Nodup := by
        rw [← hsplit]; exact hnodup
      have key := convertAll_first_failure rt first post w e he pre
        (overrideWith args (setDefaults p.Arguments [])) hnd
        (fun b hb w2 hw2 => hok b hb w2 (by rw [← mapGet_argValues]; exact hw2))
        (by rw [mapGet_argValues]; exact hw)
      rw [hsplit]
      rw [hsplit] at key
      exact key
    rw [hcheck]
    simp only [hconv]
  · intro hfa
    subst hfa
    rw [hv] at hw
    injection hw with hw
    subst hw
    rw [htyp, convertArgumentValue_number_error rt _ hbad] at he
    injection he with he
    exact he.symm

/-- An instance of C5: `count` supplied as "abc", after a `flag` that converts. -/
theorem resolvePromptContent_conversion_error_count :
    (argumentNames flagCountPrompt).Nodup
      ∧ NotANumber sampleRuntime (Value.str "abc")
      ∧ resolvePromptContent sampleRuntime flagCountPrompt
          [("flag", Value.str "yes"), ("count", Value.str "abc")]
          = Except.error "argument 'count': cannot convert 'abc' to number"
      ∧ ∃ pre first post w e, flagCountPrompt.Arguments = pre ++ first :: post ∧
          (∀ b ∈ pre, ConvertsOk sampleRuntime flagCountPrompt
            [("flag", Value.str "yes"), ("count", Value.str "abc")] b) ∧
          effectiveValue flagCountPrompt
            [("flag", Value.str "yes"), ("count", Value.str "abc")] first.Name = some w ∧
          convertArgumentValue sampleRuntime w first.Typ = Except.error e ∧
          resolvePromptContent sampleRuntime flagCountPrompt
            [("flag", Value.str "yes"), ("count", Value.str "abc")]
            = Except.error ("argument '" ++ first.Name ++ "': " ++ e) ∧
          (first = countArgument → e = numberError sampleRuntime (Value.str "abc")) := by
  have hbad : NotANumber sampleRuntime (Value.str "abc") := Or.inl ⟨"abc", rfl, by decide⟩
  refine ⟨by decide, hbad, by decide!, ?_⟩
  exact resolvePromptContent_conversion_error sampleRuntime flagCountPrompt
    [("flag", Value.str "yes"), ("count", Value.str "abc")] _ (Value.str "abc")
    (by decide) (by decide!) (by decide) rfl (by decide!) hbad

/-! ## Lemmas on the validator -/

theorem dropWhile_append_singleton_ne_nil (f : Char → Bool) (c : Char) (hc : f c = false)
    (l : List Char) : List.dropWhile f (l ++ [c]) ≠ [] := by
  induction l with
  | nil => simp [List.dropWhile_cons, hc]
  | cons d rest ih =>
    simp only [List.cons_append, List.dropWhile_cons]
    split
    · exact ih
    · exact List.cons_ne_nil _ _

theorem trimSpace_ne_empty_of_head {s : String} {c : Char} {rest : List Char}
    (hs : s.data = c :: rest) (hc : isSpace c = false) : trimSpace s ≠ "" := by
  unfold trimSpace trimRightFunc
  rw [hs, List.dropWhile_cons_of_neg (by simp [hc]), List.reverse_cons]
  intro h
  have h2 := congrArg String.data h
  simp only at h2
  have h3 : List.dropWhile isSpace (rest.reverse ++ [c]) = [] := by
    have := congrArg List.reverse h2
    simpa using this
  exact dropWhile_append_singleton_ne_nil isSpace c hc _ h3

theorem isSpace_of_isAlpha {c : Char} (h : c.isAlpha = true) : isSpace c = false := by
  have hval : (65 ≤ c.toNat ∧ c.toNat ≤ 90) ∨ (97 ≤ c.toNat ∧ c.toNat ≤ 122) := by
    simp only [Char.isAlpha, Char.isUpper, Char.isLower, Bool.or_eq_true, Bool.and_eq_true,
      decide_eq_true_eq, ge_iff_le, UInt32.le_def, Fin.le_def] at h
    exact h
  unfold isSpace
  simp only [Bool.or_eq_false_iff, beq_eq_false_iff_ne, ne_eq, Bool.and_eq_false_imp,
    decide_eq_true_eq, decide_eq_false_iff_not]
  omega

theorem nonBlank_of_isValidArgumentName {name : String}
    (h : isValidArgumentName name = true) : trimSpace name ≠ "" := by
  unfold isValidArgumentName at h
  cases hd : name.data with
  | nil => rw [hd] at h; cases h
  | cons c rest =>
    rw [hd] at h
    simp only [Bool.and_eq_true] at h
    exact trimSpace_ne_empty_of_head hd (isSpace_of_isAlpha h.1)

theorem knownType_iff (t : ArgumentType) : isValidArgumentType t = true ↔ KnownType t := by
  simp [isValidArgumentType, KnownType, or_assoc]

theorem validateArgumentDefault_ok_iff (arg : Argument) (ht : KnownType arg.Typ) :
    (arg.Default ≠ Value.nil → validateArgumentDefault arg.Default arg.Typ = Except.ok ())
      ↔ DefaultConsistent arg := by
  have hSN : ArgumentTypeString ≠ ArgumentTypeNumber := by decide
  have hSB : ArgumentTypeString ≠ ArgumentTypeBoolean := by decide
  have hNB : ArgumentTypeNumber ≠ ArgumentTypeBoolean := by decide
  unfold DefaultConsistent validateArgumentDefault
  rcases ht with ht | ht | ht <;> rw [ht] <;> cases arg.Default <;>
    simp [hSN, hSB, hNB, hSN.symm, hSB.symm, hNB.symm]

theorem argumentOk_iff (arg : Argument) : ArgumentOk arg ↔ WellFormedArgument arg := by
  unfold ArgumentOk WellFormedArgument NonBlank
  constructor
  · rintro ⟨_, h2, h3, h4, h5⟩
    have ht := (knownType_iff _).mp h4
    exact ⟨h2, h3, ht, (validateArgumentDefault_ok_iff arg ht).mp h5⟩
  · rintro ⟨h1, h2, h3, h4⟩
    exact ⟨nonBlank_of_isValidArgumentName h1, h1, h2, (knownType_iff _).mpr h3,
      (validateArgumentDefault_ok_iff arg h3).mpr h4⟩

/-- The argument loop succeeds exactly when every argument passes its checks and
no name repeats an earlier one or a name already seen. -/
theorem validateArgumentsFrom_ok_iff (l : List Argument) :
    ∀ (i : Nat) (seen : List String),
      validateArgumentsFrom i seen l = Except.ok () ↔
        ((∀ a ∈ l, ArgumentOk a) ∧ (l.map (fun a => a.Name)).Nodup ∧
          ∀ a ∈ l, a.Name ∉ seen) := by
  induction l with
  | nil => intro i seen; simp [validateArgumentsFrom]
  | cons a rest ih =>
    intro i seen
    simp only [validateArgumentsFrom]
    by_cases h1 : trimSpace a.Name = ""
    · simp [h1, ArgumentOk]
    rw [if_neg h1]
    by_cases h2 : isValidArgumentName a.Name = true
    swap
    · simp [h2, ArgumentOk]
    by_cases h3 : a.Name ∈ seen
    · have h3c : seen.contains a.Name = true := by simpa using h3
      simp only [h2, h3c, Bool.not_true, Bool.false_eq_true, if_false, if_true, false_iff,
        reduceCtorEq]
      rintro ⟨_, _, hs⟩
      exact hs a (List.mem_cons_self _ _) h3
    have h3c : seen.contains a.Name = false := by simpa using h3
    by_cases h4 : trimSpace a.Description = ""
    · simp [h2, h3, h4, ArgumentOk]
    by_cases h5 : isValidArgumentType a.Typ = true
    swap
    · simp [h2, h3, h4, h5, ArgumentOk]
    simp only [h2, h3c, h4, h5, Bool.not_true, Bool.false_eq_true, if_false]
    by_cases h6 : a.Default ≠ Value.nil → validateArgumentDefault a.Default a.Typ = Except.ok ()
    swap
    · have hne : a.Default ≠ Value.nil := fun hc => h6 (fun hn => absurd hc hn)
      have hbad : validateArgumentDefault a.Default a.Typ ≠ Except.ok () :=
        fun hc => h6 (fun _ => hc)
      rw [if_pos hne]
      cases hv : validateArgumentDefault a.Default a.Typ with
      | ok u => exact absurd hv hbad
      | error e =>
        simp only [false_iff, reduceCtorEq]
        rintro ⟨hall, _, _⟩
        exact h6 (hall a (List.mem_cons_self _ _)).2.2.2.2
    have hdef : (if a.Default ≠ Value.nil then validateArgumentDefault a.Default a.Typ
        else Except.ok ()) = Except.ok () := by
      by_cases hn : a.Default ≠ Value.nil
      · rw [if_pos hn]; exact h6 hn
      · rw [if_neg hn]
    rw [hdef]
    simp only
    rw [ih]
    have haok : ArgumentOk a := ⟨h1, h2, h4, h5, h6⟩
    constructor
    · rintro ⟨hall, hnd, hseen⟩
      refine ⟨?_, ?_, ?_⟩
      · intro b hb
        rcases List.mem_cons.mp hb with rfl | hb
        · exact haok
        · exact hall b hb
      · simp only [List.map_cons, List.nodup_cons]
        refine ⟨?_, hnd⟩
        intro hmem
        obtain ⟨b, hb, hbn⟩ := List.mem_map.mp hmem
        exact hseen b hb (by rw [hbn]; exact List.mem_cons_self _ _)
      · intro b hb
        rcases List.mem_cons.mp hb with rfl | hb
        · exact h3
        · exact fun hc => hseen b hb (List.mem_cons_of_mem _ hc)
    · rintro ⟨hall, hnd, hseen⟩
      simp only [List.map_cons, List.nodup_cons] at hnd
      refine ⟨fun b hb => hall b (List.mem_cons_of_mem _ hb), hnd.2, ?_⟩
      intro b hb hc
      rcases List.mem_cons.mp hc with hc | hc
      · exact hnd.1 (List.mem_map.mpr ⟨b, hb, hc⟩)
      · exact hseen b (List.mem_cons_of_mem _ hb) hc

theorem validateArguments_ok_iff (l : List Argument) :
    validateArguments l = Except.ok () ↔
      ((∀ a ∈ l, WellFormedArgument a) ∧ (l.map (fun a => a.Name)).Nodup) := by
  unfold validateArguments
  rw [validateArgumentsFrom_ok_iff]
  constructor
  · rintro ⟨h1, h2, _⟩
    exact ⟨fun a ha => (argumentOk_iff a).mp (h1 a ha), h2⟩
  · rintro ⟨h1, h2⟩
    exact ⟨fun a ha => (argumentOk_iff a).mpr (h1 a ha), h2, fun _ _ h => by cases h⟩

theorem validateMetadata_ok_iff (md : Metadata) :
    validateMetadata md = Except.ok () ↔ WellFormedMetadata md := by
  unfold validateMetadata WellFormedMetadata NonBlank
  by_cases h1 : trimSpace md.ID = ""
  · simp [h1]
  by_cases h2 : isValidID md.ID = true
  swap
  · simp [h1, h2]
  by_cases h3 : trimSpace md.Name = ""
  · simp [h1, h2, h3]
  by_cases h4 : trimSpace md.Description = ""
  · simp [h1, h2, h3, h4]
  by_cases h5 : trimSpace md.Author = ""
  · simp [h1, h2, h3, h4, h5]
  by_cases h6 : trimSpace md.Version = ""
  · simp [h1, h2, h3, h4, h5, h6]
  by_cases h7 : md.Created.IsZero = true
  · simp [h1, h2, h3, h4, h5, h6, h7]
  by_cases h8 : md.Modified.IsZero = true
  · simp [h1, h2, h3, h4, h5, h6, h7, h8]
  simp [h1, h2, h3, h4, h5, h6, h7, h8]

/-- The content check succeeds exactly when the template is non-blank, every
captured name is declared and every required argument is captured. -/
theorem validatePromptContent_ok_iff (ord : RangeOrder) (content : String)
    (arguments : List Argument) :
    validatePromptContent ord content arguments = Except.ok () ↔
      (NonBlank content ∧
        (∀ name ∈ findAllSubmatch content, name ∈ arguments.map (fun a => a.Name)) ∧
        (∀ a ∈ arguments, a.Required = true → a.Name ∈ findAllSubmatch content)) := by
  unfold validatePromptContent NonBlank
  by_cases h1 : trimSpace content = ""
  · simp [h1]
  rw [if_neg h1]
  simp only
  cases hf : List.find?
      (fun name => !(arguments.map (fun arg => arg.Name)).contains name)
      (ord.order (findAllSubmatch content).dedup) with
  | some name =>
    have hmem := List.mem_of_find?_eq_some hf
    have hp := List.find?_some hf
    have hmem2 : name ∈ findAllSubmatch content :=
      List.mem_dedup.mp ((ord.perm _).mem_iff.mp hmem)
    simp only [false_iff, reduceCtorEq]
    rintro ⟨_, h2, _⟩
    have := h2 name hmem2
    simp [this] at hp
  | none =>
    have hall : ∀ name ∈ findAllSubmatch content, name ∈ arguments.map (fun a => a.Name) := by
      intro name hn
      have hmem : name ∈ ord.order (findAllSubmatch content).dedup :=
        (ord.perm _).mem_iff.mpr (List.mem_dedup.mpr hn)
      have := List.find?_eq_none.mp hf name hmem
      simpa using this
    simp only
    cases hr : List.find?
        (fun arg => arg.Required && !(findAllSubmatch content).dedup.contains arg.Name)
        arguments with
    | some arg =>
      have hmem := List.mem_of_find?_eq_some hr
      have hp := List.find?_some hr
      simp only [false_iff, reduceCtorEq]
      rintro ⟨_, _, h3⟩
      simp only [Bool.and_eq_true, Bool.not_eq_true', List.contains_eq_any_beq,
        List.any_eq_false, beq_iff_eq, List.mem_dedup] at hp
      exact hp.2 arg.Name (h3 arg hmem hp.1) rfl
    | none =>
      simp only [true_iff]
      refine ⟨h1, hall, ?_⟩
      intro a ha hreq
      have := List.find?_eq_none.mp hr a ha
      simp only [hreq, Bool.true_and, Bool.not_eq_true, Bool.not_eq_false',
        List.contains_eq_any_beq, List.any_eq_true, beq_iff_eq, List.mem_dedup] at this
      obtain ⟨x, hx, hxa⟩ := this
      rw [hxa]
      exact hx

/-- Equivalence `ValidatePrompt` succeeds exactly on the definitions that meet the
documented conditions. -/
theorem validatePrompt_ok_iff (ord : RangeOrder) (p : Prompt) :
    ValidatePrompt ord p = Except.ok () ↔ DocumentedValid p := by
  have hdoc : DocumentedValid p ↔
      (validateMetadata p.Metadata = Except.ok () ∧ validateArguments p.Arguments = Except.ok ()
        ∧ validatePromptContent ord p.Prompt p.Arguments = Except.ok ()) := by
    rw [validateMetadata_ok_iff, validateArguments_ok_iff, validatePromptContent_ok_iff]
    unfold DocumentedValid argumentNames
    constructor
    · rintro ⟨h1, h2, h3, h4, h5, h6⟩
      exact ⟨h1, ⟨h2, h3⟩, h4, h5, h6⟩
    · rintro ⟨h1, ⟨h2, h3⟩, h4, h5, h6⟩
      exact ⟨h1, h2, h3, h4, h5, h6⟩
  rw [hdoc]
  unfold ValidatePrompt
  cases validateMetadata p.Metadata with
  | error e => simp
  | ok u =>
    cases validateArguments p.Arguments with
    | error e => simp
    | ok u2 =>
      cases validatePromptContent ord p.Prompt p.Arguments with
      | error e => simp
      | ok u3 => simp

theorem find?_of_first {α : Type} (f : α → Bool) (pre : List α) (first : α) (post : List α)
    (hf : f first = true) (hpre : ∀ b ∈ pre, f b = false) :
    List.find? f (pre ++ first :: post) = some first := by
  induction pre with
  | nil => simp [List.find?_cons, hf]
  | cons b rest ih =>
    simp only [List.cons_append, List.find?_cons, hpre b (List.mem_cons_self _ _)]
    exact ih (fun c hc => hpre c (List.mem_cons_of_mem _ hc))

/-! ## Validation: the documented conditions -/

/-- C6: `ValidatePrompt` returns success for every definition that satisfies all
documented conditions: metadata fields non-blank, timestamps non-zero, id and
argument names matching their patterns, names distinct, descriptions non-blank,
types known, defaults consistent, template non-blank, every placeholder declared
and every required argument used. -/
theorem validatePrompt_of_documentedValid (ord : RangeOrder) (p : Prompt)
    (h : DocumentedValid p) : ValidatePrompt ord p = Except.ok () :=
  (validatePrompt_ok_iff ord p).mpr h

/-- The definition of `TestLoadPrompt` meets the documented conditions and
validates, an instance of C6. -/
theorem validatePrompt_testLoadPrompt :
    DocumentedValid testLoadPrompt
      ∧ ValidatePrompt RangeOrder.inOrder testLoadPrompt = Except.ok () := by
  have hdoc : DocumentedValid testLoadPrompt := by
    unfold DocumentedValid
    refine ⟨?_, ?_, by decide!, ?_, by decide!, by decide!⟩
    · unfold WellFormedMetadata NonBlank
      decide!
    · intro a ha
      have haeq : a = nameArgument := by
        simpa [testLoadPrompt, helloPrompt] using ha
      subst haeq
      refine ⟨by decide!, ?_, Or.inl rfl, Or.inl rfl⟩
      unfold NonBlank
      decide!
    · unfold NonBlank
      decide!
  exact ⟨hdoc, validatePrompt_of_documentedValid RangeOrder.inOrder testLoadPrompt hdoc⟩

/-- C7: if `ValidatePrompt` succeeds on a definition, then every name captured
by the pattern in its template, that is every non-empty word `w` for which
`{{w}}` stands in the template, is the name of a declared argument, and the name
of every required argument is captured at least once: `{{name}}` stands in the
template. -/
theorem validatePrompt_containment (ord : RangeOrder) (p : Prompt)
    (h : ValidatePrompt ord p = Except.ok ()) :
    (∀ name ∈ findAllSubmatch p.Prompt, name ∈ argumentNames p)
      ∧ (∀ pre w post, p.Prompt.data = pre ++ (placeholderText w ++ post) → w ≠ [] →
          (∀ c ∈ w, isWordChar c = true) → String.mk w ∈ argumentNames p)
      ∧ (∀ a ∈ p.Arguments, a.Required = true →
          a.Name ∈ findAllSubmatch p.Prompt ∧
          ∃ pre post, p.Prompt.data = pre ++ (placeholderText a.Name.data ++ post)) := by
  obtain ⟨_, _, _, _, h5, h6⟩ := (validatePrompt_ok_iff ord p).mp h
  refine ⟨h5, ?_, ?_⟩
  · intro pre w post hs hw hword
    exact h5 _ ((mem_findAllSubmatch_iff p.Prompt (String.mk w)).mpr ⟨hw, hword, pre, post, hs⟩)
  · intro a ha hr
    exact ⟨h6 a ha hr, ((mem_findAllSubmatch_iff _ _).mp (h6 a ha hr)).2.2⟩

/-- An instance of C7 on the definition of `TestLoadPrompt`. -/
theorem validatePrompt_containment_testLoadPrompt :
    ValidatePrompt RangeOrder.inOrder testLoadPrompt = Except.ok ()
      ∧ (∀ name ∈ findAllSubmatch testLoadPrompt.Prompt, name ∈ argumentNames testLoadPrompt)
      ∧ (∀ pre w post, testLoadPrompt.Prompt.data = pre ++ (placeholderText w ++ post) →
          w ≠ [] → (∀ c ∈ w, isWordChar c = true) →
          String.mk w ∈ argumentNames testLoadPrompt)
      ∧ (∀ a ∈ testLoadPrompt.Arguments, a.Required = true →
          a.Name ∈ findAllSubmatch testLoadPrompt.Prompt ∧
          ∃ pre post,
            testLoadPrompt.Prompt.data = pre ++ (placeholderText a.Name.data ++ post)) :=
  ⟨by decide!, validatePrompt_containment RangeOrder.inOrder testLoadPrompt (by decide!)⟩

/-! ## Validation: unused required arguments -/

/-- C9: for a definition whose metadata and arguments pass their checks, whose
template is non-blank and whose placeholders are all declared, if some required
argument does not occur as a placeholder, `ValidatePrompt` fails with
"required argument '<name>' is not used in prompt" for the first such argument
in declaration order. -/
theorem validatePrompt_unused_required (ord : RangeOrder) (p : Prompt)
    (hmeta : validateMetadata p.Metadata = Except.ok ())
    (hargs : validateArguments p.Arguments = Except.ok ())
    (htpl : NonBlank p.Prompt)
    (hdecl : ∀ name ∈ findAllSubmatch p.Prompt, name ∈ argumentNames p)
    (hunused : ∃ a ∈ p.Arguments, UnusedRequired p a) :
    ∃ pre first post, p.Arguments = pre ++ first :: post ∧ UnusedRequired p first ∧
      (∀ b ∈ pre, ¬ UnusedRequired p b) ∧
      ValidatePrompt ord p = Except.error
        ("prompt content validation failed: required argument '" ++ first.Name ++
          "' is not used in prompt") := by
  obtain ⟨pre, first, post, hsplit, hfirst, hpre⟩ := exists_first _ _ hunused
  refine ⟨pre, first, post, hsplit, hfirst, hpre, ?_⟩
  unfold ValidatePrompt
  rw [hmeta, hargs]
  simp only
  unfold validatePromptContent
  rw [if_neg htpl]
  simp only
  have hnone : List.find?
      (fun name => !(p.Arguments.map (fun arg => arg.Name)).contains name)
      (ord.order (findAllSubmatch p.Prompt).dedup) = none := by
    rw [List.find?_eq_none]
    intro name hn
    have hmem : name ∈ findAllSubmatch p.Prompt :=
      List.mem_dedup.mp ((ord.perm _).mem_iff.mp hn)
    have := hdecl name hmem
    unfold argumentNames at this
    simp [this]
  rw [hnone]
  simp only
  have hsome : List.find?
      (fun arg => arg.Required && !(findAllSubmatch p.Prompt).dedup.contains arg.Name)
      p.Arguments = some first := by
    rw [hsplit]
    apply find?_of_first
    · have h1 := hfirst.1
      have h2 := hfirst.2
      simp [h1, h2]
    · intro b hb
      have hb2 := hpre b hb
      unfold UnusedRequired at hb2
      by_cases hr : b.Required = true
      · have : b.Name ∈ findAllSubmatch p.Prompt := by
          by_contra hc
          exact hb2 ⟨hr, hc⟩
        simp [this]
      · simp [hr]
  rw [hsome]
  rfl

/-- An instance of C9: the required number argument `count` is not used by the
template "Hello {{name}}!". -/
theorem validatePrompt_unused_required_count :
    (∃ a ∈ unusedCountPrompt.Arguments, UnusedRequired unusedCountPrompt a)
      ∧ ValidatePrompt RangeOrder.inOrder unusedCountPrompt = Except.error
          "prompt content validation failed: required argument 'count' is not used in prompt"
      ∧ ∃ pre first post, unusedCountPrompt.Arguments = pre ++ first :: post ∧
          UnusedRequired unusedCountPrompt first ∧
          (∀ b ∈ pre, ¬ UnusedRequired unusedCountPrompt b) ∧
          ValidatePrompt RangeOrder.inOrder unusedCountPrompt = Except.error
            ("prompt content validation failed: required argument '" ++ first.Name ++
              "' is not used in prompt") := by
  have hunused : ∃ a ∈ unusedCountPrompt.Arguments, UnusedRequired unusedCountPrompt a := by
    refine ⟨countArgument, by decide, rfl, by decide!⟩
  have htpl : NonBlank unusedCountPrompt.Prompt := by
    unfold NonBlank
    decide!
  exact ⟨hunused, by decide!,
    validatePrompt_unused_required RangeOrder.inOrder unusedCountPrompt (by decide!)
      (by decide!) htpl (by decide!) hunused⟩

/-! ## Validation: well-formed argument lists -/

/-- Arguments that pass their checks are stepped over by the argument loop. -/
theorem validateArgumentsFrom_append (pre rest : List Argument) :
    ∀ (i : Nat) (seen : List String), validateArgumentsFrom i seen pre = Except.ok () →
      validateArgumentsFrom i seen (pre ++ rest)
        = validateArgumentsFrom (i + pre.length)
            ((pre.map (fun a => a.Name)).reverse ++ seen) rest := by
  induction pre with
  | nil => intro i seen _; rfl
  | cons a tl ih =>
    intro i seen h
    have hiff := (validateArgumentsFrom_ok_iff (a :: tl) i seen).mp h
    obtain ⟨h1, h2, h4, h5, h6⟩ := hiff.1 a (List.mem_cons_self _ _)
    have h3 : seen.contains a.Name = false := by
      simpa using hiff.2.2 a (List.mem_cons_self _ _)
    have hdef : (if a.Default ≠ Value.nil then validateArgumentDefault a.Default a.Typ
        else Except.ok ()) = Except.ok () := by
      by_cases hn : a.Default ≠ Value.nil
      · rw [if_pos hn]; exact h6 hn
      · rw [if_neg hn]
    have hstep : ∀ l : List Argument, validateArgumentsFrom i seen (a :: l)
        = validateArgumentsFrom (i + 1) (a.Name :: seen) l := by
      intro l
      simp only [validateArgumentsFrom, h1, h2, h3, h4, h5, hdef, Bool.not_true,
        Bool.false_eq_true, if_false]
    rw [hstep] at h
    rw [List.cons_append, hstep, ih (i + 1) (a.Name :: seen) h]
    simp only [List.length_cons, List.map_cons, List.reverse_cons, List.append_assoc,
      List.singleton_append]
    congr 1
    omega

/-- C8, for the code: a definition with two arguments of the same name fails,
but the error need not carry the index of the later duplicate. With a blank
description on the first argument the error carries index 0, and with an empty
id the error is the metadata failure, which carries no index. -/
theorem duplicate_name_error_without_its_index :
    (∃ a b, blankDescriptionPrompt.Arguments = [a, b] ∧ a.Name = b.Name)
      ∧ ValidatePrompt RangeOrder.inOrder blankDescriptionPrompt = Except.error
          "arguments validation failed: argument 0 (name): description is required"
      ∧ (∃ a b, emptyIdPrompt.Arguments = [a, b] ∧ a.Name = b.Name)
      ∧ ValidatePrompt RangeOrder.inOrder emptyIdPrompt = Except.error
          "metadata validation failed: id is required" := by
  refine ⟨⟨_, _, rfl, rfl⟩, by decide!, ⟨_, _, rfl, rfl⟩, by decide!⟩

/-- C8, amended: if `ValidatePrompt` succeeds on a definition, its argument
names are pairwise distinct and every argument has a name matching the name
pattern, a non-blank description, a known type and a default consistent with the
type. A definition with two arguments of the same name always fails; when the
metadata passes, the arguments before the later duplicate pass their checks and
the duplicate's name matches the pattern, the error is the duplicate-name error
with the index of the later duplicate. -/
theorem validatePrompt_arguments_wellFormed (ord : RangeOrder) (p : Prompt) :
    (ValidatePrompt ord p = Except.ok () →
        (argumentNames p).Nodup ∧ ∀ a ∈ p.Arguments, WellFormedArgument a)
      ∧ (∀ pre a mid b post, p.Arguments = pre ++ a :: (mid ++ b :: post) → a.Name = b.Name →
          ∃ e, ValidatePrompt ord p = Except.error e)
      ∧ (∀ pre b post, validateMetadata p.Metadata = Except.ok () →
          p.Arguments = pre ++ b :: post → validateArguments pre = Except.ok () →
          isValidArgumentName b.Name = true → b.Name ∈ pre.map (fun a => a.Name) →
          ValidatePrompt ord p = Except.error
            ("arguments validation failed: argument " ++ toString pre.length ++
              ": duplicate name '" ++ b.Name ++ "'")) := by
  have hfirst : ValidatePrompt ord p = Except.ok () →
      (argumentNames p).Nodup ∧ ∀ a ∈ p.Arguments, WellFormedArgument a := by
    intro h
    obtain ⟨_, h2, h3, _⟩ := (validatePrompt_ok_iff ord p).mp h
    exact ⟨h3, h2⟩
  refine ⟨hfirst, ?_, ?_⟩
  · intro pre a mid b post hsplit hab
    cases hv : ValidatePrompt ord p with
    | error e => exact ⟨e, rfl⟩
    | ok u =>
      exfalso
      have hnd := (hfirst hv).1
      unfold argumentNames at hnd
      rw [hsplit] at hnd
      simp only [List.map_append, List.map_cons] at hnd
      have h2 := (List.nodup_append.mp hnd).2.1
      rw [List.nodup_cons] at h2
      apply h2.1
      rw [hab]
      simp
  · intro pre b post hmeta hsplit hpre hname hmem
    unfold ValidatePrompt
    rw [hmeta]
    simp only
    unfold validateArguments at hpre ⊢
    rw [hsplit, validateArgumentsFrom_append pre (b :: post) 0 [] hpre]
    have hcontains :
        ((pre.map (fun a : Argument => a.Name)).reverse ++ []).contains b.Name = true := by
      simpa using hmem
    simp only [validateArgumentsFrom, nonBlank_of_isValidArgumentName hname, hname, hcontains,
      Bool.not_true, Bool.false_eq_true, if_false, if_true, Nat.zero_add]
    rfl

/-- An instance of C8: the definition that declares `name` twice fails with the
index 1 of the second declaration. -/
theorem validatePrompt_duplicate_name_index :
    validateMetadata duplicateNamePrompt.Metadata = Except.ok ()
      ∧ duplicateNamePrompt.Arguments = [nameArgument] ++ nameArgument :: []
      ∧ validateArguments [nameArgument] = Except.ok ()
      ∧ ValidatePrompt RangeOrder.inOrder duplicateNamePrompt = Except.error
          "arguments validation failed: argument 1: duplicate name 'name'"
      ∧ (ValidatePrompt RangeOrder.inOrder testLoadPrompt = Except.ok ()
          ∧ (argumentNames testLoadPrompt).Nodup
          ∧ ∀ a ∈ testLoadPrompt.Arguments, WellFormedArgument a) := by
  have h := validatePrompt_arguments_wellFormed RangeOrder.inOrder duplicateNamePrompt
  have h2 := validatePrompt_arguments_wellFormed RangeOrder.inOrder testLoadPrompt
  have hv : ValidatePrompt RangeOrder.inOrder testLoadPrompt = Except.ok () := by decide!
  refine ⟨by decide!, rfl, by decide!, ?_, hv, h2.1 hv⟩
  exact h.2.2 [nameArgument] nameArgument [] (by decide!) rfl (by decide!) (by decide!)
    (by decide)

/-! ## Validation: blank fields -/

/-- C10: on a definition that passes `ValidatePrompt`, replacing one required
field by an empty value makes validation fail with the reason for that field:
`s` is any empty or whitespace-only string put in place of the id, name,
description, author, version or template, and `z` the zero timestamp put in
place of created or modified. -/
theorem validatePrompt_blank_field (ord : RangeOrder) (p : Prompt)
    (hvalid : ValidatePrompt ord p = Except.ok ())
    (s : String) (hs : trimSpace s = "") (z : Time) (hz : z.IsZero = true) :
    ValidatePrompt ord { p with Metadata := { p.Metadata with ID := s } }
        = Except.error "metadata validation failed: id is required"
      ∧ ValidatePrompt ord { p with Metadata := { p.Metadata with Name := s } }
        = Except.error "metadata validation failed: name is required"
      ∧ ValidatePrompt ord { p with Metadata := { p.Metadata with Description := s } }
        = Except.error "metadata validation failed: description is required"
      ∧ ValidatePrompt ord { p with Metadata := { p.Metadata with Author := s } }
        = Except.error "metadata validation failed: author is required"
      ∧ ValidatePrompt ord { p with Metadata := { p.Metadata with Version := s } }
        = Except.error "metadata validation failed: version is required"
      ∧ ValidatePrompt ord { p with Metadata := { p.Metadata with Created := z } }
        = Except.error "metadata validation failed: created timestamp is required"
      ∧ ValidatePrompt ord { p with Metadata := { p.Metadata with Modified := z } }
        = Except.error "metadata validation failed: modified timestamp is required"
      ∧ ValidatePrompt ord { p with Prompt := s }
        = Except.error "prompt content validation failed: prompt content is required" := by
  obtain ⟨hmd, hargs, hnd, _, _, _⟩ := (validatePrompt_ok_iff ord p).mp hvalid
  obtain ⟨h1, h2, h3, h4, h5, h6, h7, h8⟩ := hmd
  unfold NonBlank at h1 h2 h3 h4 h5
  have hmeta : validateMetadata p.Metadata = Except.ok () :=
    (validateMetadata_ok_iff _).mpr ⟨h1, h2, h3, h4, h5, h6, h7, h8⟩
  have harg : validateArguments p.Arguments = Except.ok () :=
    (validateArguments_ok_iff _).mpr ⟨hargs, hnd⟩
  refine ⟨?_, ?_, ?_, ?_, ?_, ?_, ?_, ?_⟩
  · simp [ValidatePrompt, validateMetadata, hs]
  · simp [ValidatePrompt, validateMetadata, hs, h1, h8]
  · simp [ValidatePrompt, validateMetadata, hs, h1, h8, h2]
  · simp [ValidatePrompt, validateMetadata, hs, h1, h8, h2, h3]
  · simp [ValidatePrompt, validateMetadata, hs, h1, h8, h2, h3, h4]
  · simp [ValidatePrompt, validateMetadata, hz, h1, h8, h2, h3, h4, h5]
  · simp [ValidatePrompt, validateMetadata, hz, h1, h8, h2, h3, h4, h5, h6]
  · simp [ValidatePrompt, validatePromptContent, hmeta, harg, hs]

/-- An instance of C10 on the definition of `TestLoadPrompt`, with a string of
two spaces and the zero timestamp. -/
theorem validatePrompt_blank_field_testLoadPrompt :
    ValidatePrompt RangeOrder.inOrder testLoadPrompt = Except.ok ()
      ∧ trimSpace "  " = ""
      ∧ ValidatePrompt RangeOrder.inOrder
          { testLoadPrompt with Metadata := { testLoadPrompt.Metadata with Name := "  " } }
        = Except.error "metadata validation failed: name is required"
      ∧ ValidatePrompt RangeOrder.inOrder
          { testLoadPrompt with Metadata := { testLoadPrompt.Metadata with Modified := ⟨0, 0⟩ } }
        = Except.error "metadata validation failed: modified timestamp is required"
      ∧ ValidatePrompt RangeOrder.inOrder { testLoadPrompt with Prompt := "  " }
        = Except.error "prompt content validation failed: prompt content is required" := by
  have h := validatePrompt_blank_field RangeOrder.inOrder testLoadPrompt (by decide!)
    "  " (by decide!) ⟨0, 0⟩ rfl
  exact ⟨by decide!, by decide!, h.2.1, h.2.2.2.2.2.2.1, h.2.2.2.2.2.2.2⟩

/-! ## Validation: the order of the checks -/

theorem firstFailure_append (l l2 : List (Option String)) :
    firstFailure (l ++ l2)
      = match firstFailure l with
        | .error e => .error e
        | .ok _ => firstFailure l2 := by
  induction l with
  | nil => rfl
  | cons c rest ih =>
    cases c with
    | none => simpa [firstFailure] using ih
    | some msg => rfl

theorem firstFailure_withPrefix (pre : String) (l : List (Option String)) :
    firstFailure (withPrefix pre l)
      = match firstFailure l with
        | .error e => .error (pre ++ e)
        | .ok _ => .ok () := by
  induction l with
  | nil => rfl
  | cons c rest ih =>
    cases c with
    | none => simpa [firstFailure, withPrefix] using ih
    | some msg => rfl

theorem validateMetadata_eq_firstFailure (md : Metadata) :
    validateMetadata md = firstFailure (metadataChecks md) := by
  unfold validateMetadata metadataChecks
  by_cases h1 : trimSpace md.ID = ""
  · simp [h1, failIf, firstFailure]
  by_cases h2 : isValidID md.ID = true
  swap
  · simp [h1, h2, failIf, firstFailure]
  by_cases h3 : trimSpace md.Name = ""
  · simp [h1, h2, h3, failIf, firstFailure]
  by_cases h4 : trimSpace md.Description = ""
  · simp [h1, h2, h3, h4, failIf, firstFailure]
  by_cases h5 : trimSpace md.Author = ""
  · simp [h1, h2, h3, h4, h5, failIf, firstFailure]
  by_cases h6 : trimSpace md.Version = ""
  · simp [h1, h2, h3, h4, h5, h6, failIf, firstFailure]
  by_cases h7 : md.Created.IsZero = true
  · simp [h1, h2, h3, h4, h5, h6, h7, failIf, firstFailure]
  by_cases h8 : md.Modified.IsZero = true
  · simp [h1, h2, h3, h4, h5, h6, h7, h8, failIf, firstFailure]
  simp [h1, h2, h3, h4, h5, h6, h7, h8, failIf, firstFailure]

theorem validateArgumentsFrom_eq_firstFailure (l : List Argument) :
    ∀ (i : Nat) (seen : List String),
      validateArgumentsFrom i seen l = firstFailure (argumentChecks i seen l) := by
  induction l with
  | nil => intro i seen; rfl
  | cons a rest ih =>
    intro i seen
    simp only [validateArgumentsFrom, argumentChecks, oneArgumentChecks]
    by_cases h1 : trimSpace a.Name = ""
    · simp [h1, failIf, firstFailure]
    by_cases h2 : isValidArgumentName a.Name = true
    swap
    · simp [h1, h2, failIf, firstFailure]
    by_cases h3 : seen.contains a.Name = true
    · simp only [h1, h2, h3, failIf, firstFailure, decide_False, Bool.not_true,
        Bool.false_eq_true, if_false, if_true, List.cons_append]
    by_cases h4 : trimSpace a.Description = ""
    · simp only [h1, h2, h3, h4, failIf, firstFailure, decide_False, decide_True, Bool.not_true,
        Bool.false_eq_true, if_false, if_true, List.cons_append]
    by_cases h5 : isValidArgumentType a.Typ = true
    swap
    · have h5f : isValidArgumentType a.Typ = false := by simpa using h5
      simp only [h1, h2, h3, h4, h5f, failIf, firstFailure, decide_False, Bool.not_true,
        Bool.false_eq_true, if_false, if_true, List.cons_append, Bool.not_false]
    simp only [h1, h2, h3, h4, h5, failIf, firstFailure, decide_False, Bool.not_true,
      Bool.false_eq_true, if_false, List.cons_append, List.nil_append]
    by_cases h6 : a.Default ≠ Value.nil
    · simp only [if_pos h6]
      cases validateArgumentDefault a.Default a.Typ with
      | error e => rfl
      | ok u => simp only [firstFailure]; exact ih _ _
    · simp only [if_neg h6, firstFailure]
      exact ih _ _

theorem validatePromptContent_eq_firstFailure (ord : RangeOrder) (content : String)
    (arguments : List Argument) :
    validatePromptContent ord content arguments
      = firstFailure (contentChecks ord content arguments) := by
  unfold validatePromptContent contentChecks
  by_cases h1 : trimSpace content = ""
  · simp [h1, failIf, firstFailure]
  simp only [h1, if_false, failIf, decide_False, Bool.false_eq_true, firstFailure]
  cases List.find? (fun name => !(arguments.map (fun arg => arg.Name)).contains name)
      (ord.order (findAllSubmatch content).dedup) with
  | some name => rfl
  | none =>
    simp only [Option.map_none', firstFailure]
    cases List.find?
        (fun arg => arg.Required && !(findAllSubmatch content).dedup.contains arg.Name)
        arguments with
    | some arg => rfl
    | none => rfl

/-- C11, for the code: with an id that is not empty but violates the id pattern
and an empty name, the reported failure is the id-pattern failure, not the
failure for the empty name. -/
theorem id_pattern_reported_before_empty_name :
    trimSpace badIdPrompt.Metadata.ID ≠ "" ∧ isValidID badIdPrompt.Metadata.ID = false
      ∧ trimSpace badIdPrompt.Metadata.Name = ""
      ∧ ValidatePrompt RangeOrder.inOrder badIdPrompt = Except.error
          ("metadata validation failed: " ++
            "id must contain only alphanumeric characters, hyphens, and underscores")
      ∧ ValidatePrompt RangeOrder.inOrder badIdPrompt
          ≠ Except.error "metadata validation failed: name is required" := by
  refine ⟨?_, ?_, ?_, ?_, ?_⟩ <;> decide!

/-- C11, amended: `ValidatePrompt` reports the first failing check in this
order: id non-blank, id pattern, then name, description, author, version,
created, modified; the per-argument checks in declaration order; template
non-blank; undeclared placeholders; unused required arguments. In particular an
id that is not blank but violates the id pattern is reported, whatever the other
metadata fields hold. -/
theorem validatePrompt_first_failure (ord : RangeOrder) (p : Prompt) :
    ValidatePrompt ord p = firstFailure (checksInOrder ord p)
      ∧ (trimSpace p.Metadata.ID ≠ "" → isValidID p.Metadata.ID = false →
          ValidatePrompt ord p = Except.error
            ("metadata validation failed: " ++
              "id must contain only alphanumeric characters, hyphens, and underscores")) := by
  constructor
  · unfold checksInOrder ValidatePrompt validateArguments
    rw [List.append_assoc, firstFailure_append, firstFailure_withPrefix,
      firstFailure_append, firstFailure_withPrefix, firstFailure_withPrefix,
      ← validateMetadata_eq_firstFailure, ← validateArgumentsFrom_eq_firstFailure,
      ← validatePromptContent_eq_firstFailure]
    cases validateMetadata p.Metadata with
    | error e => rfl
    | ok u =>
      cases validateArgumentsFrom 0 [] p.Arguments with
      | error e => rfl
      | ok u2 =>
        cases validatePromptContent ord p.Prompt p.Arguments with
        | error e => rfl
        | ok u3 => rfl
  · intro h1 h2
    simp [ValidatePrompt, validateMetadata, h1, h2]

/-- An instance of C11: the definition with the id "bad id" and an empty name. -/
theorem validatePrompt_first_failure_badId :
    trimSpace badIdPrompt.Metadata.ID ≠ "" ∧ isValidID badIdPrompt.Metadata.ID = false
      ∧ ValidatePrompt RangeOrder.inOrder badIdPrompt
          = firstFailure (checksInOrder RangeOrder.inOrder badIdPrompt)
      ∧ ValidatePrompt RangeOrder.inOrder badIdPrompt = Except.error
          ("metadata validation failed: " ++
            "id must contain only alphanumeric characters, hyphens, and underscores") :=
  ⟨by decide!, by decide!,
    (validatePrompt_first_failure RangeOrder.inOrder badIdPrompt).1,
    (validatePrompt_first_failure RangeOrder.inOrder badIdPrompt).2 (by decide!) (by decide!)⟩

/-! ## The prompt handler -/

theorem wrapInt_of_range {n : Int} (h1 : -2 ^ 63 ≤ n) (h2 : n < 2 ^ 63) : wrapInt n = n := by
  unfold wrapInt
  norm_num at h1 h2 ⊢
  omega

/-- The copy of the request arguments made by the handler has the lookups of
the request arguments. -/
theorem mapGet_copy (requestArguments : GoMap) (k : String) :
    mapGet ((mapRange requestArguments).foldl (fun m e => mapSet m e.1 e.2) []) k
      = mapGet requestArguments k := by
  rw [mapGet_foldl_set _ _ _ (mapRange_nodup requestArguments), lookup_mapRange]
  unfold mapGet
  cases List.lookup k requestArguments <;> rfl

theorem promptHandler_eq (rt : GoRuntime) (p : Prompt) (requestArguments : GoMap) :
    promptHandler rt p requestArguments
      = match resolvePromptContent rt p requestArguments with
        | .error err => (p, .error ("failed to resolve prompt content: " ++ err))
        | .ok resolvedContent =>
          (updateUsageStats p,
            .ok { Description := p.Metadata.Name, Role := "user", Text := resolvedContent }) := by
  unfold promptHandler
  have h : resolvePromptContent rt p
      ((mapRange requestArguments).foldl (fun m e => mapSet m e.1 e.2) [])
      = resolvePromptContent rt p requestArguments := by
    apply resolvePromptContent_congr
    · exact forall₂_same_of (fun _ => ⟨rfl, rfl, rfl⟩) _
    · rfl
    · intro k
      unfold effectiveValue
      rw [mapGet_copy]
  simp only [h]

/-- Resolution does not read the usage statistics. -/
theorem resolvePromptContent_updateUsageStats (rt : GoRuntime) (p : Prompt) (args : GoMap) :
    resolvePromptContent rt (updateUsageStats p) args = resolvePromptContent rt p args := rfl

/-- C12, for the code: at the largest `int` the increment wraps around. The
handler succeeds on the Hello definition with the counter at `2^63 - 1` and
leaves the counter at `-2^63`, not at `2^63`. -/
theorem usage_count_wraps_around :
    fullCounterPrompt.UsageStats.UsageCount = 2 ^ 63 - 1
      ∧ (promptHandler sampleRuntime fullCounterPrompt [("name", Value.str "World")]).2
          = Except.ok { Description := "Test Prompt", Role := "user", Text := "Hello World!" }
      ∧ (promptHandler sampleRuntime fullCounterPrompt
            [("name", Value.str "World")]).1.UsageStats.UsageCount = -2 ^ 63
      ∧ (promptHandler sampleRuntime fullCounterPrompt
            [("name", Value.str "World")]).1.UsageStats.UsageCount
          ≠ fullCounterPrompt.UsageStats.UsageCount + 1 := by
  refine ⟨?_, ?_, ?_, ?_⟩ <;> decide!

/-- C12, amended: when resolution succeeds the handler returns the resolved
text and changes `p` only in `UsageStats.UsageCount`, which becomes the old
count plus 1 in 64-bit wrap-around arithmetic, that is exactly plus 1 below the
largest `int`; when resolution fails it returns an error and leaves `p`
unchanged. A second invocation with the same arguments after a successful one
returns the same result and leaves the count increased twice, by exactly 2
below the largest `int` minus 1. -/
theorem promptHandler_usage (rt : GoRuntime) (p : Prompt) (requestArguments : GoMap) :
    (∀ text, resolvePromptContent rt p requestArguments = Except.ok text →
        (promptHandler rt p requestArguments).2
            = Except.ok { Description := p.Metadata.Name, Role := "user", Text := text }
          ∧ (promptHandler rt p requestArguments).1
            = { p with UsageStats := { p.UsageStats with
                  UsageCount := wrapInt (p.UsageStats.UsageCount + 1) } }
          ∧ (-2 ^ 63 ≤ p.UsageStats.UsageCount → p.UsageStats.UsageCount < 2 ^ 63 - 1 →
              (promptHandler rt p requestArguments).1.UsageStats.UsageCount
                = p.UsageStats.UsageCount + 1)
          ∧ (promptHandler rt (promptHandler rt p requestArguments).1 requestArguments).2
            = (promptHandler rt p requestArguments).2
          ∧ (promptHandler rt (promptHandler rt p requestArguments).1
                requestArguments).1.UsageStats.UsageCount
            = wrapInt (wrapInt (p.UsageStats.UsageCount + 1) + 1)
          ∧ (-2 ^ 63 ≤ p.UsageStats.UsageCount → p.UsageStats.UsageCount < 2 ^ 63 - 2 →
              (promptHandler rt (promptHandler rt p requestArguments).1
                  requestArguments).1.UsageStats.UsageCount
                = p.UsageStats.UsageCount + 2))
      ∧ (∀ err, resolvePromptContent rt p requestArguments = Except.error err →
          promptHandler rt p requestArguments
            = (p, Except.error ("failed to resolve prompt content: " ++ err))) := by
  constructor
  · intro text htext
    have h1 : promptHandler rt p requestArguments
        = (updateUsageStats p,
            Except.ok { Description := p.Metadata.Name, Role := "user", Text := text }) := by
      rw [promptHandler_eq, htext]
    have h2 : promptHandler rt (updateUsageStats p) requestArguments
        = (updateUsageStats (updateUsageStats p),
            Except.ok { Description := p.Metadata.Name, Role := "user", Text := text }) := by
      rw [promptHandler_eq, resolvePromptContent_updateUsageStats, htext]
      rfl
    have h3 : (promptHandler rt (promptHandler rt p requestArguments).1 requestArguments)
        = (updateUsageStats (updateUsageStats p),
            Except.ok { Description := p.Metadata.Name, Role := "user", Text := text }) := by
      rw [h1]
      exact h2
    refine ⟨by rw [h1], by rw [h1]; rfl, ?_, by rw [h3, h1], by rw [h3]; rfl, ?_⟩
    · intro hlo hhi
      rw [h1]
      show wrapInt (p.UsageStats.UsageCount + 1) = _
      apply wrapInt_of_range <;> omega
    · intro hlo hhi
      rw [h3]
      show wrapInt (wrapInt (p.UsageStats.UsageCount + 1) + 1) = _
      rw [wrapInt_of_range (n := p.UsageStats.UsageCount + 1) (by omega) (by omega)]
      rw [wrapInt_of_range (by omega) (by omega)]
      omega
  · intro err herr
    rw [promptHandler_eq, herr]

/-- An instance of C12 on the Hello definition with the counter at 0: two
successive invocations return "Hello World!" and leave the counter at 2. -/
theorem promptHandler_usage_hello :
    resolvePromptContent sampleRuntime helloPrompt [("name", Value.str "World")]
        = Except.ok "Hello World!"
      ∧ (promptHandler sampleRuntime helloPrompt [("name", Value.str "World")]).1
          = { helloPrompt with UsageStats := { helloPrompt.UsageStats with
                UsageCount := wrapInt (helloPrompt.UsageStats.UsageCount + 1) } }
      ∧ (promptHandler sampleRuntime helloPrompt
            [("name", Value.str "World")]).1.UsageStats.UsageCount = 1
      ∧ (promptHandler sampleRuntime
            (promptHandler sampleRuntime helloPrompt [("name", Value.str "World")]).1
            [("name", Value.str "World")]).1.UsageStats.UsageCount
          = helloPrompt.UsageStats.UsageCount + 2
      ∧ resolvePromptContent sampleRuntime helloPrompt [] = Except.error (notProvided "name")
      ∧ promptHandler sampleRuntime helloPrompt []
          = (helloPrompt, Except.error
              ("failed to resolve prompt content: " ++ notProvided "name")) := by
  have h := (promptHandler_usage sampleRuntime helloPrompt [("name", Value.str "World")]).1
    "Hello World!" (by decide!)
  have h2 := (promptHandler_usage sampleRuntime helloPrompt []).2 (notProvided "name")
    (by decide!)
  exact ⟨by decide!, h.2.1, by decide!, h.2.2.2.2.2 (by decide) (by decide), by decide!, h2⟩

/-! ## Number arguments -/

/-- The conversion loop leaves a name without value without value. -/
theorem convertAll_absent (rt : GoRuntime) (l : List Argument) :
    ∀ (m m2 : GoMap), convertAll rt l m = Except.ok m2 →
      ∀ k, mapGet m k = none → mapGet m2 k = none := by
  induction l with
  | nil =>
    intro m m2 h k hk
    simp only [convertAll, Except.ok.injEq] at h
    rw [← h]; exact hk
  | cons a rest ih =>
    intro m m2 h k hk
    simp only [convertAll] at h
    cases hg : mapGet m a.Name with
    | none => rw [hg] at h; exact ih m m2 h k hk
    | some v =>
      rw [hg] at h
      simp only at h
      cases hc : convertArgumentValue rt v a.Typ with
      | error e => rw [hc] at h; cases h
      | ok c =>
        rw [hc] at h
        apply ih _ m2 h k
        rw [mapGet_mapSet]
        have hne : k ≠ a.Name := by
          intro hka
          rw [hka, hg] at hk
          cases hk
        rw [if_neg hne]
        exact hk

/-- The conversion loop leaves the names that are not declared as they are. -/
theorem convertAll_other (rt : GoRuntime) (l : List Argument) :
    ∀ (m m2 : GoMap), convertAll rt l m = Except.ok m2 →
      ∀ k, k ∉ l.map (fun a => a.Name) → mapGet m2 k = mapGet m k := by
  induction l with
  | nil =>
    intro m m2 h k _
    simp only [convertAll, Except.ok.injEq] at h
    rw [← h]
  | cons a rest ih =>
    intro m m2 h k hk
    simp only [List.map_cons, List.mem_cons, not_or] at hk
    simp only [convertAll] at h
    cases hg : mapGet m a.Name with
    | none => rw [hg] at h; exact ih m m2 h k hk.2
    | some v =>
      rw [hg] at h
      simp only at h
      cases hc : convertArgumentValue rt v a.Typ with
      | error e => rw [hc] at h; cases h
      | ok c =>
        rw [hc] at h
        rw [ih _ m2 h k hk.2, mapGet_mapSet, if_neg hk.1]

/-- With pairwise distinct names, the conversion loop stores for every declared
argument the conversion of the value it had. -/
theorem convertAll_lookup (rt : GoRuntime) (l : List Argument) :
    ∀ (m m2 : GoMap), convertAll rt l m = Except.ok m2 → (l.map (fun a => a.Name)).Nodup →
      ∀ a ∈ l, ∀ v, mapGet m a.Name = some v →
        ∃ c, convertArgumentValue rt v a.Typ = Except.ok c ∧ mapGet m2 a.Name = some c := by
  induction l with
  | nil => intro m m2 _ _ a ha; cases ha
  | cons b rest ih =>
    intro m m2 h hnd a ha v hv
    simp only [List.map_cons, List.nodup_cons] at hnd
    simp only [convertAll] at h
    rcases List.mem_cons.mp ha with rfl | hmem
    · rw [hv] at h
      simp only at h
      cases hc : convertArgumentValue rt v a.Typ with
      | error e => rw [hc] at h; cases h
      | ok c =>
        rw [hc] at h
        refine ⟨c, rfl, ?_⟩
        rw [convertAll_other rt rest _ m2 h a.Name hnd.1, mapGet_mapSet, if_pos rfl]
    · have hne : a.Name ≠ b.Name := by
        intro hab
        apply hnd.1
        rw [← hab]
        exact List.mem_map.mpr ⟨a, hmem, rfl⟩
      cases hg : mapGet m b.Name with
      | none => rw [hg] at h; exact ih m m2 h hnd.2 a hmem v hv
      | some w =>
        rw [hg] at h
        simp only at h
        cases hc : convertArgumentValue rt w b.Typ with
        | error e => rw [hc] at h; cases h
        | ok c =>
          rw [hc] at h
          apply ih _ m2 h hnd.2 a hmem v
          rw [mapGet_mapSet, if_neg hne]
          exact hv

theorem convertArgumentValue_number_ok {rt : GoRuntime} {v c : Value}
    (h : convertArgumentValue rt v ArgumentTypeNumber = Except.ok c) :
    ∃ b, c = Value.float64 b ∧ (∀ s, v = Value.str s → rt.parseFloat s = some b) ∧
      (∀ n, v = Value.int n → b = rt.floatOfInt n) ∧ (∀ f, v = Value.float64 f → b = f) := by
  have hS : ¬ (ArgumentTypeNumber = ArgumentTypeString) := by decide
  unfold convertArgumentValue at h
  rw [if_neg hS, if_pos rfl] at h
  cases v with
  | str s =>
    simp only at h
    cases hp : rt.parseFloat s with
    | none => rw [hp] at h; cases h
    | some b =>
      rw [hp] at h
      injection h with h
      refine ⟨b, h.symm, ?_, ?_, ?_⟩
      · intro s2 hs
        injection hs with hs
        rw [← hs]; exact hp
      · intro n hn; cases hn
      · intro f hf; cases hf
  | int n =>
    injection h with h
    refine ⟨rt.floatOfInt n, h.symm, ?_, ?_, ?_⟩
    · intro s hs; cases hs
    · intro n2 hn; injection hn with hn; rw [hn]
    · intro f hf; cases hf
  | float64 f =>
    injection h with h
    refine ⟨f, h.symm, ?_, ?_, ?_⟩
    · intro s hs; cases hs
    · intro n hn; cases hn
    · intro f2 hf; exact Value.float64.inj hf
  | nil => cases h
  | int64 n => cases h
  | float32 b => cases h
  | bool b => cases h
  | other t => cases h

/-- C13, for the code: the number 1000000 is substituted in exponent notation.
Supplied as the caller string "1000000" or as the `int` default 1000000, it is
parsed or converted to the float64 1000000 and written with `%v` as "1e+06". -/
theorem million_in_exponent_notation :
    resolvePromptContent millionRuntime countPrompt [("count", Value.str "1000000")]
        = Except.ok "Count: 1e+06"
      ∧ resolvePromptContent millionRuntime countDefaultPrompt [] = Except.ok "Count: 1e+06"
      ∧ resolvePromptContent millionRuntime countPrompt [("count", Value.str "1000000")]
        ≠ Except.ok "Count: 1000000" := by
  refine ⟨?_, ?_, ?_⟩ <;> decide!

/-- C13, amended: when a number argument of a definition with pairwise distinct
argument names is substituted into the template, its text is the `%v` rendering
of the float64 its effective value converts to: `strconv.ParseFloat` of a
caller string, `float64(n)` of an `int`, a float64 itself. -/
theorem resolvePromptContent_number_text (rt : GoRuntime) (p : Prompt) (args : GoMap)
    (a : Argument) (v : Value) (out : String)
    (hnodup : (argumentNames p).Nodup) (ha : a ∈ p.Arguments)
    (htyp : a.Typ = ArgumentTypeNumber)
    (hv : effectiveValue p args a.Name = some v)
    (hout : resolvePromptContent rt p args = Except.ok out) :
    ∃ b, convertArgumentValue rt v ArgumentTypeNumber = Except.ok (Value.float64 b) ∧
      (∀ s, v = Value.str s → rt.parseFloat s = some b) ∧
      (∀ n, v = Value.int n → b = rt.floatOfInt n) ∧
      (∀ f, v = Value.float64 f → b = f) ∧
      ∃ value : String → Option String, value a.Name = some (rt.formatFloat64 b) ∧
        ∀ pieces, Tokenizes p.Prompt.data pieces → out = substitutePieces value pieces := by
  rw [resolvePromptContent_eq] at hout
  cases hreq : checkRequired (overrideWith args (setDefaults p.Arguments [])) p.Arguments with
  | error e => rw [hreq] at hout; cases hout
  | ok u =>
    rw [hreq] at hout
    simp only at hout
    cases hconv : convertAll rt p.Arguments (overrideWith args (setDefaults p.Arguments []))
      with
    | error e => rw [hconv] at hout; cases hout
    | ok m =>
      rw [hconv] at hout
      injection hout with hout
      obtain ⟨c, hc, hm⟩ := convertAll_lookup rt p.Arguments _ m hconv hnodup a ha v
        (by rw [mapGet_argValues]; exact hv)
      rw [htyp] at hc
      obtain ⟨b, hcb, h1, h2, h3⟩ := convertArgumentValue_number_ok hc
      subst hcb
      refine ⟨b, hc, h1, h2, h3, valueText rt m, ?_, ?_⟩
      · unfold valueText
        rw [hm]
        rfl
      · intro pieces hpieces
        rw [tokenizes_unique hpieces, hout]

/-- An instance of C13: `count` supplied as "1000000" under `millionRuntime`. -/
theorem resolvePromptContent_number_text_million :
    (argumentNames countPrompt).Nodup
      ∧ effectiveValue countPrompt [("count", Value.str "1000000")] countArgument.Name
          = some (Value.str "1000000")
      ∧ resolvePromptContent millionRuntime countPrompt [("count", Value.str "1000000")]
          = Except.ok "Count: 1e+06"
      ∧ ∃ b, convertArgumentValue millionRuntime (Value.str "1000000") ArgumentTypeNumber
            = Except.ok (Value.float64 b) ∧
          (∀ s, Value.str "1000000" = Value.str s → millionRuntime.parseFloat s = some b) ∧
          (∀ n, Value.str "1000000" = Value.int n → b = millionRuntime.floatOfInt n) ∧
          (∀ f, Value.str "1000000" = Value.float64 f → b = f) ∧
          ∃ value : String → Option String,
            value countArgument.Name = some (millionRuntime.formatFloat64 b) ∧
            ∀ pieces, Tokenizes countPrompt.Prompt.data pieces →
              "Count: 1e+06" = substitutePieces value pieces :=
  ⟨by decide, by decide!, by decide!,
    resolvePromptContent_number_text millionRuntime countPrompt
      [("count", Value.str "1000000")] countArgument (Value.str "1000000") "Count: 1e+06"
      (by decide) (by decide) rfl (by decide!) (by decide!)⟩

/-- C14, for the code: `validateArgumentDefault` accepts an `int64` and a
`float32` as number defaults, and `convertArgumentValue` rejects both. The
definition `int64DefaultPrompt` passes `ValidatePrompt`, its only argument has a
default, and it does not resolve with an empty caller map. -/
theorem number_default_accepted_then_rejected (rt : GoRuntime) :
    validateArgumentDefault (Value.int64 5) ArgumentTypeNumber = Except.ok ()
      ∧ convertArgumentValue rt (Value.int64 5) ArgumentTypeNumber
          = Except.error "invalid number value: 5"
      ∧ (∀ bits, validateArgumentDefault (Value.float32 bits) ArgumentTypeNumber = Except.ok ()
          ∧ convertArgumentValue rt (Value.float32 bits) ArgumentTypeNumber
              = Except.error ("invalid number value: " ++ rt.formatFloat32 bits))
      ∧ ValidatePrompt RangeOrder.inOrder int64DefaultPrompt = Except.ok ()
      ∧ (∀ a ∈ int64DefaultPrompt.Arguments, a.Required = true → a.Default ≠ Value.nil)
      ∧ resolvePromptContent rt int64DefaultPrompt []
          = Except.error "argument 'count': invalid number value: 5" := by
  refine ⟨by decide!, rfl, fun bits => ⟨rfl, rfl⟩, by decide!, by decide, ?_⟩
  rfl

/-! ## Caller entries for undeclared names -/

theorem checkRequired_agreeOff {k : String} {m m2 : GoMap} (h : AgreeOff k m m2)
    (l : List Argument) (hk : k ∉ l.map (fun a => a.Name)) :
    checkRequired m l = checkRequired m2 l := by
  induction l with
  | nil => rfl
  | cons a rest ih =>
    simp only [List.map_cons, List.mem_cons, not_or] at hk
    simp only [checkRequired]
    rw [ih hk.2, h a.Name (fun hc => hk.1 hc.symm)]

theorem convertAll_agreeOff (rt : GoRuntime) {k : String} (l : List Argument)
    (hk : k ∉ l.map (fun a => a.Name)) :
    ∀ {m m2 : GoMap}, AgreeOff k m m2 → ResEqOff k (convertAll rt l m) (convertAll rt l m2) := by
  induction l with
  | nil => intro m m2 h; exact h
  | cons a rest ih =>
    intro m m2 h
    simp only [List.map_cons, List.mem_cons, not_or] at hk
    have hne : a.Name ≠ k := fun hc => hk.1 hc.symm
    simp only [convertAll]
    rw [← h a.Name hne]
    cases mapGet m a.Name with
    | none => exact ih hk.2 h
    | some v =>
      simp only
      cases convertArgumentValue rt v a.Typ with
      | error e => simp only [ResEqOff]
      | ok c =>
        apply ih hk.2
        intro k2 hk2
        rw [mapGet_mapSet, mapGet_mapSet, h k2 hk2]

theorem substitutePieces_agreeOff (rt : GoRuntime) {k : String} {m m2 : GoMap}
    (h : AgreeOff k m m2) (content : String) (hk : k ∉ findAllSubmatch content) :
    substitutePieces (valueText rt m) (scan content.data)
      = substitutePieces (valueText rt m2) (scan content.data) := by
  unfold substitutePieces
  congr 1
  apply List.flatMap_congr
  intro piece hp
  cases piece with
  | text c => rfl
  | hit w =>
    have hmem : String.mk w ∈ findAllSubmatch content := by
      unfold findAllSubmatch
      exact List.mem_filterMap.mpr ⟨Piece.hit w, hp, rfl⟩
    have hne : String.mk w ≠ k := fun hc => hk (hc ▸ hmem)
    simp only [valueText, h _ hne]

/-- A caller entry `k -> v` for a name that is not declared and that no
placeholder of the template names does not change the result. -/
theorem resolvePromptContent_unused_entry (rt : GoRuntime) (p : Prompt) (args : GoMap)
    (k : String) (v : Value) (hk : k ∉ argumentNames p)
    (hph : k ∉ findAllSubmatch p.Prompt) :
    resolvePromptContent rt p (mapSet args k v) = resolvePromptContent rt p args := by
  have hm : AgreeOff k (overrideWith (mapSet args k v) (setDefaults p.Arguments []))
      (overrideWith args (setDefaults p.Arguments [])) := by
    intro k2 hk2
    rw [mapGet_argValues, mapGet_argValues]
    unfold effectiveValue
    rw [mapGet_mapSet, if_neg hk2]
  rw [resolvePromptContent_eq, resolvePromptContent_eq,
    checkRequired_agreeOff hm p.Arguments hk]
  cases checkRequired (overrideWith args (setDefaults p.Arguments [])) p.Arguments with
  | error e => rfl
  | ok u =>
    simp only
    have hc := convertAll_agreeOff rt p.Arguments hk hm
    revert hc
    cases convertAll rt p.Arguments
        (overrideWith (mapSet args k v) (setDefaults p.Arguments [])) with
    | error e =>
      cases convertAll rt p.Arguments (overrideWith args (setDefaults p.Arguments [])) with
      | error e2 => intro hc; simp only [ResEqOff] at hc; rw [hc]
      | ok b => intro hc; exact absurd hc (by simp [ResEqOff])
    | ok a =>
      cases convertAll rt p.Arguments (overrideWith args (setDefaults p.Arguments [])) with
      | error e2 => intro hc; exact absurd hc (by simp [ResEqOff])
      | ok b =>
        intro hc
        simp only [ResEqOff] at hc
        simp only [substitutePieces_agreeOff rt hc p.Prompt hph]

/-! ## Placeholders without a value -/

theorem substitutePieces_eq_segments (value : String → Option String) (pieces : List Piece) :
    (substitutePieces value pieces).data = (pieces.map (segmentOf value)).flatten := by
  unfold substitutePieces
  show pieces.flatMap _ = _
  rw [List.flatMap_def]
  congr 1

/-- C16: when resolution succeeds, the output is the template's decomposition
written piece by piece, and every placeholder `{{n}}` whose name has neither a
default nor a caller-supplied value is written as the literal text `{{n}}` in its
place in that sequence; the runes between placeholders are written unchanged. -/
theorem placeholder_without_value_verbatim (rt : GoRuntime) (p : Prompt) (args : GoMap)
    (out : String) (h : resolvePromptContent rt p args = Except.ok out) :
    ∀ pieces, Tokenizes p.Prompt.data pieces →
      ∃ segs : List (List Char), segs.length = pieces.length ∧ out.data = segs.flatten ∧
        ∀ i : Nat,
          (∀ c, pieces[i]? = some (Piece.text c) → segs[i]? = some [c]) ∧
          (∀ w, pieces[i]? = some (Piece.hit w) →
            effectiveValue p args (String.mk w) = none →
            segs[i]? = some (placeholderText w)) := by
  intro pieces hpieces
  rw [resolvePromptContent_eq] at h
  cases hreq : checkRequired (overrideWith args (setDefaults p.Arguments [])) p.Arguments with
  | error e => rw [hreq] at h; cases h
  | ok u =>
    rw [hreq] at h
    simp only at h
    cases hconv : convertAll rt p.Arguments (overrideWith args (setDefaults p.Arguments []))
      with
    | error e => rw [hconv] at h; cases h
    | ok m =>
      rw [hconv] at h
      injection h with h
      refine ⟨pieces.map (segmentOf (valueText rt m)), by simp, ?_, ?_⟩
      · rw [← h, ← tokenizes_unique hpieces, substitutePieces_eq_segments]
      · intro i
        constructor
        · intro c hc
          rw [List.getElem?_map, hc]
          rfl
        · intro w hw hnone
          rw [List.getElem?_map, hw]
          have hm : mapGet m (String.mk w) = none :=
            convertAll_absent rt p.Arguments _ m hconv _
              (by rw [mapGet_argValues]; exact hnone)
          simp only [Option.map_some', segmentOf, valueText, hm]

/-- An instance of C16: `title` is optional, has no default and is omitted by
the caller; its placeholder stays in the output. -/
theorem placeholder_without_value_verbatim_title :
    resolvePromptContent sampleRuntime titlePrompt [("name", Value.str "World")]
        = Except.ok "Hello {{title}} World!"
      ∧ effectiveValue titlePrompt [("name", Value.str "World")] "title" = none
      ∧ ∀ pieces, Tokenizes titlePrompt.Prompt.data pieces →
          ∃ segs : List (List Char), segs.length = pieces.length ∧
            ("Hello {{title}} World!" : String).data = segs.flatten ∧
            ∀ i : Nat,
              (∀ c, pieces[i]? = some (Piece.text c) → segs[i]? = some [c]) ∧
              (∀ w, pieces[i]? = some (Piece.hit w) →
                effectiveValue titlePrompt [("name", Value.str "World")] (String.mk w) = none →
                segs[i]? = some (placeholderText w)) :=
  ⟨by decide!, by decide!,
    placeholder_without_value_verbatim sampleRuntime titlePrompt
      [("name", Value.str "World")] "Hello {{title}} World!" (by decide!)⟩

/-! ## The library -/

theorem getPrompt_addPrompt (pl : PromptLibrary) (p : Prompt) (id : String) :
    (pl.AddPrompt p).GetPrompt id
      = if id = p.Metadata.ID then some p else pl.GetPrompt id := by
  unfold PromptLibrary.AddPrompt PromptLibrary.GetPrompt
  rw [List.lookup_cons]
  by_cases h : id = p.Metadata.ID
  · subst h; simp
  · have : (id == p.Metadata.ID) = false := by simp [h]
    simp [this, h]

theorem getPrompt_new (id : String) : NewPromptLibrary.GetPrompt id = none := rfl

/-- The walk function on an entry whose file it reads and which loads. -/
theorem walkFn_selected {rt : GoRuntime} {e : WalkEntry} {q : Prompt} (library : PromptLibrary)
    (hs : Selected rt e) (hq : LoadPrompt e = Except.ok q) :
    walkFn rt library e
      = match library.GetPrompt q.Metadata.ID with
        | some _ => Except.error
            ("duplicate prompt ID '" ++ q.Metadata.ID ++ "' found in file " ++ e.path)
        | none => Except.ok (library.AddPrompt (storedPrompt e q)) := by
  obtain ⟨h1, h2, h3⟩ := hs
  unfold walkFn
  simp only [h1, h2, h3, hq, Bool.not_true, Bool.or_self, Bool.false_eq_true, if_false]
  rfl

/-- A successful step of the walk function: the entry is skipped, or its file
is read, loads, has a new id and is added. -/
theorem walkFn_ok {rt : GoRuntime} {e : WalkEntry} {library library2 : PromptLibrary}
    (h : walkFn rt library e = Except.ok library2) :
    e.walkErr = none ∧
      ((¬ Selected rt e ∧ library2 = library) ∨
        (Selected rt e ∧ ∃ q, LoadPrompt e = Except.ok q ∧
          library.GetPrompt q.Metadata.ID = none ∧
          library2 = library.AddPrompt (storedPrompt e q))) := by
  cases hw : e.walkErr with
  | some err => simp [walkFn, hw] at h
  | none =>
    refine ⟨rfl, ?_⟩
    by_cases hsel : e.isDir = false ∧ hasSuffix (toLower rt e.path) ".yaml" = true
    · right
      have hs : Selected rt e := ⟨hw, hsel.1, hsel.2⟩
      refine ⟨hs, ?_⟩
      cases hq : LoadPrompt e with
      | error err => simp [walkFn, hw, hsel.1, hsel.2, hq] at h
      | ok q =>
        rw [walkFn_selected library hs hq] at h
        cases hg : library.GetPrompt q.Metadata.ID with
        | some x => rw [hg] at h; cases h
        | none =>
          rw [hg] at h
          injection h with h
          exact ⟨q, rfl, hg, h.symm⟩
    · left
      refine ⟨fun hs => hsel ⟨hs.2.1, hs.2.2⟩, ?_⟩
      have hskip : (e.isDir || !hasSuffix (toLower rt e.path) ".yaml") = true := by
        by_cases hd : e.isDir = true
        · simp [hd]
        · have hd2 : e.isDir = false := by simpa using hd
          have : hasSuffix (toLower rt e.path) ".yaml" ≠ true := fun hc => hsel ⟨hd2, hc⟩
          simp [hd2, this]
      simp only [walkFn, hw, hskip, if_true] at h
      injection h with h
      exact h.symm

theorem walk_append (rt : GoRuntime) (l l2 : List WalkEntry) :
    ∀ library, walk rt library (l ++ l2)
      = match walk rt library l with
        | .error err => .error err
        | .ok library2 => walk rt library2 l2 := by
  induction l with
  | nil => intro library; rfl
  | cons e rest ih =>
    intro library
    simp only [List.cons_append, walk]
    cases walkFn rt library e with
    | error err => rfl
    | ok library2 => exact ih library2

/-- A successful walk keeps every definition the library already holds. -/
theorem walk_keeps (rt : GoRuntime) (entries : List WalkEntry) :
    ∀ library library2, walk rt library entries = Except.ok library2 →
      ∀ id p, library.GetPrompt id = some p → library2.GetPrompt id = some p := by
  induction entries with
  | nil =>
    intro library library2 h id p hp
    simp only [walk, Except.ok.injEq] at h
    rw [← h]; exact hp
  | cons e rest ih =>
    intro library library2 h id p hp
    simp only [walk] at h
    cases hstep : walkFn rt library e with
    | error err => rw [hstep] at h; cases h
    | ok library1 =>
      rw [hstep] at h
      apply ih library1 library2 h id p
      rcases (walkFn_ok hstep).2 with ⟨_, hl⟩ | ⟨_, q, _, hnew, hl⟩
      · rw [hl]; exact hp
      · rw [hl, getPrompt_addPrompt]
        have hne : id ≠ (storedPrompt e q).Metadata.ID := by
          intro hc
          rw [hc] at hp
          have : library.GetPrompt q.Metadata.ID = some p := hp
          rw [hnew] at this
          cases this
        rw [if_neg hne]
        exact hp

/-- A successful walk has read every file it selects, each loads, and its
definition is stored under its id. -/
theorem walk_stores (rt : GoRuntime) (entries : List WalkEntry) :
    ∀ library library2, walk rt library entries = Except.ok library2 →
      ∀ e ∈ entries, e.walkErr = none ∧ (Selected rt e →
        ∃ q, LoadPrompt e = Except.ok q ∧
          library2.GetPrompt q.Metadata.ID = some (storedPrompt e q)) := by
  induction entries with
  | nil => intro library library2 _ e he; cases he
  | cons e0 rest ih =>
    intro library library2 h e he
    simp only [walk] at h
    cases hstep : walkFn rt library e0 with
    | error err => rw [hstep] at h; cases h
    | ok library1 =>
      rw [hstep] at h
      rcases List.mem_cons.mp he with rfl | hmem
      · refine ⟨(walkFn_ok hstep).1, ?_⟩
        intro hs
        rcases (walkFn_ok hstep).2 with ⟨hns, _⟩ | ⟨_, q, hq, _, hl⟩
        · exact absurd hs hns
        · refine ⟨q, hq, ?_⟩
          apply walk_keeps rt rest library1 library2 h
          rw [hl, getPrompt_addPrompt]
          exact if_pos rfl
      · exact ih library1 library2 h e hmem

/-- A successful walk stores nothing but what the library held and the
definitions of the files it read. -/
theorem walk_origin (rt : GoRuntime) (entries : List WalkEntry) :
    ∀ library library2, walk rt library entries = Except.ok library2 →
      ∀ id p, library2.GetPrompt id = some p →
        library.GetPrompt id = some p ∨
          ∃ e ∈ entries, Selected rt e ∧ ∃ q, LoadPrompt e = Except.ok q ∧
            q.Metadata.ID = id ∧ p = storedPrompt e q := by
  induction entries with
  | nil =>
    intro library library2 h id p hp
    simp only [walk, Except.ok.injEq] at h
    left; rw [h]; exact hp
  | cons e0 rest ih =>
    intro library library2 h id p hp
    simp only [walk] at h
    cases hstep : walkFn rt library e0 with
    | error err => rw [hstep] at h; cases h
    | ok library1 =>
      rw [hstep] at h
      rcases ih library1 library2 h id p hp with h1 | ⟨e, he, hrest⟩
      · rcases (walkFn_ok hstep).2 with ⟨_, hl⟩ | ⟨hs, q, hq, _, hl⟩
        · left; rw [← hl]; exact h1
        · rw [hl, getPrompt_addPrompt] at h1
          by_cases hid : id = (storedPrompt e0 q).Metadata.ID
          · rw [if_pos hid] at h1
            injection h1 with h1
            right
            exact ⟨e0, List.mem_cons_self _ _, hs, q, hq, hid.symm, h1.symm⟩
          · rw [if_neg hid] at h1
            left; exact h1
      · right
        exact ⟨e, List.mem_cons_of_mem _ he, hrest⟩

/-- A successful walk has done nothing but a sequence of `AddPrompt` calls. -/
theorem walk_adds (rt : GoRuntime) (entries : List WalkEntry) :
    ∀ library library2, walk rt library entries = Except.ok library2 →
      ∃ ps : List Prompt, library2 = ps.foldl PromptLibrary.AddPrompt library := by
  induction entries with
  | nil =>
    intro library library2 h
    simp only [walk, Except.ok.injEq] at h
    exact ⟨[], h.symm⟩
  | cons e rest ih =>
    intro library library2 h
    simp only [walk] at h
    cases hstep : walkFn rt library e with
    | error err => rw [hstep] at h; cases h
    | ok library1 =>
      rw [hstep] at h
      obtain ⟨ps, hps⟩ := ih library1 library2 h
      rcases (walkFn_ok hstep).2 with ⟨_, hl⟩ | ⟨_, q, _, _, hl⟩
      · exact ⟨ps, by rw [hps, hl]⟩
      · exact ⟨storedPrompt e q :: ps, by rw [hps, hl]; rfl⟩

theorem loadAllPrompts_ok {rt : GoRuntime} {promptsDir : String} {entries : List WalkEntry}
    {library : PromptLibrary} (h : LoadAllPrompts rt promptsDir entries = Except.ok library) :
    walk rt NewPromptLibrary entries = Except.ok library := by
  unfold LoadAllPrompts at h
  cases hw : walk rt NewPromptLibrary entries with
  | error err => rw [hw] at h; cases h
  | ok l => rw [hw] at h; exact h

/-- Every definition a library of added prompts holds is stored under its id
and is one of the prompts added. -/
theorem getPrompt_foldl_addPrompt (ps : List Prompt) :
    ∀ (library : PromptLibrary) (id : String) (p : Prompt),
      (ps.foldl PromptLibrary.AddPrompt library).GetPrompt id = some p →
        library.GetPrompt id = some p ∨ (p.Metadata.ID = id ∧ p ∈ ps) := by
  induction ps with
  | nil => intro library id p h; exact Or.inl h
  | cons q rest ih =>
    intro library id p h
    rcases ih (library.AddPrompt q) id p h with h1 | ⟨h1, h2⟩
    · rw [getPrompt_addPrompt] at h1
      by_cases hid : id = q.Metadata.ID
      · rw [if_pos hid] at h1
        injection h1 with h1
        right
        exact ⟨by rw [← h1, hid], by rw [← h1]; exact List.mem_cons_self _ _⟩
      · rw [if_neg hid] at h1
        exact Or.inl h1
    · exact Or.inr ⟨h1, List.mem_cons_of_mem _ h2⟩

/-- Every prompt added to a library is found under its id afterwards, or a
later prompt of the same id is. -/
theorem getPrompt_foldl_addPrompt_some (ps : List Prompt) :
    ∀ (library : PromptLibrary) (id : String),
      ((∃ q ∈ ps, q.Metadata.ID = id) ∨ (library.GetPrompt id).isSome = true) →
        ((ps.foldl PromptLibrary.AddPrompt library).GetPrompt id).isSome = true := by
  induction ps with
  | nil =>
    intro library id h
    rcases h with ⟨q, hq, _⟩ | h
    · cases hq
    · exact h
  | cons q rest ih =>
    intro library id h
    apply ih (library.AddPrompt q) id
    rcases h with ⟨q2, hq2, hid⟩ | h
    · rcases List.mem_cons.mp hq2 with rfl | hmem
      · right
        rw [getPrompt_addPrompt, if_pos hid.symm]
        rfl
      · left; exact ⟨q2, hmem, hid⟩
    · right
      rw [getPrompt_addPrompt]
      by_cases hid : id = q.Metadata.ID
      · rw [if_pos hid]; rfl
      · rw [if_neg hid]; exact h

/-- C17, for the code: `AddPrompt` has no failure result and overwrites. The
library holds `greetIdPrompt` under "greet"; after adding `greetIdPrompt2`, which
has the same id, it holds `greetIdPrompt2` there. -/
theorem addPrompt_overwrites :
    (NewPromptLibrary.AddPrompt greetIdPrompt).GetPrompt "greet" = some greetIdPrompt
      ∧ greetIdPrompt2.Metadata.ID = "greet"
      ∧ ((NewPromptLibrary.AddPrompt greetIdPrompt).AddPrompt greetIdPrompt2).GetPrompt "greet"
          = some greetIdPrompt2
      ∧ ((NewPromptLibrary.AddPrompt greetIdPrompt).AddPrompt greetIdPrompt2).GetPrompt "greet"
          ≠ some greetIdPrompt := by
  refine ⟨?_, ?_, ?_, ?_⟩ <;> decide!

/-- C17, amended: `AddPrompt` reports nothing and replaces: after adding `p`
the library maps the id of `p` to `p` and every other id as before. An id that
is already present is rejected one level up: the walk function of
`LoadAllPrompts` returns the duplicate-id error for a file whose id the library
holds, and adds nothing. -/
theorem addPrompt_replaces (rt : GoRuntime) (library : PromptLibrary) (p : Prompt) :
    (library.AddPrompt p).GetPrompt p.Metadata.ID = some p
      ∧ (∀ id, id ≠ p.Metadata.ID → (library.AddPrompt p).GetPrompt id = library.GetPrompt id)
      ∧ (∀ (e : WalkEntry) (q old : Prompt), Selected rt e → LoadPrompt e = Except.ok q →
          library.GetPrompt q.Metadata.ID = some old →
          walkFn rt library e = Except.error
            ("duplicate prompt ID '" ++ q.Metadata.ID ++ "' found in file " ++ e.path)) := by
  refine ⟨?_, ?_, ?_⟩
  · rw [getPrompt_addPrompt, if_pos rfl]
  · intro id hid
    rw [getPrompt_addPrompt, if_neg hid]
  · intro e q old hs hq hold
    rw [walkFn_selected library hs hq, hold]

/-- An instance of C17: the walk function meets a second file with the id
"greet". -/
theorem addPrompt_replaces_greet :
    Selected sampleRuntime (fileEntry "prompts/b.yaml" greetIdPrompt2)
      ∧ LoadPrompt (fileEntry "prompts/b.yaml" greetIdPrompt2) = Except.ok greetIdPrompt2
      ∧ (NewPromptLibrary.AddPrompt greetIdPrompt).GetPrompt greetIdPrompt2.Metadata.ID
          = some greetIdPrompt
      ∧ walkFn sampleRuntime (NewPromptLibrary.AddPrompt greetIdPrompt)
          (fileEntry "prompts/b.yaml" greetIdPrompt2)
          = Except.error ("duplicate prompt ID '" ++ greetIdPrompt2.Metadata.ID ++
              "' found in file " ++ (fileEntry "prompts/b.yaml" greetIdPrompt2).path) := by
  have hs : Selected sampleRuntime (fileEntry "prompts/b.yaml" greetIdPrompt2) :=
    ⟨rfl, rfl, by decide!⟩
  have hq : LoadPrompt (fileEntry "prompts/b.yaml" greetIdPrompt2) = Except.ok greetIdPrompt2 := by
    decide!
  have hold : (NewPromptLibrary.AddPrompt greetIdPrompt).GetPrompt greetIdPrompt2.Metadata.ID
      = some greetIdPrompt := by decide!
  exact ⟨hs, hq, hold,
    (addPrompt_replaces sampleRuntime (NewPromptLibrary.AddPrompt greetIdPrompt)
      greetIdPrompt2).2.2 _ _ _ hs hq hold⟩

/-- C18: in every library obtained from `NewPromptLibrary` by a sequence of
`AddPrompt` calls, `GetPrompt(id)` on a key returns a prompt whose id is `id`,
one of those added; every id added is a key; and `GetPrompt(id)` returns
not-found for an id that was never added. Every library returned by
`LoadAllPrompts` is of this kind. -/
theorem library_key_invariant (ps : List Prompt) :
    (∀ id p, (addAll ps).GetPrompt id = some p → p.Metadata.ID = id ∧ p ∈ ps)
      ∧ (∀ q ∈ ps, ((addAll ps).GetPrompt q.Metadata.ID).isSome = true)
      ∧ (∀ id, (∀ q ∈ ps, q.Metadata.ID ≠ id) → (addAll ps).GetPrompt id = none)
      ∧ (∀ (rt : GoRuntime) (promptsDir : String) (entries : List WalkEntry)
          (library : PromptLibrary),
          LoadAllPrompts rt promptsDir entries = Except.ok library →
            (∃ ps2, library = addAll ps2) ∧
            ∀ id p, library.GetPrompt id = some p → p.Metadata.ID = id) := by
  have hkey : ∀ (l : List Prompt) id p, (addAll l).GetPrompt id = some p →
      p.Metadata.ID = id ∧ p ∈ l := by
    intro l id p h
    rcases getPrompt_foldl_addPrompt l NewPromptLibrary id p h with h1 | h1
    · rw [getPrompt_new] at h1; cases h1
    · exact h1
  refine ⟨hkey ps, ?_, ?_, ?_⟩
  · intro q hq
    exact getPrompt_foldl_addPrompt_some ps NewPromptLibrary _ (Or.inl ⟨q, hq, rfl⟩)
  · intro id hnever
    cases hg : (addAll ps).GetPrompt id with
    | none => rfl
    | some p =>
      obtain ⟨h1, h2⟩ := hkey ps id p hg
      exact absurd h1 (hnever p h2)
  · intro rt promptsDir entries library h
    obtain ⟨ps2, hps2⟩ := walk_adds rt entries _ _ (loadAllPrompts_ok h)
    refine ⟨⟨ps2, hps2⟩, ?_⟩
    intro id p hp
    have hl : library = addAll ps2 := hps2
    rw [hl] at hp
    exact (hkey ps2 id p hp).1

/-- An instance of C18: the library of the walk `twoFileEntries`. -/
theorem library_key_invariant_twoFiles :
    LoadAllPrompts sampleRuntime "prompts" twoFileEntries
        = Except.ok (addAll [storedPrompt (fileEntry "prompts/a.yaml" greetIdPrompt) greetIdPrompt,
            storedPrompt (fileEntry "prompts/t.yaml" testLoadPrompt) testLoadPrompt])
      ∧ (∀ id p, (addAll [greetIdPrompt, testLoadPrompt]).GetPrompt id = some p →
          p.Metadata.ID = id ∧ p ∈ [greetIdPrompt, testLoadPrompt])
      ∧ (addAll [greetIdPrompt, testLoadPrompt]).GetPrompt "missing" = none
      ∧ ∀ id p, (addAll [storedPrompt (fileEntry "prompts/a.yaml" greetIdPrompt) greetIdPrompt,
            storedPrompt (fileEntry "prompts/t.yaml" testLoadPrompt) testLoadPrompt]).GetPrompt id
          = some p → p.Metadata.ID = id := by
  have hload : LoadAllPrompts sampleRuntime "prompts" twoFileEntries
      = Except.ok (addAll [storedPrompt (fileEntry "prompts/a.yaml" greetIdPrompt) greetIdPrompt,
          storedPrompt (fileEntry "prompts/t.yaml" testLoadPrompt) testLoadPrompt]) := by
    decide!
  have h := library_key_invariant [greetIdPrompt, testLoadPrompt]
  refine ⟨hload, h.1, h.2.2.1 "missing" (by decide), ?_⟩
  exact (h.2.2.2 sampleRuntime "prompts" twoFileEntries _ hload).2

/-! ## Loading a directory -/

/-- C19: if two files that the walk reads both load to valid definitions with
the same id, `LoadAllPrompts` returns an error and no library; when the walk
reaches the second of them, the error is the duplicate-prompt-ID error for that
id and that file. -/
theorem loadAllPrompts_duplicate_id (rt : GoRuntime) (promptsDir : String)
    (pre : List WalkEntry) (a : WalkEntry) (mid : List WalkEntry) (b : WalkEntry)
    (post : List WalkEntry) (qa qb : Prompt)
    (ha : Selected rt a) (hqa : LoadPrompt a = Except.ok qa)
    (hb : Selected rt b) (hqb : LoadPrompt b = Except.ok qb)
    (hid : qa.Metadata.ID = qb.Metadata.ID) :
    (∃ msg, LoadAllPrompts rt promptsDir (pre ++ a :: (mid ++ b :: post)) = Except.error msg)
      ∧ (∀ library, walk rt NewPromptLibrary (pre ++ a :: mid) = Except.ok library →
          LoadAllPrompts rt promptsDir (pre ++ a :: (mid ++ b :: post))
            = Except.error (duplicateIdError promptsDir qb.Metadata.ID b.path)) := by
  have hsplit : pre ++ a :: (mid ++ b :: post) = (pre ++ a :: mid) ++ b :: post := by simp
  have hreach : ∀ library, walk rt NewPromptLibrary (pre ++ a :: mid) = Except.ok library →
      LoadAllPrompts rt promptsDir (pre ++ a :: (mid ++ b :: post))
        = Except.error (duplicateIdError promptsDir qb.Metadata.ID b.path) := by
    intro library hw
    obtain ⟨q, hq, hstored⟩ := (walk_stores rt _ _ _ hw a (by simp)).2 ha
    rw [hqa] at hq
    injection hq with hq
    subst hq
    rw [hid] at hstored
    unfold LoadAllPrompts
    rw [hsplit, walk_append, hw]
    simp only [walk, walkFn_selected library hb hqb, hstored]
    rfl
  refine ⟨?_, hreach⟩
  cases hw : walk rt NewPromptLibrary (pre ++ a :: mid) with
  | ok library => exact ⟨_, hreach library hw⟩
  | error err =>
    refine ⟨"failed to load prompts from directory " ++ promptsDir ++ ": " ++ err, ?_⟩
    unfold LoadAllPrompts
    rw [hsplit, walk_append, hw]

/-- An instance of C19: two files that both declare the id "greet". -/
theorem loadAllPrompts_duplicate_id_greet :
    Selected sampleRuntime (fileEntry "prompts/a.yaml" greetIdPrompt)
      ∧ LoadPrompt (fileEntry "prompts/a.yaml" greetIdPrompt) = Except.ok greetIdPrompt
      ∧ Selected sampleRuntime (fileEntry "prompts/b.yaml" greetIdPrompt2)
      ∧ LoadPrompt (fileEntry "prompts/b.yaml" greetIdPrompt2) = Except.ok greetIdPrompt2
      ∧ greetIdPrompt.Metadata.ID = greetIdPrompt2.Metadata.ID
      ∧ LoadAllPrompts sampleRuntime "prompts" twoGreetEntries = Except.error
          ("failed to load prompts from directory prompts: " ++
            "duplicate prompt ID 'greet' found in file prompts/b.yaml") := by
  have ha : Selected sampleRuntime (fileEntry "prompts/a.yaml" greetIdPrompt) :=
    ⟨rfl, rfl, by decide!⟩
  have hb : Selected sampleRuntime (fileEntry "prompts/b.yaml" greetIdPrompt2) :=
    ⟨rfl, rfl, by decide!⟩
  have hqa : LoadPrompt (fileEntry "prompts/a.yaml" greetIdPrompt) = Except.ok greetIdPrompt := by
    decide!
  have hqb : LoadPrompt (fileEntry "prompts/b.yaml" greetIdPrompt2)
      = Except.ok greetIdPrompt2 := by decide!
  have hw : walk sampleRuntime NewPromptLibrary
      ([promptsDirEntry] ++ fileEntry "prompts/a.yaml" greetIdPrompt :: [])
      = Except.ok (NewPromptLibrary.AddPrompt
          (storedPrompt (fileEntry "prompts/a.yaml" greetIdPrompt) greetIdPrompt)) := by
    decide!
  have h := (loadAllPrompts_duplicate_id sampleRuntime "prompts" [promptsDirEntry]
    (fileEntry "prompts/a.yaml" greetIdPrompt) []
    (fileEntry "prompts/b.yaml" greetIdPrompt2) [] greetIdPrompt greetIdPrompt2
    ha hqa hb hqb rfl).2 _ hw
  exact ⟨ha, hqa, hb, hqb, rfl, h⟩

/-- C20: when `LoadAllPrompts` succeeds, every definition stored in the library
is the definition of a file the walk read, with its `FilePath` set, is stored
under its id and passes `ValidatePrompt`; every file the walk read is stored
under its id; and if a file the walk reads fails validation, the load fails. -/
theorem loadAllPrompts_only_valid (rt : GoRuntime) (promptsDir : String)
    (entries : List WalkEntry) :
    (∀ library, LoadAllPrompts rt promptsDir entries = Except.ok library →
        (∀ id p, library.GetPrompt id = some p →
          p.Metadata.ID = id ∧ (∀ ord, ValidatePrompt ord p = Except.ok ()) ∧
          ∃ e ∈ entries, Selected rt e ∧ ∃ q, LoadPrompt e = Except.ok q ∧
            q.Metadata.ID = id ∧ p = storedPrompt e q)
        ∧ (∀ e ∈ entries, Selected rt e →
            ∃ q, e.parsed = Except.ok q ∧ ValidatePrompt e.order q = Except.ok () ∧
              library.GetPrompt q.Metadata.ID = some (storedPrompt e q)))
      ∧ (∀ e ∈ entries, Selected rt e → ∀ q err, e.parsed = Except.ok q →
          ValidatePrompt e.order q = Except.error err →
          ∃ msg, LoadAllPrompts rt promptsDir entries = Except.error msg) := by
  have hload : ∀ (e : WalkEntry) (q : Prompt), LoadPrompt e = Except.ok q →
      e.parsed = Except.ok q ∧ ValidatePrompt e.order q = Except.ok () := by
    intro e q h
    unfold LoadPrompt at h
    cases hr : e.readErr with
    | some err => rw [hr] at h; cases h
    | none =>
      rw [hr] at h
      simp only at h
      cases hp : e.parsed with
      | error err => rw [hp] at h; cases h
      | ok q2 =>
        rw [hp] at h
        simp only at h
        cases hv : ValidatePrompt e.order q2 with
        | error err => rw [hv] at h; cases h
        | ok u =>
          rw [hv] at h
          injection h with h
          subst h
          exact ⟨rfl, hv⟩
  have hsucc : ∀ library, LoadAllPrompts rt promptsDir entries = Except.ok library →
      (∀ e ∈ entries, Selected rt e →
        ∃ q, e.parsed = Except.ok q ∧ ValidatePrompt e.order q = Except.ok () ∧
          library.GetPrompt q.Metadata.ID = some (storedPrompt e q)) := by
    intro library h e he hs
    obtain ⟨q, hq, hst⟩ := (walk_stores rt entries _ _ (loadAllPrompts_ok h) e he).2 hs
    exact ⟨q, (hload e q hq).1, (hload e q hq).2, hst⟩
  refine ⟨?_, ?_⟩
  · intro library h
    refine ⟨?_, hsucc library h⟩
    intro id p hp
    rcases walk_origin rt entries _ _ (loadAllPrompts_ok h) id p hp with h1 | ⟨e, he, hs, q, hq, hid, hpq⟩
    · rw [getPrompt_new] at h1; cases h1
    · refine ⟨by rw [hpq]; exact hid, ?_, e, he, hs, q, hq, hid, hpq⟩
      intro ord
      have hdoc := (validatePrompt_ok_iff e.order q).mp (hload e q hq).2
      rw [hpq]
      exact (validatePrompt_ok_iff ord q).mpr hdoc
  · intro e he hs q err hp hv
    cases h : LoadAllPrompts rt promptsDir entries with
    | error msg => exact ⟨msg, rfl⟩
    | ok library =>
      exfalso
      obtain ⟨q2, hp2, hv2, _⟩ := hsucc library h e he hs
      rw [hp] at hp2
      injection hp2 with hp2
      subst hp2
      rw [hv] at hv2
      cases hv2

/-- An instance of C20: the walk `twoFileEntries` stores both definitions, and a
walk with an invalid file fails. -/
theorem loadAllPrompts_only_valid_twoFiles :
    LoadAllPrompts sampleRuntime "prompts" twoFileEntries
        = Except.ok (addAll [storedPrompt (fileEntry "prompts/a.yaml" greetIdPrompt) greetIdPrompt,
            storedPrompt (fileEntry "prompts/t.yaml" testLoadPrompt) testLoadPrompt])
      ∧ (∀ id p,
          (addAll [storedPrompt (fileEntry "prompts/a.yaml" greetIdPrompt) greetIdPrompt,
            storedPrompt (fileEntry "prompts/t.yaml" testLoadPrompt) testLoadPrompt]).GetPrompt id
            = some p →
          p.Metadata.ID = id ∧ (∀ ord, ValidatePrompt ord p = Except.ok ()) ∧
          ∃ e ∈ twoFileEntries, Selected sampleRuntime e ∧ ∃ q, LoadPrompt e = Except.ok q ∧
            q.Metadata.ID = id ∧ p = storedPrompt e q)
      ∧ Selected sampleRuntime (fileEntry "prompts/bad.yaml" badIdPrompt)
      ∧ (∃ msg, LoadAllPrompts sampleRuntime "prompts"
          [fileEntry "prompts/bad.yaml" badIdPrompt] = Except.error msg) := by
  have hload : LoadAllPrompts sampleRuntime "prompts" twoFileEntries
      = Except.ok (addAll [storedPrompt (fileEntry "prompts/a.yaml" greetIdPrompt) greetIdPrompt,
          storedPrompt (fileEntry "prompts/t.yaml" testLoadPrompt) testLoadPrompt]) := by
    decide!
  have hs : Selected sampleRuntime (fileEntry "prompts/bad.yaml" badIdPrompt) :=
    ⟨rfl, rfl, by decide!⟩
  refine ⟨hload,
    ((loadAllPrompts_only_valid sampleRuntime "prompts" twoFileEntries).1 _ hload).1, hs, ?_⟩
  exact (loadAllPrompts_only_valid sampleRuntime "prompts"
    [fileEntry "prompts/bad.yaml" badIdPrompt]).2 _ (List.mem_cons_self _ _) hs badIdPrompt
    ("metadata validation failed: " ++
      "id must contain only alphanumeric characters, hyphens, and underscores")
    rfl (by decide!)

/-! ## The files a load reads -/

theorem hasSuffix_iff (s suffix : String) :
    hasSuffix s suffix = true ↔ ∃ t : List Char, t ++ suffix.data = s.data := by
  unfold hasSuffix
  rw [List.isSuffixOf_iff_suffix]
  rfl

/-- A path that ends in ".yaml" still does after lower-casing. -/
theorem hasSuffix_yaml_toLower (rt : GoRuntime) {path : String}
    (h : hasSuffix path ".yaml" = true) : hasSuffix (toLower rt path) ".yaml" = true := by
  obtain ⟨t, ht⟩ := (hasSuffix_iff _ _).mp h
  refine (hasSuffix_iff _ _).mpr ⟨t.map (lowerRune rt), ?_⟩
  show _ = path.data.map (lowerRune rt)
  rw [← ht, List.map_append]
  rfl

/-- A path that ends in ".yml" does not end in ".yaml" after lower-casing. -/
theorem hasSuffix_yml_toLower (rt : GoRuntime) {path : String}
    (h : hasSuffix path ".yml" = true) : hasSuffix (toLower rt path) ".yaml" = false := by
  obtain ⟨t, ht⟩ := (hasSuffix_iff _ _).mp h
  cases hc : hasSuffix (toLower rt path) ".yaml" with
  | false => rfl
  | true =>
    exfalso
    obtain ⟨u, hu⟩ := (hasSuffix_iff _ _).mp hc
    have hl : (toLower rt path).data = t.map (lowerRune rt) ++ (".yml" : String).data := by
      show path.data.map (lowerRune rt) = _
      rw [← ht, List.map_append]
      rfl
    rw [hl] at hu
    have := congrArg List.reverse hu
    simp at this

/-- The walk function passes over every entry it does not select. -/
theorem walkFn_skip (rt : GoRuntime) (library : PromptLibrary) (e : WalkEntry)
    (hw : e.walkErr = none)
    (hns : ¬ (e.isDir = false ∧ hasSuffix (toLower rt e.path) ".yaml" = true)) :
    walkFn rt library e = Except.ok library := by
  have hskip : (e.isDir || !hasSuffix (toLower rt e.path) ".yaml") = true := by
    by_cases hd : e.isDir = true
    · simp [hd]
    · have hd2 : e.isDir = false := by simpa using hd
      have : hasSuffix (toLower rt e.path) ".yaml" ≠ true := fun hc => hns ⟨hd2, hc⟩
      simp [hd2, this]
  simp only [walkFn, hw, hskip, if_true]

/-- C21, for the code: a valid definition stored in a file named "x.yml" is not
in the returned library. The walk over "prompts", "prompts/a.yaml" and
"prompts/x.yml" succeeds and returns the library that holds only the definition
of "a.yaml"; the id "greet" of the definition in "x.yml" is not found. -/
theorem yml_file_not_loaded :
    ValidatePrompt RangeOrder.inOrder greetIdPrompt = Except.ok ()
      ∧ hasSuffix ymlEntry.path ".yml" = true
      ∧ LoadAllPrompts sampleRuntime "prompts" yamlAndYmlEntries
          = Except.ok (addAll [storedPrompt (fileEntry "prompts/a.yaml" testLoadPrompt)
              testLoadPrompt])
      ∧ (addAll [storedPrompt (fileEntry "prompts/a.yaml" testLoadPrompt)
            testLoadPrompt]).GetPrompt greetIdPrompt.Metadata.ID = none := by
  refine ⟨?_, ?_, ?_, ?_⟩ <;> decide!

/-- C21, amended: the walk function of `LoadAllPrompts` reads exactly the
non-directory entries whose lower-cased path ends in ".yaml". Every
non-directory path ending in ".yaml" is read, and when the load succeeds the
valid definition of each such file is in the returned library under its id.
Every other entry is passed over; in particular a path ending in ".yml" is
never read, and the load gives the same result as if the file were absent. -/
theorem loadAllPrompts_reads_yaml_only (rt : GoRuntime) (promptsDir : String) :
    (∀ e : WalkEntry, e.walkErr = none → e.isDir = false →
        hasSuffix e.path ".yaml" = true → Selected rt e)
      ∧ (∀ (entries : List WalkEntry) (library : PromptLibrary),
          LoadAllPrompts rt promptsDir entries = Except.ok library →
          ∀ e ∈ entries, e.isDir = false → hasSuffix e.path ".yaml" = true →
            ∃ q, e.parsed = Except.ok q ∧ ValidatePrompt e.order q = Except.ok () ∧
              library.GetPrompt q.Metadata.ID = some (storedPrompt e q))
      ∧ (∀ (e : WalkEntry) (library : PromptLibrary), e.walkErr = none →
          ¬ (e.isDir = false ∧ hasSuffix (toLower rt e.path) ".yaml" = true) →
          walkFn rt library e = Except.ok library)
      ∧ (∀ (e : WalkEntry) (library : PromptLibrary), e.walkErr = none →
          hasSuffix e.path ".yml" = true → walkFn rt library e = Except.ok library)
      ∧ (∀ (pre post : List WalkEntry) (e : WalkEntry), e.walkErr = none →
          hasSuffix e.path ".yml" = true →
          LoadAllPrompts rt promptsDir (pre ++ e :: post)
            = LoadAllPrompts rt promptsDir (pre ++ post)) := by
  have hyml : ∀ (e : WalkEntry) (library : PromptLibrary), e.walkErr = none →
      hasSuffix e.path ".yml" = true → walkFn rt library e = Except.ok library := by
    intro e library hw hy
    apply walkFn_skip rt library e hw
    intro hc
    rw [hasSuffix_yml_toLower rt hy] at hc
    cases hc.2
  refine ⟨?_, ?_, fun e library => walkFn_skip rt library e, hyml, ?_⟩
  · intro e hw hd hy
    exact ⟨hw, hd, hasSuffix_yaml_toLower rt hy⟩
  · intro entries library h e he hd hy
    have hstored := walk_stores rt entries _ _ (loadAllPrompts_ok h) e he
    obtain ⟨q, hq, hst⟩ := hstored.2 ⟨hstored.1, hd, hasSuffix_yaml_toLower rt hy⟩
    refine ⟨q, ?_, ?_, hst⟩
    · unfold LoadPrompt at hq
      cases hr : e.readErr with
      | some err => rw [hr] at hq; cases hq
      | none =>
        rw [hr] at hq
        simp only at hq
        cases hp : e.parsed with
        | error err => rw [hp] at hq; cases hq
        | ok q2 =>
          rw [hp] at hq
          simp only at hq
          cases hv : ValidatePrompt e.order q2 with
          | error err => rw [hv] at hq; cases hq
          | ok u => rw [hv] at hq; injection hq with hq; rw [hq]
    · unfold LoadPrompt at hq
      cases hr : e.readErr with
      | some err => rw [hr] at hq; cases hq
      | none =>
        rw [hr] at hq
        simp only at hq
        cases hp : e.parsed with
        | error err => rw [hp] at hq; cases hq
        | ok q2 =>
          rw [hp] at hq
          simp only at hq
          cases hv : ValidatePrompt e.order q2 with
          | error err => rw [hv] at hq; cases hq
          | ok u => rw [hv] at hq; injection hq with hq; rw [← hq]; exact hv
  · intro pre post e hw hy
    unfold LoadAllPrompts
    rw [walk_append, walk_append]
    cases walk rt NewPromptLibrary pre with
    | error err => rfl
    | ok library => simp only [walk, hyml e library hw hy]

/-- An instance of C21: "prompts/a.yaml" is read and its definition stored,
"prompts/x.yml" is passed over and the load is the one without it. -/
theorem loadAllPrompts_reads_yaml_only_sample :
    Selected sampleRuntime (fileEntry "prompts/a.yaml" testLoadPrompt)
      ∧ walkFn sampleRuntime NewPromptLibrary ymlEntry = Except.ok NewPromptLibrary
      ∧ LoadAllPrompts sampleRuntime "prompts"
          ([promptsDirEntry, fileEntry "prompts/a.yaml" testLoadPrompt] ++ ymlEntry :: [])
        = LoadAllPrompts sampleRuntime "prompts"
          ([promptsDirEntry, fileEntry "prompts/a.yaml" testLoadPrompt] ++ []) :=
  ⟨(loadAllPrompts_reads_yaml_only sampleRuntime "prompts").1
      (fileEntry "prompts/a.yaml" testLoadPrompt) rfl rfl (by decide!),
    (loadAllPrompts_reads_yaml_only sampleRuntime "prompts").2.2.2.1 ymlEntry NewPromptLibrary
      rfl (by decide!),
    (loadAllPrompts_reads_yaml_only sampleRuntime "prompts").2.2.2.2
      [promptsDirEntry, fileEntry "prompts/a.yaml" testLoadPrompt] [] ymlEntry
      rfl (by decide!)⟩

/-! ## Reloading -/

/-- C23: for every server state, if `LoadLibrary` fails during `Reload`, the
call returns an error and leaves the server as it was, its library being the
one it held before; if `LoadLibrary` succeeds, the call returns no error and the
server's library is the newly loaded one. -/
theorem reload_atomic (rt : GoRuntime) (ord : ListOrder) (s : Server)
    (entries : List WalkEntry) :
    (∀ err, s.storage.LoadLibrary rt entries = Except.error err →
        (s.Reload rt ord entries).2 = some ("failed to load prompt library: " ++ err)
          ∧ (s.Reload rt ord entries).1.library = s.library
          ∧ (s.Reload rt ord entries).1 = s)
      ∧ (∀ library, s.storage.LoadLibrary rt entries = Except.ok library →
          (s.Reload rt ord entries).2 = none
            ∧ (s.Reload rt ord entries).1.library = some library
            ∧ (s.Reload rt ord entries).1.storage = s.storage) := by
  constructor
  · intro err h
    have hr : s.Reload rt ord entries
        = (s, some ("failed to load prompt library: " ++ err)) := by
      unfold Server.Reload Server.LoadPrompts
      rw [h]
    rw [hr]
    exact ⟨rfl, rfl, rfl⟩
  · intro library h
    have hr : s.Reload rt ord entries
        = (Server.registerPrompts ord { s with library := some library } library rfl,
            none) := by
      unfold Server.Reload Server.LoadPrompts
      rw [h]
    rw [hr]
    exact ⟨rfl, rfl, rfl⟩

/-- An instance of C23: a reload over two files with the same id fails and keeps
the library of `loadedServer`; a reload over two files with different ids
replaces it by the library of those two files. -/
theorem reload_atomic_loadedServer :
    loadedServer.storage.LoadLibrary sampleRuntime twoGreetEntries
        = Except.error ("failed to load prompts from directory prompts: " ++
            "duplicate prompt ID 'greet' found in file prompts/b.yaml")
      ∧ (loadedServer.Reload sampleRuntime ListOrder.inOrder twoGreetEntries).2
        = some ("failed to load prompt library: " ++
            ("failed to load prompts from directory prompts: " ++
              "duplicate prompt ID 'greet' found in file prompts/b.yaml"))
      ∧ (loadedServer.Reload sampleRuntime ListOrder.inOrder twoGreetEntries).1.library
        = some (NewPromptLibrary.AddPrompt helloPrompt)
      ∧ (loadedServer.Reload sampleRuntime ListOrder.inOrder twoFileEntries).2 = none
      ∧ (loadedServer.Reload sampleRuntime ListOrder.inOrder twoFileEntries).1.library
        = some (addAll [storedPrompt (fileEntry "prompts/a.yaml" greetIdPrompt) greetIdPrompt,
            storedPrompt (fileEntry "prompts/t.yaml" testLoadPrompt) testLoadPrompt]) := by
  have hfail : loadedServer.storage.LoadLibrary sampleRuntime twoGreetEntries
      = Except.error ("failed to load prompts from directory prompts: " ++
          "duplicate prompt ID 'greet' found in file prompts/b.yaml") := by decide!
  have hok : loadedServer.storage.LoadLibrary sampleRuntime twoFileEntries
      = Except.ok (addAll [storedPrompt (fileEntry "prompts/a.yaml" greetIdPrompt) greetIdPrompt,
          storedPrompt (fileEntry "prompts/t.yaml" testLoadPrompt) testLoadPrompt]) := by
    decide!
  have h1 := (reload_atomic sampleRuntime ListOrder.inOrder loadedServer twoGreetEntries).1
    _ hfail
  have h2 := (reload_atomic sampleRuntime ListOrder.inOrder loadedServer twoFileEntries).2
    _ hok
  exact ⟨hfail, h1.1, h1.2.1, h2.1, h2.2.1⟩

/-! ## Substitution in one pass -/

/-- The conversion loop leaves a name with a value with a value. -/
theorem convertAll_present (rt : GoRuntime) (l : List Argument) :
    ∀ (m m2 : GoMap), convertAll rt l m = Except.ok m2 →
      ∀ k v, mapGet m k = some v → ∃ c, mapGet m2 k = some c := by
  induction l with
  | nil =>
    intro m m2 h k v hk
    simp only [convertAll, Except.ok.injEq] at h
    rw [← h]; exact ⟨v, hk⟩
  | cons a rest ih =>
    intro m m2 h k v hk
    simp only [convertAll] at h
    cases hg : mapGet m a.Name with
    | none => rw [hg] at h; exact ih m m2 h k v hk
    | some w =>
      rw [hg] at h
      simp only at h
      cases hc : convertArgumentValue rt w a.Typ with
      | error e => rw [hc] at h; cases h
      | ok c =>
        rw [hc] at h
        by_cases hka : k = a.Name
        · exact ih _ m2 h k c (by rw [mapGet_mapSet, if_pos hka])
        · exact ih _ m2 h k v (by rw [mapGet_mapSet, if_neg hka]; exact hk)

/-- A list around its element at index `i`. -/
theorem eq_take_cons_drop {α : Type} (l : List α) :
    ∀ (i : Nat) (x : α), l[i]? = some x → l = l.take i ++ x :: l.drop (i + 1) := by
  induction l with
  | nil => intro i x h; simp at h
  | cons y rest ih =>
    intro i x h
    cases i with
    | zero =>
      simp only [List.getElem?_cons_zero, Option.some.injEq] at h
      simp [h]
    | succ j =>
      simp only [List.getElem?_cons_succ] at h
      simp only [List.take_succ_cons, List.drop_succ_cons, List.cons_append, List.cons.injEq,
        true_and]
      exact ih j x h

/-- C24: when resolution succeeds, the output is read off the decomposition of
the template alone. There is one text per placeholder name, present exactly for
the names with an effective value (with pairwise distinct argument names it is
the `%v` rendering of the converted effective value, for a string argument
holding a string the string itself), and the output is the concatenation, in
template order, of the runes outside placeholders and these texts. The text of a
placeholder is written as it is between what precedes and what follows, so every
token inside it, such as `{{other}}`, appears literally in the output. -/
theorem resolvePromptContent_single_pass (rt : GoRuntime) (p : Prompt) (args : GoMap)
    (out : String) (h : resolvePromptContent rt p args = Except.ok out) :
    ∃ value : String → Option String,
      (∀ k, value k = none ↔ effectiveValue p args k = none)
      ∧ ((argumentNames p).Nodup → ∀ a ∈ p.Arguments, ∀ v,
          effectiveValue p args a.Name = some v →
          ∃ c, convertArgumentValue rt v a.Typ = Except.ok c ∧
            value a.Name = some (sprintV rt c))
      ∧ ((argumentNames p).Nodup → ∀ a ∈ p.Arguments, a.Typ = ArgumentTypeString → ∀ s,
          effectiveValue p args a.Name = some (Value.str s) → value a.Name = some s)
      ∧ ∀ pieces, Tokenizes p.Prompt.data pieces →
          out.data = (pieces.map (segmentOf value)).flatten
          ∧ ∀ (i : Nat) (w : List Char) (t : String),
              pieces[i]? = some (Piece.hit w) → value (String.mk w) = some t →
              out.data = ((pieces.take i).map (segmentOf value)).flatten ++ t.data
                  ++ ((pieces.drop (i + 1)).map (segmentOf value)).flatten
              ∧ ∀ tok : List Char, List.IsInfix tok t.data → List.IsInfix tok out.data := by
  rw [resolvePromptContent_eq] at h
  cases hreq : checkRequired (overrideWith args (setDefaults p.Arguments [])) p.Arguments with
  | error e => rw [hreq] at h; cases h
  | ok u =>
    rw [hreq] at h
    simp only at h
    cases hconv : convertAll rt p.Arguments (overrideWith args (setDefaults p.Arguments []))
      with
    | error e => rw [hconv] at h; cases h
    | ok m =>
      rw [hconv] at h
      injection h with h
      have hlookup : (argumentNames p).Nodup → ∀ a ∈ p.Arguments, ∀ v,
          effectiveValue p args a.Name = some v →
          ∃ c, convertArgumentValue rt v a.Typ = Except.ok c ∧
            valueText rt m a.Name = some (sprintV rt c) := by
        intro hnd a ha v hv
        obtain ⟨c, hc, hm⟩ := convertAll_lookup rt p.Arguments _ m hconv hnd a ha v
          (by rw [mapGet_argValues]; exact hv)
        refine ⟨c, hc, ?_⟩
        unfold valueText
        rw [hm]
      refine ⟨valueText rt m, ?_, hlookup, ?_, ?_⟩
      · intro k
        constructor
        · intro hk
          cases he : effectiveValue p args k with
          | none => rfl
          | some v =>
            exfalso
            obtain ⟨c, hc⟩ := convertAll_present rt p.Arguments _ m hconv k v
              (by rw [mapGet_argValues]; exact he)
            simp only [valueText, hc] at hk
            cases hk
        · intro hk
          have hm : mapGet m k = none :=
            convertAll_absent rt p.Arguments _ m hconv k (by rw [mapGet_argValues]; exact hk)
          simp only [valueText, hm]
      · intro hnd a ha htyp s hs
        obtain ⟨c, hc, hval⟩ := hlookup hnd a ha _ hs
        rw [htyp, convertArgumentValue_string] at hc
        injection hc with hc
        rw [hval, ← hc]
        rfl
      · intro pieces hpieces
        have hout : out.data = (pieces.map (segmentOf (valueText rt m))).flatten := by
          rw [← h, ← tokenizes_unique hpieces, substitutePieces_eq_segments]
        refine ⟨hout, ?_⟩
        intro i w t hi hval
        have hsplit := eq_take_cons_drop pieces i _ hi
        have hseg : segmentOf (valueText rt m) (Piece.hit w) = t.data := by
          simp only [segmentOf, hval]
        have hpos : out.data = ((pieces.take i).map (segmentOf (valueText rt m))).flatten
            ++ t.data ++ ((pieces.drop (i + 1)).map (segmentOf (valueText rt m))).flatten := by
          rw [hout]
          conv_lhs => rw [hsplit]
          rw [List.map_append, List.map_cons, List.flatten_append, List.flatten_cons, hseg,
            List.append_assoc]
        refine ⟨hpos, ?_⟩
        rintro tok ⟨pre, post, htok⟩
        refine ⟨((pieces.take i).map (segmentOf (valueText rt m))).flatten ++ pre,
          post ++ ((pieces.drop (i + 1)).map (segmentOf (valueText rt m))).flatten, ?_⟩
        rw [hpos, ← htok]
        simp only [List.append_assoc]

/-- An instance of C24: the caller's value for `name` is the text "{{other}}",
and `other` has the value "X"; the output holds the token as it is. -/
theorem resolvePromptContent_single_pass_nested :
    ValidatePrompt RangeOrder.inOrder nestedPrompt = Except.ok ()
      ∧ resolvePromptContent sampleRuntime nestedPrompt nestedArgs
          = Except.ok "{{other}} and X"
      ∧ ∃ value : String → Option String,
        (∀ k, value k = none ↔ effectiveValue nestedPrompt nestedArgs k = none)
        ∧ ((argumentNames nestedPrompt).Nodup → ∀ a ∈ nestedPrompt.Arguments, ∀ v,
            effectiveValue nestedPrompt nestedArgs a.Name = some v →
            ∃ c, convertArgumentValue sampleRuntime v a.Typ = Except.ok c ∧
              value a.Name = some (sprintV sampleRuntime c))
        ∧ ((argumentNames nestedPrompt).Nodup → ∀ a ∈ nestedPrompt.Arguments,
            a.Typ = ArgumentTypeString → ∀ s,
            effectiveValue nestedPrompt nestedArgs a.Name = some (Value.str s) →
            value a.Name = some s)
        ∧ ∀ pieces, Tokenizes nestedPrompt.Prompt.data pieces →
            ("{{other}} and X" : String).data = (pieces.map (segmentOf value)).flatten
            ∧ ∀ (i : Nat) (w : List Char) (t : String),
                pieces[i]? = some (Piece.hit w) → value (String.mk w) = some t →
                ("{{other}} and X" : String).data
                    = ((pieces.take i).map (segmentOf value)).flatten ++ t.data
                      ++ ((pieces.drop (i + 1)).map (segmentOf value)).flatten
                ∧ ∀ tok : List Char, List.IsInfix tok t.data →
                    List.IsInfix tok ("{{other}} and X" : String).data :=
  ⟨by decide!, by decide!,
    resolvePromptContent_single_pass sampleRuntime nestedPrompt nestedArgs "{{other}} and X"
      (by decide!)⟩

/-! ## Lemmas on paths -/

theorem splitSep_ne_nil (l : List Char) : splitSep l ≠ [] := by
  cases l with
  | nil => simp [splitSep]
  | cons c rest =>
    simp only [splitSep]
    split
    · simp
    · split <;> simp

theorem splitSep_cons_of_sep {c : Char} (h : isPathSeparator c = true) (l : List Char) :
    splitSep (c :: l) = [] :: splitSep l := by
  rw [splitSep, if_pos h]

theorem splitSep_cons_of_noSep {c : Char} (h : isPathSeparator c = false) {l : List Char}
    {first : List Char} {more : List (List Char)} (hs : splitSep l = first :: more) :
    splitSep (c :: l) = (c :: first) :: more := by
  rw [splitSep, if_neg (by simp [h]), hs]

theorem splitSep_append (a b : List Char) :
    splitSep (a ++ '/' :: b) = splitSep a ++ splitSep b := by
  induction a with
  | nil => rfl
  | cons c rest ih =>
    rw [List.cons_append]
    cases hc : isPathSeparator c with
    | true => rw [splitSep_cons_of_sep hc, splitSep_cons_of_sep hc, ih]; rfl
    | false =>
      cases hs : splitSep rest with
      | nil => exact absurd hs (splitSep_ne_nil rest)
      | cons first more =>
        rw [splitSep_cons_of_noSep hc hs,
          splitSep_cons_of_noSep hc (show splitSep (rest ++ '/' :: b)
            = first :: (more ++ splitSep b) by rw [ih, hs]; rfl)]
        rfl

theorem splitSep_of_noSep {e : List Char} (h : ∀ c ∈ e, isPathSeparator c = false) :
    splitSep e = [e] := by
  induction e with
  | nil => rfl
  | cons c rest ih =>
    have hc : isPathSeparator c = false := h c (List.mem_cons_self _ _)
    simp only [splitSep, hc, Bool.false_eq_true, if_false,
      ih (fun d hd => h d (List.mem_cons_of_mem _ hd))]

theorem mem_splitSep_noSep (l : List Char) :
    ∀ e ∈ splitSep l, ∀ c ∈ e, isPathSeparator c = false := by
  induction l with
  | nil =>
    intro e he c hc
    simp only [splitSep, List.mem_singleton] at he
    subst he
    cases hc
  | cons d rest ih =>
    intro e he c hc
    simp only [splitSep] at he
    by_cases hd : isPathSeparator d = true
    · rw [if_pos hd] at he
      rcases List.mem_cons.mp he with rfl | hmem
      · cases hc
      · exact ih e hmem c hc
    · rw [if_neg hd] at he
      cases hs : splitSep rest with
      | nil => exact absurd hs (splitSep_ne_nil rest)
      | cons first more =>
        rw [hs] at he ih
        rcases List.mem_cons.mp he with rfl | hmem
        · rcases List.mem_cons.mp hc with rfl | hc2
          · simpa using hd
          · exact ih first (List.mem_cons_self _ _) c hc2
        · exact ih e (List.mem_cons_of_mem _ hmem) c hc

theorem joinSep_cons {e : List Char} {rest : List (List Char)} (h : rest ≠ []) :
    joinSep (e :: rest) = e ++ '/' :: joinSep rest := by
  cases rest with
  | nil => exact absurd rfl h
  | cons next more => rfl

theorem splitSep_joinSep (es : List (List Char)) (hne : es ≠ [])
    (h : ∀ e ∈ es, ∀ c ∈ e, isPathSeparator c = false) : splitSep (joinSep es) = es := by
  induction es with
  | nil => exact absurd rfl hne
  | cons e rest ih =>
    cases rest with
    | nil => exact splitSep_of_noSep (h e (List.mem_cons_self _ _))
    | cons next more =>
      rw [joinSep_cons (List.cons_ne_nil _ _), splitSep_append,
        splitSep_of_noSep (h e (List.mem_cons_self _ _)),
        ih (List.cons_ne_nil _ _) (fun x hx => h x (List.mem_cons_of_mem _ hx))]
      rfl

theorem flatMap_sep_eq {segs : List (List Char)} (h : segs ≠ []) :
    segs.flatMap (fun seg => '/' :: seg) = '/' :: joinSep segs := by
  induction segs with
  | nil => exact absurd rfl h
  | cons e rest ih =>
    cases rest with
    | nil => simp [joinSep]
    | cons next more =>
      rw [List.flatMap_cons, ih (List.cons_ne_nil _ _), joinSep_cons (List.cons_ne_nil _ _)]
      simp

theorem takeWhile_noSep_append {e : List Char} (h : ∀ c ∈ e, isPathSeparator c = false)
    (x : List Char) :
    (e ++ '/' :: x).takeWhile (fun c => !isPathSeparator c) = e
      ∧ (e ++ '/' :: x).dropWhile (fun c => !isPathSeparator c) = '/' :: x := by
  induction e with
  | nil => exact ⟨rfl, rfl⟩
  | cons c rest ih =>
    have hc : isPathSeparator c = false := h c (List.mem_cons_self _ _)
    have ih2 := ih (fun d hd => h d (List.mem_cons_of_mem _ hd))
    simp only [List.cons_append, List.takeWhile_cons, List.dropWhile_cons, hc, Bool.not_false,
      if_true, ih2.1, ih2.2, and_self]

theorem takeWhile_noSep {e : List Char} (h : ∀ c ∈ e, isPathSeparator c = false) :
    e.takeWhile (fun c => !isPathSeparator c) = e
      ∧ e.dropWhile (fun c => !isPathSeparator c) = [] := by
  induction e with
  | nil => exact ⟨rfl, rfl⟩
  | cons c rest ih =>
    have hc : isPathSeparator c = false := h c (List.mem_cons_self _ _)
    have ih2 := ih (fun d hd => h d (List.mem_cons_of_mem _ hd))
    simp only [List.takeWhile_cons, List.dropWhile_cons, hc, Bool.not_false,
      if_true, ih2.1, ih2.2, and_self]

theorem cleanStep_entryName (rooted : Bool) (out : List (List Char)) {e : List Char}
    (h : EntryName e) : cleanStep rooted out e = e :: out := by
  obtain ⟨h1, _, h3, h4⟩ := h
  unfold cleanStep
  rw [if_neg (by simp [h1, h3]), if_neg h4]

theorem foldl_cleanStep_names (rooted : Bool) (names : List (List Char)) :
    ∀ out, (∀ e ∈ names, EntryName e) →
      names.foldl (cleanStep rooted) out = names.reverse ++ out := by
  induction names with
  | nil => intro out _; rfl
  | cons e rest ih =>
    intro out h
    rw [List.foldl_cons, cleanStep_entryName rooted out (h e (List.mem_cons_self _ _)),
      ih _ (fun x hx => h x (List.mem_cons_of_mem _ hx))]
    simp

/-- What `filepath.Clean` writes is not empty and holds no separator. -/
theorem cleanStep_kept (rooted : Bool) (out : List (List Char)) (elem : List Char)
    (hout : ∀ e ∈ out, e ≠ [] ∧ e ≠ ['.'] ∧ ∀ c ∈ e, isPathSeparator c = false)
    (helem : ∀ c ∈ elem, isPathSeparator c = false) :
    ∀ e ∈ cleanStep rooted out elem, e ≠ [] ∧ e ≠ ['.'] ∧ ∀ c ∈ e, isPathSeparator c = false := by
  unfold cleanStep
  by_cases h1 : elem = [] ∨ elem = ['.']
  · rw [if_pos h1]; exact hout
  · rw [if_neg h1]
    have hne : elem ≠ [] := fun hc => h1 (Or.inl hc)
    have hnd : elem ≠ ['.'] := fun hc => h1 (Or.inr hc)
    have hpush : ∀ e ∈ elem :: out, e ≠ [] ∧ e ≠ ['.'] ∧ ∀ c ∈ e, isPathSeparator c = false := by
      intro e he
      rcases List.mem_cons.mp he with rfl | hmem
      · exact ⟨hne, hnd, helem⟩
      · exact hout e hmem
    by_cases h2 : elem = ['.', '.']
    · rw [if_pos h2]
      cases out with
      | nil =>
        cases rooted with
        | true => exact hout
        | false =>
          intro e he
          simp only [Bool.false_eq_true, if_false, List.mem_singleton] at he
          subst he
          exact ⟨hne, hnd, helem⟩
      | cons last before =>
        by_cases h3 : last = ['.', '.']
        · simp only [h3, if_true]
          rw [← h3]
          exact hpush
        · simp only [h3, if_false]
          intro e he
          exact hout e (List.mem_cons_of_mem _ he)
    · rw [if_neg h2]
      exact hpush

theorem foldl_cleanStep_kept (rooted : Bool) (elems : List (List Char)) :
    ∀ out, (∀ e ∈ out, e ≠ [] ∧ e ≠ ['.'] ∧ ∀ c ∈ e, isPathSeparator c = false) →
      (∀ e ∈ elems, ∀ c ∈ e, isPathSeparator c = false) →
      ∀ e ∈ elems.foldl (cleanStep rooted) out,
        e ≠ [] ∧ e ≠ ['.'] ∧ ∀ c ∈ e, isPathSeparator c = false := by
  induction elems with
  | nil => intro out hout _; exact hout
  | cons x rest ih =>
    intro out hout h
    rw [List.foldl_cons]
    exact ih _ (cleanStep_kept rooted out x hout (h x (List.mem_cons_self _ _)))
      (fun e he => h e (List.mem_cons_of_mem _ he))

theorem cleanElements_kept (path : String) :
    ∀ e ∈ cleanElements path, e ≠ [] ∧ e ≠ ['.'] ∧ ∀ c ∈ e, isPathSeparator c = false := by
  intro e he
  unfold cleanElements at he
  rw [List.mem_reverse] at he
  exact foldl_cleanStep_kept _ _ [] (fun x hx => by cases hx) (mem_splitSep_noSep _) e he

/-- Function `filepath.Clean` of a path that is not empty, by its elements. -/
theorem clean_data {path : String} (h : path ≠ "") :
    (Clean path).data
      = if rootText (rootedPath path) ++ joinSep (cleanElements path) = [] then ['.']
        else rootText (rootedPath path) ++ joinSep (cleanElements path) := by
  unfold Clean
  rw [if_neg h]
  show (if rootText (rootedPath path) ++ joinSep (cleanElements path) = [] then "."
    else String.mk (rootText (rootedPath path) ++ joinSep (cleanElements path))).data = _
  split <;> rfl

theorem pathUnder_data (R : String) {segs : List (List Char)} (h : segs ≠ []) :
    (pathUnder R segs).data = R.data ++ '/' :: joinSep segs := by
  unfold pathUnder
  rw [flatMap_sep_eq h]

theorem data_ne_nil {s : String} (h : s ≠ "") : s.data ≠ [] := by
  intro hc
  apply h
  exact String.ext hc

theorem rootedPath_pathUnder {R : String} (hR : R ≠ "") {segs : List (List Char)}
    (h : segs ≠ []) : rootedPath (pathUnder R segs) = rootedPath R := by
  unfold rootedPath
  rw [pathUnder_data R h]
  cases hd : R.data with
  | nil => exact absurd hd (data_ne_nil hR)
  | cons c rest => rfl

theorem cleanElements_pathUnder {R : String} (hR : R ≠ "") {segs : List (List Char)}
    (hne : segs ≠ []) (hsegs : ∀ s ∈ segs, EntryName s) :
    cleanElements (pathUnder R segs) = cleanElements R ++ segs := by
  unfold cleanElements
  rw [rootedPath_pathUnder hR hne, pathUnder_data R hne, splitSep_append,
    splitSep_joinSep segs hne (fun e he => (hsegs e he).2.1), List.foldl_append,
    foldl_cleanStep_names _ _ _ hsegs]
  simp

theorem pathUnder_ne_empty (R : String) {segs : List (List Char)} (h : segs ≠ []) :
    pathUnder R segs ≠ "" := by
  intro hc
  have := congrArg String.data hc
  rw [pathUnder_data R h] at this
  simp at this

/-- The loop of `filepath.Rel` when `base` is used up and the target goes on
with an element. -/
theorem relLoop_nil (fuel : Nat) (t : List Char)
    (h : t.head?.any isPathSeparator = false) : relLoop fuel [] t = ([], [], t) := by
  cases fuel with
  | zero => rfl
  | succ n =>
    cases t with
    | nil => simp [relLoop]
    | cons c rest =>
      have hc : isPathSeparator c = false := by simpa using h
      rw [relLoop, if_neg (by simp)]
      simp [List.takeWhile_cons, hc]

theorem length_drop_dropWhile_le (l : List Char) :
    ((l.dropWhile (fun c => !isPathSeparator c)).drop 1).length ≤ l.length := by
  have hle : (l.dropWhile (fun c => !isPathSeparator c)).length ≤ l.length :=
    (List.dropWhile_suffix _).length_le
  rw [List.length_drop]
  omega

theorem length_drop_dropWhile_lt {l : List Char} (h : l ≠ []) :
    ((l.dropWhile (fun c => !isPathSeparator c)).drop 1).length < l.length := by
  have hle : (l.dropWhile (fun c => !isPathSeparator c)).length ≤ l.length :=
    (List.dropWhile_suffix _).length_le
  have hpos : 0 < l.length := List.length_pos.mpr h
  rw [List.length_drop]
  omega

/-- The loop of `filepath.Rel` never runs out of rounds: with at least as many
rounds as both paths have runes, the result does not depend on their number. -/
theorem relLoop_fuel (fuel : Nat) :
    ∀ (b t : List Char) (fuel2 : Nat), b.length + t.length ≤ fuel →
      b.length + t.length ≤ fuel2 → relLoop fuel b t = relLoop fuel2 b t := by
  induction fuel with
  | zero =>
    intro b t fuel2 h _
    have hb : b = [] := List.length_eq_zero.mp (by omega)
    have ht : t = [] := List.length_eq_zero.mp (by omega)
    subst hb ht
    cases fuel2 with
    | zero => rfl
    | succ k => simp [relLoop]
  | succ n ih =>
    intro b t fuel2 h h2
    by_cases hnil : b = [] ∧ t = []
    · rw [relLoop, if_pos hnil]
      cases fuel2 with
      | zero => rfl
      | succ k => rw [relLoop, if_pos hnil]
    · have hlen : ((b.dropWhile (fun c => !isPathSeparator c)).drop 1).length
          + ((t.dropWhile (fun c => !isPathSeparator c)).drop 1).length
          < b.length + t.length := by
        have h1 := length_drop_dropWhile_le b
        have h2 := length_drop_dropWhile_le t
        by_cases hb : b = []
        · have ht : t ≠ [] := fun hc => hnil ⟨hb, hc⟩
          have := length_drop_dropWhile_lt ht
          omega
        · have := length_drop_dropWhile_lt hb
          omega
      cases fuel2 with
      | zero => omega
      | succ k =>
        rw [relLoop, relLoop, if_neg hnil, if_neg hnil]
        rw [ih _ (List.drop 1 (List.dropWhile (fun c => !isPathSeparator c) t)) k (by omega)
          (by omega)]

theorem joinSep_ne_nil {es : List (List Char)} (hne : es ≠ [])
    (h : ∀ e ∈ es, e ≠ []) : joinSep es ≠ [] := by
  cases es with
  | nil => exact absurd rfl hne
  | cons e rest =>
    have he := h e (List.mem_cons_self _ _)
    cases rest with
    | nil => exact he
    | cons next more =>
      rw [joinSep_cons (List.cons_ne_nil _ _)]
      simp [he]

/-- One round of the loop of `filepath.Rel` over an element that both paths
share. -/
theorem relLoop_step (fuel : Nat) {e : List Char} (hne : e ≠ [])
    (hsep : ∀ c ∈ e, isPathSeparator c = false) (es rest : List (List Char))
    (hrest : rest ≠ []) :
    relLoop (fuel + 1) (joinSep (e :: es)) (joinSep (e :: (es ++ rest)))
      = relLoop fuel (joinSep es) (joinSep (es ++ rest)) := by
  have ht : joinSep (e :: (es ++ rest)) = e ++ '/' :: joinSep (es ++ rest) := by
    rw [joinSep_cons (by simp [hrest])]
  have htne : joinSep (e :: (es ++ rest)) ≠ [] := by rw [ht]; simp [hne]
  have hbne : joinSep (e :: es) ≠ [] := by
    cases es with
    | nil => exact hne
    | cons next more => rw [joinSep_cons (List.cons_ne_nil _ _)]; simp [hne]
  rw [relLoop, if_neg (by simp [hbne, htne])]
  have h2 := takeWhile_noSep_append hsep (joinSep (es ++ rest))
  rw [← ht] at h2
  cases es with
  | nil =>
    have h1 := takeWhile_noSep hsep
    simp only [joinSep, h1.1, h1.2, h2.1, h2.2, ne_eq, not_true_eq_false, if_false,
      List.drop_nil, List.drop_succ_cons, List.drop_zero]
  | cons next more =>
    have h1 := takeWhile_noSep_append hsep (joinSep (next :: more))
    rw [← joinSep_cons (List.cons_ne_nil _ _)] at h1
    simp only [h1.1, h1.2, h2.1, h2.2, ne_eq, not_true_eq_false, if_false,
      List.drop_succ_cons, List.drop_zero]

theorem length_joinSep_cons_lt {e : List Char} (hne : e ≠ []) (es : List (List Char)) :
    (joinSep es).length < (joinSep (e :: es)).length := by
  have he : 0 < e.length := List.length_pos.mpr hne
  cases es with
  | nil => simpa [joinSep] using he
  | cons next more =>
    rw [joinSep_cons (List.cons_ne_nil _ _)]
    simp only [List.length_append, List.length_cons]
    omega

theorem joinSep_injective {xs ys : List (List Char)} (hx : xs ≠ []) (hy : ys ≠ [])
    (hxs : ∀ e ∈ xs, ∀ c ∈ e, isPathSeparator c = false)
    (hys : ∀ e ∈ ys, ∀ c ∈ e, isPathSeparator c = false)
    (h : joinSep xs = joinSep ys) : xs = ys := by
  rw [← splitSep_joinSep xs hx hxs, ← splitSep_joinSep ys hy hys, h]

theorem head_joinSep (xs : List (List Char))
    (h : ∀ e ∈ xs, e ≠ [] ∧ ∀ c ∈ e, isPathSeparator c = false) :
    (joinSep xs).head?.any isPathSeparator = false := by
  cases xs with
  | nil => rfl
  | cons x rest =>
    obtain ⟨hne, hsep⟩ := h x (List.mem_cons_self _ _)
    cases x with
    | nil => exact absurd rfl hne
    | cons c more =>
      have hc : isPathSeparator c = false := hsep c (List.mem_cons_self _ _)
      cases rest with
      | nil => simpa [joinSep] using hc
      | cons next others =>
        rw [joinSep_cons (List.cons_ne_nil _ _)]
        simpa using hc

/-- The loop of `filepath.Rel` on a base and a target that continues it. -/
theorem relLoop_prefix (es : List (List Char)) :
    (∀ e ∈ es, e ≠ [] ∧ e ≠ ['.'] ∧ ∀ c ∈ e, isPathSeparator c = false) →
    ∀ (rest : List (List Char)), rest ≠ [] →
      (∀ e ∈ rest, e ≠ [] ∧ ∀ c ∈ e, isPathSeparator c = false) →
      ∀ fuel, (joinSep es).length ≤ fuel →
        relLoop fuel (joinSep es) (joinSep (es ++ rest)) = ([], [], joinSep rest) := by
  induction es with
  | nil =>
    intro _ rest _ hrestElems fuel _
    exact relLoop_nil fuel _ (head_joinSep rest hrestElems)
  | cons e es ih =>
    intro h rest hrest hrestElems fuel hfuel
    have he := h e (List.mem_cons_self _ _)
    have hlt := length_joinSep_cons_lt he.1 es
    cases fuel with
    | zero => omega
    | succ n =>
      rw [List.cons_append, relLoop_step n he.1 he.2.2 es rest hrest]
      exact ih (fun x hx => h x (List.mem_cons_of_mem _ hx)) rest hrest hrestElems n (by omega)

theorem singleton_dot_noSep :
    ∀ e ∈ [['.']], ∀ c ∈ e, isPathSeparator c = false := by
  intro e he c hc
  simp only [List.mem_singleton] at he
  subst he
  simp only [List.mem_singleton] at hc
  subst hc
  rfl

/-- Function `filepath.Rel` on a base and a target whose cleaned forms are the
elements `es` and `es ++ segs` under the same root. -/
theorem rel_of_elements (basepath targpath : String) (rooted : Bool)
    (es segs : List (List Char))
    (hes : ∀ e ∈ es, e ≠ [] ∧ e ≠ ['.'] ∧ ∀ c ∈ e, isPathSeparator c = false)
    (hne : segs ≠ []) (hsegs : ∀ s ∈ segs, EntryName s)
    (hb : (Clean basepath).data
      = if rootText rooted ++ joinSep es = [] then ['.'] else rootText rooted ++ joinSep es)
    (ht : (Clean targpath).data = rootText rooted ++ joinSep (es ++ segs)) :
    Rel basepath targpath = Except.ok (String.mk (joinSep segs)) := by
  have hall : ∀ e ∈ es ++ segs, e ≠ [] ∧ ∀ c ∈ e, isPathSeparator c = false := by
    intro e he
    rcases List.mem_append.mp he with h1 | h1
    · exact ⟨(hes e h1).1, (hes e h1).2.2⟩
    · exact ⟨(hsegs e h1).1, (hsegs e h1).2.1⟩
  have hallDot : ∀ e ∈ es ++ segs, e ≠ ['.'] := by
    intro e he
    rcases List.mem_append.mp he with h1 | h1
    · exact (hes e h1).2.1
    · exact (hsegs e h1).2.2.1
  have hesSep : ∀ e ∈ es, ∀ c ∈ e, isPathSeparator c = false := fun e he => (hes e he).2.2
  have hsegsElems : ∀ e ∈ segs, e ≠ [] ∧ ∀ c ∈ e, isPathSeparator c = false :=
    fun e he => ⟨(hsegs e he).1, (hsegs e he).2.1⟩
  have hlonger : joinSep (es ++ segs) ≠ joinSep es := by
    intro hc
    cases es with
    | nil =>
      exact joinSep_ne_nil hne (fun e he => (hsegs e he).1) hc
    | cons e rest =>
      have := joinSep_injective (by simp) (List.cons_ne_nil _ _)
        (fun x hx => (hall x hx).2) hesSep hc
      have hlen := congrArg List.length this
      simp only [List.length_append, List.length_cons] at hlen
      have : segs.length = 0 := by omega
      exact hne (List.length_eq_zero.mp this)
  have htargDot : ¬ (joinSep (es ++ segs) = ['.']) := by
    intro hc
    have hs : es ++ segs = [['.']] :=
      joinSep_injective (by simp [hne]) (List.cons_ne_nil _ _)
        (fun x hx => (hall x hx).2) singleton_dot_noSep hc
    exact hallDot ['.'] (by rw [hs]; exact List.mem_cons_self _ _) rfl
  have hloop : ∀ fuel, (joinSep es).length ≤ fuel →
      relLoop fuel (joinSep es) (joinSep (es ++ segs)) = ([], [], joinSep segs) :=
    relLoop_prefix es hes segs hne hsegsElems
  have hheadT : (joinSep (es ++ segs)).head?.any isPathSeparator = false :=
    head_joinSep _ hall
  unfold Rel
  rw [hb, ht]
  cases rooted with
  | true =>
    have hbase : (rootText true ++ joinSep es) = '/' :: joinSep es := rfl
    have htarg : (rootText true ++ joinSep (es ++ segs)) = '/' :: joinSep (es ++ segs) := rfl
    rw [hbase, htarg, if_neg (List.cons_ne_nil _ _)]
    have h1 : ¬ ('/' :: joinSep (es ++ segs) = '/' :: joinSep es) := by
      intro hc
      exact hlonger (List.cons.inj hc).2
    have h2 : ¬ ('/' :: joinSep es = ['.']) := by
      intro hc
      have := (List.cons.inj hc).1
      revert this
      decide
    have h3 : ¬ ('/' :: joinSep (es ++ segs) = ['.']) := by
      intro hc
      have := (List.cons.inj hc).1
      revert this
      decide
    have hstep : relLoop (('/' :: joinSep es).length + ('/' :: joinSep (es ++ segs)).length)
        ('/' :: joinSep es) ('/' :: joinSep (es ++ segs)) = ([], [], joinSep segs) := by
      have hf : ('/' :: joinSep es).length + ('/' :: joinSep (es ++ segs)).length
          = ((joinSep es).length + (joinSep (es ++ segs)).length + 1) + 1 := by
        simp only [List.length_cons]
        omega
      rw [hf, relLoop, if_neg (by simp)]
      simp only [List.takeWhile_cons, List.dropWhile_cons, isPathSeparator, beq_self_eq_true,
        Bool.not_true, Bool.false_eq_true, if_false, ne_eq, not_true_eq_false,
        List.drop_succ_cons, List.drop_zero]
      exact hloop _ (by omega)
    rw [if_neg h1, if_neg h2, if_neg h3]
    simp only [hstep]
    simp [isPathSeparator]
  | false =>
    have hbase : (rootText false ++ joinSep es) = joinSep es := rfl
    have htarg : (rootText false ++ joinSep (es ++ segs)) = joinSep (es ++ segs) := rfl
    rw [hbase, htarg]
    have hbaseEq : (if (if joinSep es = [] then ['.'] else joinSep es) = ['.'] then []
        else (if joinSep es = [] then ['.'] else joinSep es)) = joinSep es := by
      cases es with
      | nil => simp [joinSep]
      | cons e rest =>
        have hbne : joinSep (e :: rest) ≠ [] :=
          joinSep_ne_nil (List.cons_ne_nil _ _) (fun x hx => (hes x hx).1)
        have hdot : ¬ (joinSep (e :: rest) = ['.']) := by
          intro hc
          have hs : e :: rest = [['.']] :=
            joinSep_injective (List.cons_ne_nil _ _) (List.cons_ne_nil _ _) hesSep
              singleton_dot_noSep hc
          exact (hes e (List.mem_cons_self _ _)).2.1 (List.cons.inj hs).1
        rw [if_neg hbne, if_neg hdot]
    have hdiff : ¬ (joinSep (es ++ segs) = if joinSep es = [] then ['.'] else joinSep es) := by
      by_cases hnil : joinSep es = []
      · rw [if_pos hnil]; exact htargDot
      · rw [if_neg hnil]; exact hlonger
    have hheadB : (joinSep es).head?.any isPathSeparator = false :=
      head_joinSep _ (fun x hx => ⟨(hes x hx).1, (hes x hx).2.2⟩)
    rw [if_neg hdiff, hbaseEq, if_neg htargDot]
    simp only [hheadB, hheadT, ne_eq, not_true_eq_false, if_false,
      hloop _ (Nat.le_add_right _ _)]
    simp

/-- Function `filepath.Rel` on paths that share some, all or none of their
elements, and on paths between which no relative path can be told. -/
theorem rel_examples :
    Rel "a/b" "a/b/c/d" = Except.ok "c/d"
      ∧ Rel "a/b/c/d" "a/b" = Except.ok "../.."
      ∧ Rel "ab/cd" "ab/cde" = Except.ok "../cde"
      ∧ Rel "/a/b/c" "/a/c/d" = Except.ok "../../c/d"
      ∧ Rel "a/b/." "a/b" = Except.ok "."
      ∧ Rel "." "a/b" = Except.ok "a/b"
      ∧ Rel "." ".." = Except.ok ".."
      ∧ Rel "prompts" "" = Except.ok ".."
      ∧ Rel ".." "." = Except.error "Rel: can't make . relative to .."
      ∧ Rel "../.." ".." = Except.error "Rel: can't make .. relative to ../.."
      ∧ Rel "a" "/a" = Except.error "Rel: can't make /a relative to a" := by
  refine ⟨?_, ?_, ?_, ?_, ?_, ?_, ?_, ?_, ?_, ?_, ?_⟩ <;> decide!

/-- Function `filepath.Rel` from a directory to an entry below it. -/
theorem rel_pathUnder {R : String} (hR : R ≠ "") {segs : List (List Char)} (hne : segs ≠ [])
    (hsegs : ∀ s ∈ segs, EntryName s) :
    Rel R (pathUnder R segs) = Except.ok (String.mk (joinSep segs)) := by
  apply rel_of_elements R (pathUnder R segs) (rootedPath R) (cleanElements R) segs
    (cleanElements_kept R) hne hsegs (clean_data hR)
  rw [clean_data (pathUnder_ne_empty R hne), rootedPath_pathUnder hR hne,
    cleanElements_pathUnder hR hne hsegs, if_neg]
  intro hc
  have h2 := (List.append_eq_nil.mp hc).2
  refine joinSep_ne_nil (by simp [hne]) ?_ h2
  intro e he
  rcases List.mem_append.mp he with h1 | h1
  · exact (cleanElements_kept R e h1).1
  · exact (hsegs e h1).1

/-- The category of an entry below the prompts directory: its first name when
it lies in a subdirectory, the fallback when it lies in the directory itself. -/
theorem getCategoryFromPath_pathUnder {R : String} (hR : R ≠ "") {segs : List (List Char)}
    (hne : segs ≠ []) (hsegs : ∀ s ∈ segs, EntryName s) :
    GetCategoryFromPath R (pathUnder R segs)
      = if segs.length > 1 then String.mk (segs.headD []) else "uncategorized" := by
  unfold GetCategoryFromPath
  rw [rel_pathUnder hR hne hsegs]
  simp only [splitSep_joinSep segs hne (fun e he => (hsegs e he).2.1)]

theorem trimRightFunc_of_last {f : Char → Bool} {l : List Char} {c : Char}
    (hc : f c = false) : trimRightFunc f (l ++ [c]) = l ++ [c] := by
  unfold trimRightFunc
  simp [List.dropWhile_cons, hc]

/-- Function `filepath.Base` of a path that ends in a separator and a name. -/
theorem base_of_last (pre : List Char) {name : List Char} (hne : name ≠ [])
    (hsep : ∀ c ∈ name, isPathSeparator c = false) :
    Base (String.mk (pre ++ '/' :: name)) = String.mk name := by
  have hlast : ∃ init c, name = init ++ [c] :=
    ⟨name.dropLast, name.getLast hne, (List.dropLast_append_getLast hne).symm⟩
  obtain ⟨init, c, hname⟩ := hlast
  have hc : isPathSeparator c = false := hsep c (by rw [hname]; simp)
  have hstrip : trimRightFunc isPathSeparator (pre ++ '/' :: name) = pre ++ '/' :: name := by
    rw [hname, show pre ++ '/' :: (init ++ [c]) = (pre ++ '/' :: init) ++ [c] by simp]
    exact trimRightFunc_of_last hc
  have hrevSep : ∀ d ∈ name.reverse, isPathSeparator d = false :=
    fun d hd => hsep d (List.mem_reverse.mp hd)
  have htake : ((pre ++ '/' :: name).reverse.takeWhile (fun c => !isPathSeparator c))
      = name.reverse := by
    rw [show (pre ++ '/' :: name).reverse = name.reverse ++ '/' :: pre.reverse by simp]
    exact (takeWhile_noSep_append hrevSep _).1
  unfold Base
  rw [if_neg (by
    intro h
    have := congrArg String.data h
    simp at this)]
  simp only [hstrip, htake, List.reverse_reverse, if_neg hne]

/-- Function `filepath.Ext` of a name with a last dot. -/
theorem ext_of_name {name ext : List Char}
    (hsep : ∀ c ∈ name ++ '.' :: ext, isPathSeparator c = false) (hdot : '.' ∉ ext) :
    Ext (String.mk (name ++ '.' :: ext)) = String.mk ('.' :: ext) := by
  have hrevSep : ∀ d ∈ (name ++ '.' :: ext).reverse, isPathSeparator d = false :=
    fun d hd => hsep d (List.mem_reverse.mp hd)
  have htail : (name ++ '.' :: ext).reverse.takeWhile (fun c => !isPathSeparator c)
      = ext.reverse ++ '.' :: name.reverse := by
    rw [(takeWhile_noSep hrevSep).1]
    simp
  have hext : ∀ (l : List Char) (rest : List Char), '.' ∉ l →
      (l ++ '.' :: rest).takeWhile (fun c => c != '.') = l := by
    intro l rest hl
    induction l with
    | nil => simp
    | cons d more ih =>
      have hd : d ≠ '.' := fun hc => hl (by rw [hc]; exact List.mem_cons_self _ _)
      simp only [List.cons_append, List.takeWhile_cons, bne_iff_ne, ne_eq, hd,
        not_false_eq_true, decide_True, if_true, List.cons.injEq, true_and]
      exact ih (fun hc => hl (List.mem_cons_of_mem _ hc))
  unfold Ext
  simp only [htail]
  rw [if_pos (by simp), hext ext.reverse _ (by simpa using hdot)]
  simp

/-- Function `strings.TrimSuffix` of a text that ends in the suffix. -/
theorem trimSuffix_append (a b : List Char) :
    trimSuffix (String.mk (a ++ b)) (String.mk b) = String.mk a := by
  unfold trimSuffix
  rw [if_pos ((hasSuffix_iff _ _).mpr ⟨a, rfl⟩)]
  simp

/-- The name part of the URI: the file name without its last extension. -/
theorem promptName_of_last (pre : List Char) {name ext : List Char}
    (hne : name ++ '.' :: ext ≠ [])
    (hsep : ∀ c ∈ name ++ '.' :: ext, isPathSeparator c = false) (hdot : '.' ∉ ext) :
    trimSuffix (Base (String.mk (pre ++ '/' :: (name ++ '.' :: ext))))
        (Ext (Base (String.mk (pre ++ '/' :: (name ++ '.' :: ext)))))
      = String.mk name := by
  rw [base_of_last pre hne hsep, ext_of_name hsep hdot, trimSuffix_append]

/-! ## Category and URI of a file -/

/-- C22: for a loader whose prompts root `R` is not the empty path, and for
names of directory entries `c`, `dirs` and `name.ext`, where `ext` holds no dot:
for the file `R/c/dirs.../name.ext` in a subdirectory of `R`,
`GetCategoryFromPath` returns `c` and `GeneratePromptURI` returns
`prompt://c/name`; for the file `R/name.ext` directly in the root, the category
is "uncategorized" and the URI is `prompt://uncategorized/name`. -/
theorem category_and_uri_of_path (R : String) (hR : R ≠ "")
    (c : List Char) (dirs : List (List Char)) (name ext : List Char)
    (hc : EntryName c) (hdirs : ∀ d ∈ dirs, EntryName d)
    (hfile : EntryName (name ++ '.' :: ext)) (hext : '.' ∉ ext) :
    GetCategoryFromPath R (pathUnder R (c :: (dirs ++ [name ++ '.' :: ext]))) = String.mk c
      ∧ GeneratePromptURI R (pathUnder R (c :: (dirs ++ [name ++ '.' :: ext])))
          = "prompt://" ++ String.mk c ++ "/" ++ String.mk name
      ∧ GetCategoryFromPath R (pathUnder R [name ++ '.' :: ext]) = "uncategorized"
      ∧ GeneratePromptURI R (pathUnder R [name ++ '.' :: ext])
          = "prompt://" ++ "uncategorized" ++ "/" ++ String.mk name := by
  have hdeep : ∀ s ∈ c :: (dirs ++ [name ++ '.' :: ext]), EntryName s := by
    intro s hs
    rcases List.mem_cons.mp hs with rfl | hs
    · exact hc
    · rcases List.mem_append.mp hs with hs | hs
      · exact hdirs s hs
      · rw [List.mem_singleton.mp hs]; exact hfile
  have hflat : ∀ s ∈ [name ++ '.' :: ext], EntryName s := by
    intro s hs
    rw [List.mem_singleton.mp hs]; exact hfile
  have hcat1 : GetCategoryFromPath R (pathUnder R (c :: (dirs ++ [name ++ '.' :: ext])))
      = String.mk c := by
    rw [getCategoryFromPath_pathUnder hR (List.cons_ne_nil _ _) hdeep, if_pos (by simp)]
    rfl
  have hcat2 : GetCategoryFromPath R (pathUnder R [name ++ '.' :: ext]) = "uncategorized" := by
    rw [getCategoryFromPath_pathUnder hR (List.cons_ne_nil _ _) hflat, if_neg (by simp)]
  have hlast : ∀ segs : List (List Char), ∃ pre : List Char,
      pathUnder R (segs ++ [name ++ '.' :: ext])
        = String.mk (pre ++ '/' :: (name ++ '.' :: ext)) := by
    intro segs
    refine ⟨R.data ++ segs.flatMap (fun seg => '/' :: seg), ?_⟩
    unfold pathUnder
    simp
  have hname : ∀ segs : List (List Char),
      trimSuffix (Base (pathUnder R (segs ++ [name ++ '.' :: ext])))
          (Ext (Base (pathUnder R (segs ++ [name ++ '.' :: ext]))))
        = String.mk name := by
    intro segs
    obtain ⟨pre, hpre⟩ := hlast segs
    rw [hpre]
    exact promptName_of_last pre hfile.1 hfile.2.1 hext
  refine ⟨hcat1, ?_, hcat2, ?_⟩
  · unfold GeneratePromptURI
    simp only [hcat1]
    rw [show c :: (dirs ++ [name ++ '.' :: ext]) = (c :: dirs) ++ [name ++ '.' :: ext] from rfl,
      hname]
  · unfold GeneratePromptURI
    simp only [hcat2]
    rw [show [name ++ '.' :: ext] = [] ++ [name ++ '.' :: ext] from rfl, hname]

/-- An instance of C22: the files "prompts/code/go/review.yaml" and
"prompts/review.yaml" of the root "prompts". -/
theorem category_and_uri_of_path_review :
    pathUnder "prompts" ["code".data, "go".data, "review.yaml".data]
        = "prompts/code/go/review.yaml"
      ∧ GetCategoryFromPath "prompts" "prompts/code/go/review.yaml" = "code"
      ∧ GeneratePromptURI "prompts" "prompts/code/go/review.yaml" = "prompt://code/review"
      ∧ GetCategoryFromPath "prompts" "prompts/review.yaml" = "uncategorized"
      ∧ GeneratePromptURI "prompts" "prompts/review.yaml" = "prompt://uncategorized/review" := by
  have h := category_and_uri_of_path "prompts" (by decide) "code".data ["go".data]
    "review".data "yaml".data ⟨by decide, by decide, by decide, by decide⟩
    (by
      intro d hd
      rw [List.mem_singleton.mp hd]
      exact ⟨by decide, by decide, by decide, by decide⟩)
    ⟨by decide, by decide, by decide, by decide⟩ (by decide)
  exact ⟨by decide!, h.1, h.2.1, h.2.2.1, h.2.2.2⟩

/-! ## Resolution of validated definitions

The prompts that `resolvePromptContent` receives are those of the library, and
each of them has passed `ValidatePrompt` when it was loaded. -/

/-- C2: for every definition that passes `ValidatePrompt` and every caller map,
if some argument marked required has no default and no entry in the caller map,
`resolvePromptContent` returns the error "required argument '<name>' not
provided" for the first such argument in declaration order, whatever the other
arguments would do in type conversion. -/
theorem resolvePromptContent_missing_required (rt : GoRuntime) (ord : RangeOrder)
    (p : Prompt) (args : GoMap) (hv : ValidatePrompt ord p = Except.ok ())
    (h : ∃ a ∈ p.Arguments,
      a.Required = true ∧ a.Default = Value.nil ∧ mapGet args a.Name = none) :
    ∃ pre first post, p.Arguments = pre ++ first :: post
      ∧ (first.Required = true ∧ first.Default = Value.nil ∧ mapGet args first.Name = none)
      ∧ (∀ b ∈ pre,
          ¬ (b.Required = true ∧ b.Default = Value.nil ∧ mapGet args b.Name = none))
      ∧ resolvePromptContent rt p args
          = Except.error ("required argument '" ++ first.Name ++ "' not provided") := by
  have hnd : (argumentNames p).Nodup := ((validatePrompt_ok_iff ord p).mp hv).2.2.1
  obtain ⟨a, ha, hreq, hdef, hnone⟩ := h
  obtain ⟨pre, first, post, hsplit, hfirst, hpre, hres⟩ :=
    resolvePromptContent_lacksValue rt p args
      ⟨a, ha, lacksValue_of_nodup p args a hnd ha hreq hdef hnone⟩
  have hmem : first ∈ p.Arguments := by rw [hsplit]; simp
  refine ⟨pre, first, post, hsplit, ⟨hfirst.1, hfirst.2.2 first hmem rfl, hfirst.2.1⟩, ?_, hres⟩
  intro b hb hcon
  have hbmem : b ∈ p.Arguments := by rw [hsplit]; simp [hb]
  exact hpre b hb (lacksValue_of_nodup p args b hnd hbmem hcon.1 hcon.2.1 hcon.2.2)

/-- The Hello scenario with an empty caller map, an instance of C2: the
definition is valid and the error names `name`. -/
theorem resolvePromptContent_missing_required_hello :
    ValidatePrompt RangeOrder.inOrder helloPrompt = Except.ok ()
      ∧ (∃ a ∈ helloPrompt.Arguments,
          a.Required = true ∧ a.Default = Value.nil ∧ mapGet [] a.Name = none)
      ∧ resolvePromptContent sampleRuntime helloPrompt []
          = Except.error "required argument 'name' not provided"
      ∧ ∃ pre first post, helloPrompt.Arguments = pre ++ first :: post
          ∧ (first.Required = true ∧ first.Default = Value.nil ∧ mapGet [] first.Name = none)
          ∧ (∀ b ∈ pre,
              ¬ (b.Required = true ∧ b.Default = Value.nil ∧ mapGet [] b.Name = none))
          ∧ resolvePromptContent sampleRuntime helloPrompt []
              = Except.error ("required argument '" ++ first.Name ++ "' not provided") :=
  ⟨by decide!, ⟨nameArgument, List.mem_cons_self _ _, rfl, rfl, rfl⟩, by decide!,
    resolvePromptContent_missing_required sampleRuntime RangeOrder.inOrder helloPrompt []
      (by decide!) ⟨nameArgument, List.mem_cons_self _ _, rfl, rfl, rfl⟩⟩

/-- C3: for every definition that passes `ValidatePrompt`, every argument `a` of
it that has a default, and every caller map: if the caller map has an entry for
`a`, the result of `resolvePromptContent` (text or error) is that for the
definition with the default of `a` removed; if the caller map has no entry for
`a`, the result is that for the caller map extended by `a -> default`. -/
theorem resolvePromptContent_default (rt : GoRuntime) (ord : RangeOrder) (p : Prompt)
    (pre : List Argument) (a : Argument) (post : List Argument) (args : GoMap)
    (hv : ValidatePrompt ord p = Except.ok ())
    (hsplit : p.Arguments = pre ++ a :: post) (hd : a.Default ≠ Value.nil) :
    (mapGet args a.Name ≠ none →
        resolvePromptContent rt p args
          = resolvePromptContent rt
              { p with Arguments := pre ++ { a with Default := Value.nil } :: post } args)
      ∧ (mapGet args a.Name = none →
          resolvePromptContent rt p args
            = resolvePromptContent rt p (mapSet args a.Name a.Default)) := by
  have hnd : (argumentNames p).Nodup := ((validatePrompt_ok_iff ord p).mp hv).2.2.1
  have hgen := resolvePromptContent_default_by_name rt p pre a post args hsplit hd
  refine ⟨hgen.1, fun hnone => hgen.2 hnone ?_⟩
  intro b hb hname
  exfalso
  unfold argumentNames at hnd
  rw [hsplit, List.map_append, List.map_cons] at hnd
  have h2 := (List.nodup_cons.mp (List.nodup_append.mp hnd).2.1).1
  exact h2 (List.mem_map.mpr ⟨b, hb, hname⟩)

/-- An instance of C3 on the valid definition `greetPrompt`: the caller's "Bob"
makes the default irrelevant, and an empty caller map resolves as the caller
map holding the default. -/
theorem resolvePromptContent_default_greet :
    ValidatePrompt RangeOrder.inOrder greetPrompt = Except.ok ()
      ∧ greetName.Default ≠ Value.nil
      ∧ mapGet [("name", Value.str "Bob")] greetName.Name ≠ none
      ∧ resolvePromptContent sampleRuntime greetPrompt [("name", Value.str "Bob")]
          = resolvePromptContent sampleRuntime
              { greetPrompt with Arguments := [] ++ { greetName with Default := Value.nil } :: [] }
              [("name", Value.str "Bob")]
      ∧ mapGet [] greetName.Name = none
      ∧ resolvePromptContent sampleRuntime greetPrompt []
          = resolvePromptContent sampleRuntime greetPrompt
              (mapSet [] greetName.Name greetName.Default)
      ∧ resolvePromptContent sampleRuntime greetPrompt [] = Except.ok "Hello World!" :=
  ⟨by decide!, by decide, by decide,
    (resolvePromptContent_default sampleRuntime RangeOrder.inOrder greetPrompt [] greetName []
      [("name", Value.str "Bob")] (by decide!) rfl (by decide)).1 (by decide),
    rfl,
    (resolvePromptContent_default sampleRuntime RangeOrder.inOrder greetPrompt [] greetName []
      [] (by decide!) rfl (by decide)).2 rfl,
    by decide!⟩

/-- C15: for every definition that passes `ValidatePrompt`, every caller map and
every extra entry `k -> v` whose name `k` is not the name of a declared
argument, `resolvePromptContent` on the caller map with the entry returns the
same result, text or error, as on the caller map without it. -/
theorem resolvePromptContent_undeclared_entry (rt : GoRuntime) (ord : RangeOrder)
    (p : Prompt) (args : GoMap) (k : String) (v : Value)
    (hv : ValidatePrompt ord p = Except.ok ()) (hk : k ∉ argumentNames p) :
    resolvePromptContent rt p (mapSet args k v) = resolvePromptContent rt p args := by
  apply resolvePromptContent_unused_entry rt p args k v hk
  intro hmem
  exact hk (((validatePrompt_ok_iff ord p).mp hv).2.2.2.2.1 k hmem)

/-- An instance of C15: the valid Hello definition ignores an entry for `mood`. -/
theorem resolvePromptContent_undeclared_entry_hello :
    ValidatePrompt RangeOrder.inOrder helloPrompt = Except.ok ()
      ∧ "mood" ∉ argumentNames helloPrompt
      ∧ resolvePromptContent sampleRuntime helloPrompt
          (mapSet [("name", Value.str "World")] "mood" (Value.str "glad"))
          = resolvePromptContent sampleRuntime helloPrompt [("name", Value.str "World")]
      ∧ resolvePromptContent sampleRuntime helloPrompt
          (mapSet [("name", Value.str "World")] "mood" (Value.str "glad"))
          = Except.ok "Hello World!" :=
  ⟨by decide!, by decide,
    resolvePromptContent_undeclared_entry sampleRuntime RangeOrder.inOrder helloPrompt
      [("name", Value.str "World")] "mood" (Value.str "glad") (by decide!) (by decide),
    by decide!⟩

end PromptMCP
